import Mathlib

/-! Keyboard matrix driver (`keyboard_driver.c`)

A shallow embedding of the scan, ghost-check, decode and report-assembly
pipeline of `keyboard_driver.c`, followed by theorems about it.

Conventions of the embedding:

* C arrays are `List Nat`; a read `a[i]` is `a.getD i 0`, a write is `a.set i v`.
* `uint8_t` / `uint16_t` values are natural numbers; a store that can truncate
  carries an explicit `% 256`.
* Code whose behaviour is undefined in C (a write past the end of a local
  array) or that waits for hardware readings which are not supplied returns
  `none`.
* The static variables of the file form the record `State`.
-/

namespace KeyboardDriver

/-! ## Configuration and constants -/

/-- Build-time configuration that `keyboard_driver.c` takes from the headers
`keyboard_driver.h` and `keymap.h`: the matrix dimensions, the capacity of a
pressed-key list, the two special keycodes and the keymap table
`keymaps[layer][column][row]`. -/
structure Config where
  MATRIX_ROWS : Nat
  MATRIX_COLS : Nat
  CHERRY8x16_MAX_NUM_OF_PRESSED_KEYS : Nat
  KC_FN0 : Nat
  KC_TRANSPARENT : Nat
  keymaps : Nat → Nat → Nat → Nat

/-- First HID usage code of the modifier keys (`#define MODIFIER_HID_START 0xE0`). -/
abbrev MODIFIER_HID_START : Nat := 0xE0

/-- Last HID usage code of the modifier keys (`#define MODIFIER_HID_END 0xE7`). -/
abbrev MODIFIER_HID_END : Nat := 0xE7

/-- Modelled from the spec: the header constant `KEY_PACKET_MODIFIER_KEY_INDEX`;
the report layout puts the modifier mask at offset 0. -/
abbrev KEY_PACKET_MODIFIER_KEY_INDEX : Nat := 0

/-- Modelled from the spec: the header constant `KEY_PACKET_RESERVED_INDEX`;
the report layout puts the reserved byte at offset 1. -/
abbrev KEY_PACKET_RESERVED_INDEX : Nat := 1

/-- Modelled from the spec: the header constant `KEY_PACKET_KEY_INDEX`;
the key slots of the report start at offset 2. -/
abbrev KEY_PACKET_KEY_INDEX : Nat := 2

/-- Modelled from the spec: the header constant `KEY_PACKET_NO_KEY`;
the empty-key sentinel of a key slot is 0. -/
abbrev KEY_PACKET_NO_KEY : Nat := 0

/-- Modelled from the spec: the header constant `KEY_PACKET_SIZE`;
a report has `2 + MAX_PRESSED` bytes. -/
abbrev KEY_PACKET_SIZE (cfg : Config) : Nat :=
  2 + cfg.CHERRY8x16_MAX_NUM_OF_PRESSED_KEYS

/-! ## State -/

/-- The static variables of `keyboard_driver.c`. -/
structure State where
  m_currently_pressed_keys : List Nat
  m_transmitted_keys : List Nat
  m_num_of_currently_pressed_keys : Nat
  m_number_of_transmitted_keys : Nat
  m_key_packet : List Nat
deriving DecidableEq, Repr

/-- The arrays of a state have the sizes their C declarations give them. -/
def State.Sized (cfg : Config) (st : State) : Prop :=
  st.m_currently_pressed_keys.length = cfg.CHERRY8x16_MAX_NUM_OF_PRESSED_KEYS ∧
  st.m_transmitted_keys.length = cfg.CHERRY8x16_MAX_NUM_OF_PRESSED_KEYS ∧
  st.m_key_packet.length = KEY_PACKET_SIZE cfg

instance (cfg : Config) (st : State) : Decidable (st.Sized cfg) := by
  unfold State.Sized; infer_instance

/-- The current key list: the first `m_num_of_currently_pressed_keys` entries
of `m_currently_pressed_keys`. -/
def State.current_keys (st : State) : List Nat :=
  st.m_currently_pressed_keys.take st.m_num_of_currently_pressed_keys

/-- The previous (transmitted) key list: the first
`m_number_of_transmitted_keys` entries of `m_transmitted_keys`. -/
def State.transmitted_keys (st : State) : List Nat :=
  st.m_transmitted_keys.take st.m_number_of_transmitted_keys

/-- Key slot `s` of a report: the byte at offset `KEY_PACKET_KEY_INDEX + s`. -/
def key_slot (packet : List Nat) (s : Nat) : Nat :=
  packet.getD (KEY_PACKET_KEY_INDEX + s) 0

/-! ## Change detector -/

/-- The loop `for (i = n; i--;)` of `cherry8x16_have_keys_changed`: visits
`i = n-1, ..., 0` and answers `true` at the first differing position. -/
def have_keys_changed_loop (state_now state_before : List Nat) : Nat → Bool
  | 0 => false
  | i + 1 =>
    if state_now.getD i 0 ≠ state_before.getD i 0 then true
    else have_keys_changed_loop state_now state_before i

/-- Embedding of `cherry8x16_have_keys_changed`. -/
def cherry8x16_have_keys_changed (state_now : List Nat) (number_of_now_pressed_keys : Nat)
    (state_before : List Nat) (number_of_before_pressed_keys : Nat) : Bool :=
  if number_of_now_pressed_keys ≠ number_of_before_pressed_keys then true
  else have_keys_changed_loop state_now state_before number_of_now_pressed_keys

/-! ## Report builder -/

/-- The offsets `KEY_PACKET_KEY_INDEX, ..., size - 1` visited by the key-slot loops. -/
def key_slot_indices (size : Nat) : List Nat :=
  List.range' KEY_PACKET_KEY_INDEX (size - KEY_PACKET_KEY_INDEX)

/-- Embedding of `cherry8x16_keypacket_addkey` on the buffer `m_key_packet`:
return unchanged when some key slot already holds `key`; otherwise store `key`
in the first slot holding `KEY_PACKET_NO_KEY`, if there is one. -/
def cherry8x16_keypacket_addkey (cfg : Config) (m_key_packet : List Nat) (key : Nat) :
    List Nat :=
  if (key_slot_indices (KEY_PACKET_SIZE cfg)).any (fun i => m_key_packet.getD i 0 == key) then
    m_key_packet
  else
    match (key_slot_indices (KEY_PACKET_SIZE cfg)).find?
        (fun i => m_key_packet.getD i 0 == KEY_PACKET_NO_KEY) with
    | some i => m_key_packet.set i key
    | none => m_key_packet

/-- First part of `cherry8x16_keypacket_create`: every key slot is set to
`KEY_PACKET_NO_KEY`, then the modifier and the reserved byte are set to 0. -/
def keypacket_clear (key_packet : List Nat) (key_packet_size : Nat) : List Nat :=
  (((key_slot_indices key_packet_size).foldl
      (fun p i => p.set i KEY_PACKET_NO_KEY) key_packet).set
        KEY_PACKET_MODIFIER_KEY_INDEX 0).set KEY_PACKET_RESERVED_INDEX 0

/-- Body of the priority loop of `cherry8x16_keypacket_create` for the
transmitted key at index `i`: the first equal current key (if any) is added to
the packet. -/
def priority_step (cfg : Config) (st : State) (p : List Nat) (i : Nat) : List Nat :=
  match (List.range st.m_num_of_currently_pressed_keys).find?
      (fun j => st.m_transmitted_keys.getD i 0 == st.m_currently_pressed_keys.getD j 0) with
  | some j => cherry8x16_keypacket_addkey cfg p (st.m_currently_pressed_keys.getD j 0)
  | none => p

/-- Second part of `cherry8x16_keypacket_create`: the priority loop over the
transmitted keys, in order. -/
def keypacket_priority (cfg : Config) (st : State) (key_packet : List Nat) : List Nat :=
  (List.range st.m_number_of_transmitted_keys).foldl (priority_step cfg st) key_packet

/-- Body of the last loop of `cherry8x16_keypacket_create` for the current key
`k`: a key in the modifier range sets its bit of the modifier byte, any other
non-zero key is added to the packet. -/
def classify_step (cfg : Config) (p : List Nat) (k : Nat) : List Nat :=
  if MODIFIER_HID_START ≤ k ∧ k ≤ MODIFIER_HID_END then
    p.set KEY_PACKET_MODIFIER_KEY_INDEX
      ((p.getD KEY_PACKET_MODIFIER_KEY_INDEX 0 |||
        (1 <<< (k - MODIFIER_HID_START)) % 256) % 256)
  else if k ≠ 0 then cherry8x16_keypacket_addkey cfg p k
  else p

/-- Third part of `cherry8x16_keypacket_create`: the loop over the current keys. -/
def keypacket_classify (cfg : Config) (st : State) (key_packet : List Nat) : List Nat :=
  (List.range st.m_num_of_currently_pressed_keys).foldl
    (fun p i => classify_step cfg p (st.m_currently_pressed_keys.getD i 0)) key_packet

/-- Embedding of `cherry8x16_keypacket_create (&m_key_packet[0], KEY_PACKET_SIZE)`:
the new contents of `m_key_packet`. -/
def cherry8x16_keypacket_create (cfg : Config) (st : State) : List Nat :=
  keypacket_classify cfg st
    (keypacket_priority cfg st (keypacket_clear st.m_key_packet (KEY_PACKET_SIZE cfg)))

/-! ## Matrix scanner and ghost detector -/

/-- One pass of the `for r` loop of `keymatrix_read`: `readings` holds the value
`read_column()` returns for each row; a row that differs from the working
snapshot is stored and resets the counter `debouncing` to 3. -/
def sweep_rows (cfg : Config) (matrix_debouncing : List Nat) (debouncing : Nat)
    (readings : List Nat) : List Nat × Nat :=
  (List.range cfg.MATRIX_ROWS).foldl
    (fun (acc : List Nat × Nat) r =>
      let cols := readings.getD r 0
      if acc.1.getD r 0 ≠ cols then (acc.1.set r cols, 3) else acc)
    (matrix_debouncing, debouncing)

/-- The loop `while (debouncing--)` of `keymatrix_read`. The hardware is the
list `sweeps` of the readings of successive sweeps; the loop consumes one
element per iteration. The result is the final working snapshot together with
the sweeps that were not consumed, or `none` when the loop asks for a sweep
that the list does not supply. -/
def debounce_loop (cfg : Config) :
    List (List Nat) → List Nat → Nat → Option (List Nat × List (List Nat))
  | sweeps, matrix_debouncing, 0 => some (matrix_debouncing, sweeps)
  | [], _, _ + 1 => none
  | readings :: rest, matrix_debouncing, d + 1 =>
    let acc := sweep_rows cfg matrix_debouncing d readings
    debounce_loop cfg rest acc.1 acc.2

/-- The test `((matrix_debouncing[i] - 1) & matrix_debouncing[i]) > 0` on a row
value `x`. The `uint16_t` operand is promoted to the 32-bit `int` of the
target, so `x - 1` has the two's complement bit pattern `(x + 2^32 - 1) % 2^32`
(all ones for `x = 0`); the conjunction with the non-negative `x` is
non-negative, so it is positive exactly when it is not 0. -/
def more_than_one_key (x : Nat) : Bool :=
  0 < Nat.land ((x + 2 ^ 32 - 1) % 2 ^ 32) x

/-- The body of the `for i` loop of the ghost check for row `i`: when the row
passes the test `more_than_one_key`, the inner `for j` loop sets the flag
`ghost` for every other row `j` that shares a bit with row `i`. -/
def ghost_row (cfg : Config) (matrix_debouncing : List Nat) (i : Nat) (ghost : Bool) : Bool :=
  if more_than_one_key (matrix_debouncing.getD i 0) = true then
    (List.range cfg.MATRIX_ROWS).foldl
      (fun g j =>
        if i ≠ j ∧ Nat.land (matrix_debouncing.getD i 0) (matrix_debouncing.getD j 0) ≠ 0 then true
        else g)
      ghost
  else ghost

/-- The `for i` loop at the end of `keymatrix_read`: the final value of `ghost`. -/
def ghost_flag (cfg : Config) (matrix_debouncing : List Nat) : Bool :=
  (List.range cfg.MATRIX_ROWS).foldl (fun g i => ghost_row cfg matrix_debouncing i g) false

/-- The ghost check at the end of `keymatrix_read`: the output array `matrix`
(every entry `i < MATRIX_ROWS` is written with `matrix_debouncing[i]`) and the
return value `!ghost`. -/
def ghost_check (cfg : Config) (matrix_debouncing : List Nat) : List Nat × Bool :=
  ((List.range cfg.MATRIX_ROWS).map (fun i => matrix_debouncing.getD i 0),
   !ghost_flag cfg matrix_debouncing)

/-- Embedding of `keymatrix_read`. The local array `matrix_debouncing` is not
initialised by the code, so its initial contents are a parameter. -/
def keymatrix_read (cfg : Config) (matrix_debouncing : List Nat) (sweeps : List (List Nat)) :
    Option (List Nat × Bool) :=
  match debounce_loop cfg sweeps matrix_debouncing 1 with
  | none => none
  | some (snapshot, _) => some (ghost_check cfg snapshot)

/-! ## Keycode mapper -/

/-- Body of the first loop nest of `matrix_to_keycode` at row `i`, column `j`.
The pair holds the entries `0 .. count-1` of `press_normal` and `press_fn`
(so `count` is their length). A write at
`count ≥ CHERRY8x16_MAX_NUM_OF_PRESSED_KEYS` is past the end of the local
arrays: the result is `none`. -/
def scan_pressed_step (cfg : Config) (matrix : List Nat) (i j : Nat)
    (acc : Option (List Nat × List Nat)) : Option (List Nat × List Nat) :=
  match acc with
  | none => none
  | some (press_normal, press_fn) =>
    if Nat.land (matrix.getD i 0) (1 <<< j) ≠ 0 then
      if press_normal.length < cfg.CHERRY8x16_MAX_NUM_OF_PRESSED_KEYS then
        some (press_normal ++ [cfg.keymaps 0 j i % 256],
              press_fn ++ [cfg.keymaps 1 j i % 256])
      else none
    else some (press_normal, press_fn)

/-- First loop nest of `matrix_to_keycode`: rows ascending, columns ascending
within a row. -/
def scan_pressed (cfg : Config) (matrix : List Nat) : Option (List Nat × List Nat) :=
  (List.range cfg.MATRIX_ROWS).foldl
    (fun acc i =>
      (List.range cfg.MATRIX_COLS).foldl (fun acc j => scan_pressed_step cfg matrix i j acc) acc)
    (some ([], []))

/-- The keycode the third loop of `matrix_to_keycode` chooses for candidate `i`. -/
def chosen_keycode (cfg : Config) (fn : Bool) (press_normal press_fn : List Nat) (i : Nat) : Nat :=
  if fn = true ∧ press_fn.getD i 0 ≠ cfg.KC_TRANSPARENT then press_fn.getD i 0
  else press_normal.getD i 0

/-- Body of the third loop of `matrix_to_keycode`: the triple is the array
behind `pressed_keys`, the offset of the moving pointer `pressed_keys`, and the
`uint8_t` counter `*number_of_pressed_keys`. -/
def emit_step (cfg : Config) (fn : Bool) (press_normal press_fn : List Nat)
    (acc : List Nat × Nat × Nat) (i : Nat) : List Nat × Nat × Nat :=
  let keycode := chosen_keycode cfg fn press_normal press_fn i
  if keycode ≠ cfg.KC_FN0 then (acc.1.set acc.2.1 keycode, acc.2.1 + 1, (acc.2.2 + 1) % 256)
  else acc

/-- Third loop of `matrix_to_keycode`, over the `count` recorded candidates. -/
def emit_keycodes (cfg : Config) (fn : Bool) (press_normal press_fn : List Nat)
    (pressed_keys : List Nat) : List Nat × Nat × Nat :=
  (List.range press_normal.length).foldl (emit_step cfg fn press_normal press_fn)
    (pressed_keys, 0, 0)

/-- Embedding of `matrix_to_keycode`: the new contents of the array
`pressed_keys` and the new value of `*number_of_pressed_keys`. -/
def matrix_to_keycode (cfg : Config) (matrix : List Nat) (pressed_keys : List Nat) :
    Option (List Nat × Nat) :=
  match scan_pressed cfg matrix with
  | none => none
  | some (press_normal, press_fn) =>
    let fn := press_normal.any (fun k => k == cfg.KC_FN0)
    let acc := emit_keycodes cfg fn press_normal press_fn pressed_keys
    some (acc.1, acc.2.2)

/-! ## Top-level operation -/

/-- What `new_packet` hands to its caller: the return value and the two
out-parameters (`none` when the call does not write them). -/
structure PacketResult where
  new_packet_prepared : Bool
  p_key_packet : Option (List Nat)
  p_key_packet_size : Option Nat
deriving DecidableEq, Repr

/-- The loop `for (i = CHERRY8x16_MAX_NUM_OF_PRESSED_KEYS; i--;)` of `new_packet`
that copies `m_currently_pressed_keys` into `m_transmitted_keys`. -/
def save_pressed_keys (src : List Nat) : Nat → List Nat → List Nat
  | 0, dst => dst
  | i + 1, dst => save_pressed_keys src i (dst.set i (src.getD i 0))

/-- Embedding of `new_packet`. The hardware seen by `keymatrix_read` is given by
the initial contents of its working snapshot and the list of sweeps. -/
def new_packet (cfg : Config) (st : State) (matrix_debouncing : List Nat)
    (sweeps : List (List Nat)) : Option (State × PacketResult) :=
  let st1 : State :=
    { st with
      m_transmitted_keys :=
        save_pressed_keys st.m_currently_pressed_keys cfg.CHERRY8x16_MAX_NUM_OF_PRESSED_KEYS
          st.m_transmitted_keys
      m_number_of_transmitted_keys := st.m_num_of_currently_pressed_keys }
  match keymatrix_read cfg matrix_debouncing sweeps with
  | none => none
  | some (_, false) => some (st1, ⟨false, none, none⟩)
  | some (key_matrix, true) =>
    match matrix_to_keycode cfg key_matrix st1.m_currently_pressed_keys with
    | none => none
    | some (keys, n) =>
      let st2 : State :=
        { st1 with m_currently_pressed_keys := keys, m_num_of_currently_pressed_keys := n }
      if cherry8x16_have_keys_changed st2.m_currently_pressed_keys
          st2.m_num_of_currently_pressed_keys st2.m_transmitted_keys
          st2.m_number_of_transmitted_keys = true then
        let st3 : State := { st2 with m_key_packet := cherry8x16_keypacket_create cfg st2 }
        some (st3, ⟨true, some st3.m_key_packet, some (KEY_PACKET_SIZE cfg)⟩)
      else some (st2, ⟨false, none, none⟩)

/-! ## A concrete configuration -/

/-- A sample keymap for an 8 x 16 matrix: the base layer has `A` (0x04) at
(row 0, column 0), `B` (0x05) at (row 1, column 1), `C` (0x06) at
(row 2, column 2), Left Shift (0xE1) at (row 3, column 3) and the Fn key
(0xC0) at (row 4, column 4); the overlay maps `A` to F1 (0x3A) and is
transparent (1) elsewhere. Unassigned positions hold 0. -/
def sample_keymaps (layer col row : Nat) : Nat :=
  if layer = 0 then
    if col = 0 ∧ row = 0 then 0x04
    else if col = 1 ∧ row = 1 then 0x05
    else if col = 2 ∧ row = 2 then 0x06
    else if col = 3 ∧ row = 3 then 0xE1
    else if col = 4 ∧ row = 4 then 0xC0
    else 0
  else
    if col = 0 ∧ row = 0 then 0x3A else 1

/-- A sample configuration: 8 rows, 16 columns, 6 keys per report,
`KC_FN0 = 0xC0`, `KC_TRANSPARENT = 1`. -/
def sample_cfg : Config :=
  { MATRIX_ROWS := 8, MATRIX_COLS := 16, CHERRY8x16_MAX_NUM_OF_PRESSED_KEYS := 6,
    KC_FN0 := 0xC0, KC_TRANSPARENT := 1, keymaps := sample_keymaps }

/-- The all-empty initial state (zero-initialised static storage). -/
def initial_state (cfg : Config) : State :=
  { m_currently_pressed_keys := List.replicate cfg.CHERRY8x16_MAX_NUM_OF_PRESSED_KEYS 0
    m_transmitted_keys := List.replicate cfg.CHERRY8x16_MAX_NUM_OF_PRESSED_KEYS 0
    m_num_of_currently_pressed_keys := 0
    m_number_of_transmitted_keys := 0
    m_key_packet := List.replicate (KEY_PACKET_SIZE cfg) 0 }

/-! ## Auxiliary definitions used by the statements and proofs -/

/-- The working snapshot with which the sample calls of `keymatrix_read` start. -/
def idle_snapshot : List Nat := [0, 0, 0, 0, 0, 0, 0, 0]

/-- Four identical sweeps reading `snapshot`: starting from a different working
snapshot, the first one changes it and the next three confirm it. -/
def steady_sweeps (snapshot : List Nat) : List (List Nat) :=
  [snapshot, snapshot, snapshot, snapshot]

/-- Snapshot with the `B` key (row 1, column 1) of `sample_keymaps` closed. -/
def snapshot_B : List Nat := [0, 2, 0, 0, 0, 0, 0, 0]

/-- Snapshot with the `A` key (row 0, column 0) and the `B` key closed. -/
def snapshot_AB : List Nat := [1, 2, 0, 0, 0, 0, 0, 0]

/-- Snapshot with the `B` key and the `C` key (row 2, column 2) closed. -/
def snapshot_BC : List Nat := [0, 2, 4, 0, 0, 0, 0, 0]

/-- Snapshot with the `A`, `B` and `C` keys closed. -/
def snapshot_ABC : List Nat := [1, 2, 4, 0, 0, 0, 0, 0]

/-- State after `A` and `B` were pressed from the initial state. -/
def state_AB : State :=
  { m_currently_pressed_keys := [4, 5, 0, 0, 0, 0]
    m_transmitted_keys := [0, 0, 0, 0, 0, 0]
    m_num_of_currently_pressed_keys := 2
    m_number_of_transmitted_keys := 0
    m_key_packet := [0, 0, 4, 5, 0, 0, 0, 0] }

/-- State `state_AB` after one more scan of the same keys. -/
def state_AB_again : State :=
  { m_currently_pressed_keys := [4, 5, 0, 0, 0, 0]
    m_transmitted_keys := [4, 5, 0, 0, 0, 0]
    m_num_of_currently_pressed_keys := 2
    m_number_of_transmitted_keys := 2
    m_key_packet := [0, 0, 4, 5, 0, 0, 0, 0] }

/-- State after `A` was released and `C` pressed, coming from `state_AB`. -/
def state_BC : State :=
  { m_currently_pressed_keys := [5, 6, 0, 0, 0, 0]
    m_transmitted_keys := [4, 5, 0, 0, 0, 0]
    m_num_of_currently_pressed_keys := 2
    m_number_of_transmitted_keys := 2
    m_key_packet := [0, 0, 5, 6, 0, 0, 0, 0] }

/-- State after `B` alone was pressed from the initial state. -/
def state_B : State :=
  { m_currently_pressed_keys := [5, 0, 0, 0, 0, 0]
    m_transmitted_keys := [0, 0, 0, 0, 0, 0]
    m_num_of_currently_pressed_keys := 1
    m_number_of_transmitted_keys := 0
    m_key_packet := [0, 0, 5, 0, 0, 0, 0, 0] }

/-- State after `A` was pressed in addition to `B`, coming from `state_B`. -/
def state_B_then_A : State :=
  { m_currently_pressed_keys := [4, 5, 0, 0, 0, 0]
    m_transmitted_keys := [5, 0, 0, 0, 0, 0]
    m_num_of_currently_pressed_keys := 2
    m_number_of_transmitted_keys := 1
    m_key_packet := [0, 0, 5, 4, 0, 0, 0, 0] }

/-- State after `C` was pressed in addition to `A` and `B`, coming from
`state_B_then_A`. -/
def state_B_then_A_then_C : State :=
  { m_currently_pressed_keys := [4, 5, 6, 0, 0, 0]
    m_transmitted_keys := [4, 5, 0, 0, 0, 0]
    m_num_of_currently_pressed_keys := 3
    m_number_of_transmitted_keys := 2
    m_key_packet := [0, 0, 4, 5, 6, 0, 0, 0] }

/-- A run of `new_packet` calls none of which prepares a packet; each call is
given by the initial working snapshot and the sweeps of its `keymatrix_read`.
The result is the state after the last call, or `none` when a call does not
return or prepares a packet. -/
def quiet_calls (cfg : Config) (st : State) : List (List Nat × List (List Nat)) → Option State
  | [] => some st
  | call :: rest =>
    match new_packet cfg st call.1 call.2 with
    | none => none
    | some (st', r) =>
      if r.new_packet_prepared = false then quiet_calls cfg st' rest else none

/-- A sample state: current keys `A, A, B, Left Shift, 0, C`, previous keys
`B, B, F1, A, 0, Left Shift`, and an arbitrary old packet. -/
def sample_state : State :=
  { m_currently_pressed_keys := [0x04, 0x04, 0x05, 0xE1, 0, 0x06]
    m_transmitted_keys := [0x05, 0x05, 0x3A, 0x04, 0, 0xE1]
    m_num_of_currently_pressed_keys := 6
    m_number_of_transmitted_keys := 6
    m_key_packet := [0xFF, 0x11, 9, 9, 9, 9, 9, 9] }

/-- Row `i` shares a set bit with another row `j < MATRIX_ROWS`. -/
def shares_bit (cfg : Config) (matrix_debouncing : List Nat) (i : Nat) : Bool :=
  (List.range cfg.MATRIX_ROWS).any
    (fun j => decide (i ≠ j ∧
      Nat.land (matrix_debouncing.getD i 0) (matrix_debouncing.getD j 0) ≠ 0))

/-- The set bits of row `i` of a snapshot, columns ascending, as
(row, column) pairs. -/
def pressed_in_row (cfg : Config) (matrix : List Nat) (i : Nat) : List (Nat × Nat) :=
  ((List.range cfg.MATRIX_COLS).filter (fun j => (matrix.getD i 0).testBit j)).map
    (fun j => (i, j))

/-- The set bits of a snapshot in row-major order (rows ascending, columns
ascending within a row), as (row, column) pairs. -/
def pressed_positions (cfg : Config) (matrix : List Nat) : List (Nat × Nat) :=
  (List.range cfg.MATRIX_ROWS).flatMap (fun i => pressed_in_row cfg matrix i)

/-- The base-layer keycode `keymaps[0][column][row]` of a position. -/
def base_keycode (cfg : Config) (p : Nat × Nat) : Nat := cfg.keymaps 0 p.2 p.1

/-- The overlay-layer keycode `keymaps[1][column][row]` of a position. -/
def overlay_keycode (cfg : Config) (p : Nat × Nat) : Nat := cfg.keymaps 1 p.2 p.1

/-- Reference decoder, written from the specification: enumerate the set bits
in row-major order; the overlay is active iff some set bit has base keycode
`KC_FN0`; every set bit yields its overlay keycode when the overlay is active
and that keycode is not `KC_TRANSPARENT`, else its base keycode; finally the
keycodes equal to `KC_FN0` are dropped. -/
def matrix_to_keycode_ref (cfg : Config) (matrix : List Nat) : List Nat :=
  let pressed := pressed_positions cfg matrix
  let overlay_active := pressed.any (fun p => decide (base_keycode cfg p = cfg.KC_FN0))
  (pressed.map (fun p =>
      if overlay_active = true ∧ overlay_keycode cfg p ≠ cfg.KC_TRANSPARENT then
        overlay_keycode cfg p
      else base_keycode cfg p)).filter (fun k => decide (k ≠ cfg.KC_FN0))

/-- Effect of recording one pressed position on the candidate arrays of
`matrix_to_keycode`: `none` when the arrays are already full. -/
def record_position (cfg : Config) (acc : Option (List Nat × List Nat)) (p : Nat × Nat) :
    Option (List Nat × List Nat) :=
  match acc with
  | none => none
  | some (press_normal, press_fn) =>
    if press_normal.length < cfg.CHERRY8x16_MAX_NUM_OF_PRESSED_KEYS then
      some (press_normal ++ [base_keycode cfg p % 256], press_fn ++ [overlay_keycode cfg p % 256])
    else none

/-- The keycodes emitted by the first `n` iterations of the third loop of
`matrix_to_keycode`. -/
def emitted (cfg : Config) (fn : Bool) (press_normal press_fn : List Nat) (n : Nat) : List Nat :=
  ((List.range n).map (chosen_keycode cfg fn press_normal press_fn)).filter
    (fun k => decide (k ≠ cfg.KC_FN0))

/-- The key list a loop `for (i = 0; i < n; i++)` reads from the array `arr`. -/
def keys_read (arr : List Nat) (n : Nat) : List Nat :=
  (List.range n).map (fun i => arr.getD i 0)

/-- The list `slots` with its first entry equal to 0 replaced by `key`. -/
def insert_first_empty (key : Nat) : List Nat → List Nat
  | [] => []
  | x :: xs => if x = 0 then key :: xs else x :: insert_first_empty key xs

/-- The key slots of a report whose non-empty slots hold the keys `keys`, in
order, followed by empty slots up to the capacity `m`. -/
def pad_slots (m : Nat) (keys : List Nat) : List Nat :=
  keys ++ List.replicate (m - keys.length) 0

/-- Effect of `cherry8x16_keypacket_addkey` on the list of non-empty key slots
of a report with `m` slots. -/
def add_key (m : Nat) (keys : List Nat) (k : Nat) : List Nat :=
  if k = 0 ∨ k ∈ keys ∨ m ≤ keys.length then keys else keys ++ [k]

/-- The keycode `k` lies in the modifier range `0xE0 .. 0xE7`. -/
def is_modifier (k : Nat) : Bool :=
  decide (MODIFIER_HID_START ≤ k ∧ k ≤ MODIFIER_HID_END)

/-- The modifier byte after the last loop of `cherry8x16_keypacket_create` has
processed the keys `keys`, starting from the value `m`. -/
def modifier_mask (keys : List Nat) (m : Nat) : Nat :=
  keys.foldl
    (fun m k =>
      if is_modifier k = true then (m ||| (1 <<< (k - MODIFIER_HID_START)) % 256) % 256 else m)
    m

/-- The keys offered to `cherry8x16_keypacket_addkey` by
`cherry8x16_keypacket_create`, in order: the previous keys that are also
current, then the current keys outside the modifier range. -/
def offered_keys (previous current : List Nat) : List Nat :=
  previous.filter (fun k => decide (k ∈ current)) ++
    current.filter (fun k => !is_modifier k)

/-- The non-empty key slots of the report built from the key lists `previous`
and `current`, for a report with `m` key slots. -/
def report_keys (m : Nat) (previous current : List Nat) : List Nat :=
  (offered_keys previous current).foldl (add_key m) []

/-- The state that `new_packet` reaches after saving the current key list as
the transmitted one (the loop and the assignment at its start). -/
def saved_state (cfg : Config) (st : State) : State :=
  { st with
    m_transmitted_keys :=
      save_pressed_keys st.m_currently_pressed_keys cfg.CHERRY8x16_MAX_NUM_OF_PRESSED_KEYS
        st.m_transmitted_keys
    m_number_of_transmitted_keys := st.m_num_of_currently_pressed_keys }

/-- Snapshot with the Left Shift key (row 3, column 3) of `sample_keymaps` closed. -/
def snapshot_shift : List Nat := [0, 0, 0, 8, 0, 0, 0, 0]

/-- Snapshot with the `A` key and the Left Shift key closed. -/
def snapshot_shift_A : List Nat := [1, 0, 0, 8, 0, 0, 0, 0]

/-- State after Left Shift alone was pressed from the initial state. -/
def state_shift : State :=
  { m_currently_pressed_keys := [0xE1, 0, 0, 0, 0, 0]
    m_transmitted_keys := [0, 0, 0, 0, 0, 0]
    m_num_of_currently_pressed_keys := 1
    m_number_of_transmitted_keys := 0
    m_key_packet := [2, 0, 0, 0, 0, 0, 0, 0] }

/-- State after `A` was pressed in addition to Left Shift, coming from
`state_shift`. -/
def state_shift_A : State :=
  { m_currently_pressed_keys := [0x04, 0xE1, 0, 0, 0, 0]
    m_transmitted_keys := [0xE1, 0, 0, 0, 0, 0]
    m_num_of_currently_pressed_keys := 2
    m_number_of_transmitted_keys := 1
    m_key_packet := [2, 0, 0xE1, 0x04, 0, 0, 0, 0] }

/-- Snapshot with seven keys of row 0 (columns 0 to 6) closed and no other key. -/
def snapshot_seven : List Nat := [127, 0, 0, 0, 0, 0, 0, 0]

/-- The list `l` without the repeated occurrences of its entries: of every
value only the first occurrence is kept. -/
def keep_first_occurrences : List Nat → List Nat
  | [] => []
  | x :: xs => x :: (keep_first_occurrences xs).filter (fun y => decide (y ≠ x))

/-- Reference for the key slots of a report with `m` slots, written from the
specification: the keycodes of `previous` that also occur in `current`, then
the keycodes of `current` outside the modifier range; without the empty keycode
0 and without repeated occurrences; the first `m` of them, padded with 0. -/
def report_slots_ref (m : Nat) (previous current : List Nat) : List Nat :=
  let candidates :=
    previous.filter (fun k => decide (k ∈ current)) ++
      current.filter (fun k => decide (k < MODIFIER_HID_START ∨ MODIFIER_HID_END < k))
  let kept := (keep_first_occurrences (candidates.filter (fun k => decide (k ≠ 0)))).take m
  kept ++ List.replicate (m - kept.length) 0

/-- The overlay is active for a snapshot: some pressed position has base
keycode `KC_FN0`. -/
def overlay_active (cfg : Config) (matrix : List Nat) : Bool :=
  (pressed_positions cfg matrix).any (fun p => decide (base_keycode cfg p = cfg.KC_FN0))

/-- The keycode a pressed position decodes to: its overlay keycode when the
overlay is active and that keycode is not `KC_TRANSPARENT`, else its base
keycode. -/
def decoded_keycode (cfg : Config) (matrix : List Nat) (p : Nat × Nat) : Nat :=
  if overlay_active cfg matrix = true ∧ overlay_keycode cfg p ≠ cfg.KC_TRANSPARENT then
    overlay_keycode cfg p
  else base_keycode cfg p

/-- A keymap with two space keys (0x2C), at (row 0, column 0) and at
(row 1, column 1); the overlay is transparent. -/
def split_space_keymaps (layer col row : Nat) : Nat :=
  if layer = 0 then
    if col = 0 ∧ row = 0 then 0x2C
    else if col = 1 ∧ row = 1 then 0x2C
    else 0
  else 1

/-- The sample configuration with the keymap `split_space_keymaps`. -/
def split_space_cfg : Config := { sample_cfg with keymaps := split_space_keymaps }

/-- A keymap whose Fn key (row 4, column 4) has the overlay keycode Escape
(0x29); the base layer has `A` at (row 0, column 0), the overlay is
transparent elsewhere. -/
def fn_remap_keymaps (layer col row : Nat) : Nat :=
  if layer = 0 then
    if col = 0 ∧ row = 0 then 0x04
    else if col = 4 ∧ row = 4 then 0xC0
    else 0
  else
    if col = 4 ∧ row = 4 then 0x29 else 1

/-- The sample configuration with the keymap `fn_remap_keymaps`. -/
def fn_remap_cfg : Config := { sample_cfg with keymaps := fn_remap_keymaps }

/-- Snapshot with only the key at (row 4, column 4) closed. -/
def snapshot_fn : List Nat := [0, 0, 0, 0, 16, 0, 0, 0]

/-- Snapshot with an L pattern: two keys in row 0 (columns 0 and 1) and one key
in row 1 (column 0). -/
def snapshot_L : List Nat := [3, 1, 0, 0, 0, 0, 0, 0]

/-- A sweep with the readings `readings` changes the working snapshot
`matrix_debouncing`: some row `r < MATRIX_ROWS` reads a different value. -/
def sweep_changes (cfg : Config) (matrix_debouncing readings : List Nat) : Bool :=
  (List.range cfg.MATRIX_ROWS).any
    (fun r => decide (matrix_debouncing.getD r 0 ≠ readings.getD r 0))

/-- The working snapshot after the sweeps `sweeps`, starting from
`matrix_debouncing`. -/
def snapshot_after (cfg : Config) (matrix_debouncing : List Nat) : List (List Nat) → List Nat
  | [] => matrix_debouncing
  | readings :: rest =>
    snapshot_after cfg (sweep_rows cfg matrix_debouncing 0 readings).1 rest

/-! ## Change detector: theorems -/

theorem have_keys_changed_loop_iff (state_now state_before : List Nat) (n : Nat) :
    have_keys_changed_loop state_now state_before n = true ↔
      ∃ i, i < n ∧ state_now.getD i 0 ≠ state_before.getD i 0 := by
  induction n with
  | zero => simp [have_keys_changed_loop]
  | succ n ih =>
    unfold have_keys_changed_loop
    by_cases h : state_now.getD n 0 = state_before.getD n 0
    · rw [if_neg (by simpa using h), ih]
      constructor
      · rintro ⟨i, hi, hne⟩
        exact ⟨i, by omega, hne⟩
      · rintro ⟨i, hi, hne⟩
        have hin : i ≠ n := fun e => hne (e ▸ h)
        exact ⟨i, by omega, hne⟩
    · rw [if_pos h]
      exact ⟨fun _ => ⟨n, by omega, h⟩, fun _ => rfl⟩

theorem have_keys_changed_true_iff (state_now state_before : List Nat) (n_now n_before : Nat) :
    cherry8x16_have_keys_changed state_now n_now state_before n_before = true ↔
      (n_now ≠ n_before ∨ ∃ i, i < n_now ∧ state_now.getD i 0 ≠ state_before.getD i 0) := by
  unfold cherry8x16_have_keys_changed
  by_cases h : n_now = n_before
  · rw [if_neg (by simpa using h), have_keys_changed_loop_iff]
    simp [h]
  · simp [h]

/-- Claim C8: `cherry8x16_have_keys_changed` returns true exactly when the two
counts differ or some position below `n_now` holds different keycodes
(entries at positions `≥ n_now` are ignored); hence on two identical lists it
returns false. -/
theorem have_keys_changed_iff (state_now state_before : List Nat) (n_now n_before : Nat) :
    (cherry8x16_have_keys_changed state_now n_now state_before n_before = true ↔
      (n_now ≠ n_before ∨ ∃ i, i < n_now ∧ state_now.getD i 0 ≠ state_before.getD i 0)) ∧
    cherry8x16_have_keys_changed state_now n_now state_now n_now = false := by
  refine ⟨have_keys_changed_true_iff state_now state_before n_now n_before, ?_⟩
  cases hb : cherry8x16_have_keys_changed state_now n_now state_now n_now with
  | false => rfl
  | true =>
    rcases (have_keys_changed_true_iff state_now state_now n_now n_now).mp hb with h | ⟨i, _, h⟩
    · exact absurd rfl h
    · exact absurd rfl h

/-! ## Ghost detector: theorems -/

theorem foldl_set_true {α : Type} (P : α → Prop) [DecidablePred P] (l : List α) (g : Bool) :
    l.foldl (fun g j => if P j then true else g) g = (g || l.any (fun j => decide (P j))) := by
  induction l generalizing g with
  | nil => simp
  | cons a l ih =>
    simp only [List.foldl_cons, List.any_cons, ih]
    by_cases h : P a <;> simp [h]

theorem foldl_or_any {α : Type} (f : α → Bool → Bool) (p : α → Bool)
    (hf : ∀ a g, f a g = (g || p a)) (l : List α) (g : Bool) :
    l.foldl (fun g a => f a g) g = (g || l.any p) := by
  induction l generalizing g with
  | nil => simp
  | cons a l ih =>
    rw [List.foldl_cons, ih, hf, List.any_cons, Bool.or_assoc]

theorem ghost_row_eq (cfg : Config) (md : List Nat) (i : Nat) (g : Bool) :
    ghost_row cfg md i g = (g || (more_than_one_key (md.getD i 0) && shares_bit cfg md i)) := by
  unfold ghost_row shares_bit
  by_cases h : more_than_one_key (md.getD i 0) = true
  · rw [if_pos h, foldl_set_true, h]
    simp
  · rw [if_neg h]
    simp at h
    simp [h]

theorem ghost_flag_eq (cfg : Config) (md : List Nat) :
    ghost_flag cfg md =
      (List.range cfg.MATRIX_ROWS).any
        (fun i => more_than_one_key (md.getD i 0) && shares_bit cfg md i) := by
  unfold ghost_flag
  rw [foldl_or_any (fun i g => ghost_row cfg md i g) _ (fun a g => ghost_row_eq cfg md a g)]
  simp

theorem land_ne_zero_iff (a b : Nat) :
    Nat.land a b ≠ 0 ↔ ∃ c, a.testBit c = true ∧ b.testBit c = true := by
  constructor
  · intro h
    obtain ⟨c, hc⟩ := Nat.ne_zero_implies_bit_true h
    have hc2 : (a &&& b).testBit c = true := hc
    rw [Nat.testBit_and] at hc2
    simp at hc2
    exact ⟨c, hc2⟩
  · rintro ⟨c, ha, hb⟩ h0
    have hc : (a &&& b).testBit c = true := by simp [Nat.testBit_and, ha, hb]
    have h0 : a &&& b = 0 := h0
    rw [h0] at hc
    simp at hc

theorem testBit_pred_of_lower_bit (x c1 c2 : Nat) (hlt : c1 < c2)
    (h1 : x.testBit c1 = true) (h2 : x.testBit c2 = true) : (x - 1).testBit c2 = true := by
  have hr : (x % 2 ^ c2).testBit c1 = true := by
    rw [Nat.testBit_mod_two_pow]; simp [hlt, h1]
  have hrpos : 0 < x % 2 ^ c2 := by
    rcases Nat.eq_zero_or_pos (x % 2 ^ c2) with h | h
    · rw [h] at hr; simp at hr
    · exact h
  have hpow : 0 < 2 ^ c2 := Nat.two_pow_pos c2
  have hrlt : x % 2 ^ c2 < 2 ^ c2 := Nat.mod_lt _ hpow
  have hx : x % 2 ^ c2 + 2 ^ c2 * (x / 2 ^ c2) = x := Nat.mod_add_div x (2 ^ c2)
  have hx1 : x - 1 = (x % 2 ^ c2 - 1) + 2 ^ c2 * (x / 2 ^ c2) := by omega
  have hdiv : (x - 1) / 2 ^ c2 = x / 2 ^ c2 := by
    rw [hx1, Nat.add_mul_div_left _ _ hpow, Nat.div_eq_of_lt (by omega)]
    simp
  rw [Nat.testBit_to_div_mod] at h2 ⊢
  rw [hdiv]
  exact h2

theorem more_than_one_key_iff (x : Nat) (hx : x < 2 ^ 32) :
    more_than_one_key x = true ↔
      ∃ c1 c2, c1 ≠ c2 ∧ x.testBit c1 = true ∧ x.testBit c2 = true := by
  unfold more_than_one_key
  rw [decide_eq_true_iff, Nat.pos_iff_ne_zero]
  rcases Nat.eq_zero_or_pos x with h0 | hpos
  · subst h0
    constructor
    · intro h; exact absurd rfl h
    · rintro ⟨c1, _, _, h1, _⟩; simp at h1
  · have hm : (x + 2 ^ 32 - 1) % 2 ^ 32 = x - 1 := by
      have e : x + 2 ^ 32 - 1 = (x - 1) + 2 ^ 32 := by omega
      rw [e, Nat.add_mod_right, Nat.mod_eq_of_lt (by omega)]
    rw [hm, land_ne_zero_iff]
    constructor
    · rintro ⟨c, hc1, hc2⟩
      by_contra hno
      have hall : ∀ i, x.testBit i = (2 ^ c).testBit i := by
        intro i
        rw [Nat.testBit_two_pow]
        by_cases hic : c = i
        · subst hic; simp [hc2]
        · simp only [hic, decide_False]
          cases hb : x.testBit i with
          | false => rfl
          | true => exact absurd ⟨c, i, hic, hc2, hb⟩ hno
      have hxc : x = 2 ^ c := Nat.eq_of_testBit_eq hall
      rw [hxc, Nat.testBit_two_pow_sub_one] at hc1
      simp at hc1
    · rintro ⟨c1, c2, hne, h1, h2⟩
      rcases Nat.lt_or_gt_of_ne hne with hlt | hgt
      · exact ⟨c2, testBit_pred_of_lower_bit x c1 c2 hlt h1 h2, h2⟩
      · exact ⟨c1, testBit_pred_of_lower_bit x c2 c1 hgt h2 h1, h1⟩

theorem ghost_flag_true_iff (cfg : Config) (md : List Nat) :
    ghost_flag cfg md = true ↔
      ∃ i, i < cfg.MATRIX_ROWS ∧ more_than_one_key (md.getD i 0) = true ∧
        ∃ j, j < cfg.MATRIX_ROWS ∧ i ≠ j ∧ Nat.land (md.getD i 0) (md.getD j 0) ≠ 0 := by
  rw [ghost_flag_eq, List.any_eq_true]
  constructor
  · rintro ⟨i, hi, h⟩
    rw [Bool.and_eq_true] at h
    obtain ⟨hm, hs⟩ := h
    unfold shares_bit at hs
    rw [List.any_eq_true] at hs
    obtain ⟨j, hj, hd⟩ := hs
    rw [decide_eq_true_iff] at hd
    exact ⟨i, List.mem_range.mp hi, hm, j, List.mem_range.mp hj, hd.1, hd.2⟩
  · rintro ⟨i, hi, hm, j, hj, hij, hl⟩
    refine ⟨i, List.mem_range.mpr hi, ?_⟩
    rw [Bool.and_eq_true]
    refine ⟨hm, ?_⟩
    unfold shares_bit
    rw [List.any_eq_true]
    exact ⟨j, List.mem_range.mpr hj, by rw [decide_eq_true_iff]; exact ⟨hij, hl⟩⟩

theorem getD_lt_of_forall_mem (l : List Nat) (b : Nat) (hb : 0 < b) (h : ∀ x ∈ l, x < b)
    (i : Nat) : l.getD i 0 < b := by
  by_cases hi : i < l.length
  · rw [List.getD_eq_getElem _ _ hi]
    exact h _ (List.getElem_mem hi)
  · rw [List.getD_eq_default _ _ (by omega)]
    exact hb

theorem map_getD_range (l : List Nat) :
    (List.range l.length).map (fun i => l.getD i 0) = l := by
  apply List.ext_getElem
  · simp
  · intro n h1 h2
    simp [List.getElem?_eq_getElem h2]

theorem sweep_rows_length (cfg : Config) (md : List Nat) (d : Nat) (readings : List Nat) :
    (sweep_rows cfg md d readings).1.length = md.length := by
  unfold sweep_rows
  generalize List.range cfg.MATRIX_ROWS = rows
  generalize d = d0
  induction rows generalizing md d0 with
  | nil => simp
  | cons r rows ih =>
    rw [List.foldl_cons, ih]
    dsimp only
    split <;> simp

theorem debounce_loop_length (cfg : Config) (sweeps : List (List Nat)) (md : List Nat) (d : Nat)
    (snapshot : List Nat) (rest : List (List Nat))
    (h : debounce_loop cfg sweeps md d = some (snapshot, rest)) : snapshot.length = md.length := by
  induction sweeps generalizing md d with
  | nil =>
    cases d with
    | zero => simp [debounce_loop] at h; rw [h.1]
    | succ d => simp [debounce_loop] at h
  | cons readings sweeps ih =>
    cases d with
    | zero => simp [debounce_loop] at h; rw [h.1]
    | succ d =>
      simp only [debounce_loop] at h
      rw [ih _ _ h, sweep_rows_length]

theorem keymatrix_read_of_debounce (cfg : Config) (md0 : List Nat) (sweeps : List (List Nat))
    (snapshot : List Nat) (rest : List (List Nat))
    (h : debounce_loop cfg sweeps md0 1 = some (snapshot, rest)) :
    keymatrix_read cfg md0 sweeps = some (ghost_check cfg snapshot) := by
  unfold keymatrix_read
  rw [h]

theorem at_most_one_bit_of_zero_or_pow (x : Nat) (h : x = 0 ∨ ∃ k, x = 2 ^ k) :
    ∀ c1 c2, x.testBit c1 = true → x.testBit c2 = true → c1 = c2 := by
  intro c1 c2 h1 h2
  rcases h with h | ⟨k, h⟩
  · subst h; simp at h1
  · subst h
    rw [Nat.testBit_two_pow] at h1 h2
    simp at h1 h2
    omega

/-- Claim C3: when the debounced snapshot has two distinct rows that each have
at least two bits set and that share a set column bit, the ghost check at the
end of `keymatrix_read` returns false. -/
theorem ghost_check_rejects_two_multi_key_rows (cfg : Config) (md0 : List Nat)
    (sweeps : List (List Nat)) (snapshot : List Nat) (rest : List (List Nat))
    (hd : debounce_loop cfg sweeps md0 1 = some (snapshot, rest))
    (hu16 : ∀ x ∈ snapshot, x < 65536)
    (i j : Nat) (hi : i < cfg.MATRIX_ROWS) (hj : j < cfg.MATRIX_ROWS) (hij : i ≠ j)
    (hi2 : ∃ c1 c2, c1 ≠ c2 ∧ (snapshot.getD i 0).testBit c1 = true ∧
      (snapshot.getD i 0).testBit c2 = true)
    (_hj2 : ∃ c1 c2, c1 ≠ c2 ∧ (snapshot.getD j 0).testBit c1 = true ∧
      (snapshot.getD j 0).testBit c2 = true)
    (hshare : ∃ c, (snapshot.getD i 0).testBit c = true ∧ (snapshot.getD j 0).testBit c = true) :
    (ghost_check cfg snapshot).2 = false ∧
    keymatrix_read cfg md0 sweeps = some ((ghost_check cfg snapshot).1, false) := by
  have hg : ghost_flag cfg snapshot = true := by
    rw [ghost_flag_true_iff]
    have hlt : snapshot.getD i 0 < 2 ^ 32 :=
      Nat.lt_trans (getD_lt_of_forall_mem snapshot 65536 (by decide) hu16 i) (by decide)
    exact ⟨i, hi, (more_than_one_key_iff _ hlt).mpr hi2, j, hj, hij,
      (land_ne_zero_iff _ _).mpr hshare⟩
  have h2 : (ghost_check cfg snapshot).2 = false := by
    simp [ghost_check, hg]
  refine ⟨h2, ?_⟩
  rw [keymatrix_read_of_debounce cfg md0 sweeps snapshot rest hd, ← h2]

theorem ghost_check_rejects_two_multi_key_rows_witness :
    (ghost_check sample_cfg [3, 3, 0, 0, 0, 0, 0, 0]).2 = false ∧
    keymatrix_read sample_cfg [0, 0, 0, 0, 0, 0, 0, 0]
        [[3, 3, 0, 0, 0, 0, 0, 0], [3, 3, 0, 0, 0, 0, 0, 0], [3, 3, 0, 0, 0, 0, 0, 0],
         [3, 3, 0, 0, 0, 0, 0, 0]] =
      some ((ghost_check sample_cfg [3, 3, 0, 0, 0, 0, 0, 0]).1, false) :=
  ghost_check_rejects_two_multi_key_rows sample_cfg [0, 0, 0, 0, 0, 0, 0, 0]
    [[3, 3, 0, 0, 0, 0, 0, 0], [3, 3, 0, 0, 0, 0, 0, 0], [3, 3, 0, 0, 0, 0, 0, 0],
     [3, 3, 0, 0, 0, 0, 0, 0]] [3, 3, 0, 0, 0, 0, 0, 0] [] (by decide) (by decide)
    0 1 (by decide) (by decide) (by decide)
    ⟨0, 1, by decide, by decide, by decide⟩ ⟨0, 1, by decide, by decide, by decide⟩
    ⟨0, by decide, by decide⟩

/-- Claim C4: when every row of the debounced snapshot has at most one bit set
(rows equal to 0 included), the ghost check at the end of `keymatrix_read`
returns true and the output matrix equals the snapshot. -/
theorem ghost_check_accepts_single_key_rows (cfg : Config) (md0 : List Nat)
    (sweeps : List (List Nat)) (snapshot : List Nat) (rest : List (List Nat))
    (hlen : md0.length = cfg.MATRIX_ROWS)
    (hd : debounce_loop cfg sweeps md0 1 = some (snapshot, rest))
    (hu16 : ∀ x ∈ snapshot, x < 65536)
    (hone : ∀ i, i < cfg.MATRIX_ROWS → ∀ c1 c2, (snapshot.getD i 0).testBit c1 = true →
      (snapshot.getD i 0).testBit c2 = true → c1 = c2) :
    ghost_check cfg snapshot = (snapshot, true) ∧
    keymatrix_read cfg md0 sweeps = some (snapshot, true) := by
  have hg : ghost_flag cfg snapshot = false := by
    cases hb : ghost_flag cfg snapshot with
    | false => rfl
    | true =>
      obtain ⟨i, hi, hm, _⟩ := (ghost_flag_true_iff cfg snapshot).mp hb
      have hlt : snapshot.getD i 0 < 2 ^ 32 :=
        Nat.lt_trans (getD_lt_of_forall_mem snapshot 65536 (by decide) hu16 i) (by decide)
      obtain ⟨c1, c2, hne, h1, h2⟩ := (more_than_one_key_iff _ hlt).mp hm
      exact absurd (hone i hi c1 c2 h1 h2) hne
  have hl : snapshot.length = cfg.MATRIX_ROWS := by
    rw [debounce_loop_length cfg sweeps md0 1 snapshot rest hd, hlen]
  have hc : ghost_check cfg snapshot = (snapshot, true) := by
    unfold ghost_check
    rw [hg, ← hl, map_getD_range]
    rfl
  exact ⟨hc, by rw [keymatrix_read_of_debounce cfg md0 sweeps snapshot rest hd, hc]⟩

theorem ghost_check_accepts_single_key_rows_witness :
    ghost_check sample_cfg [1, 2, 0, 0, 0, 0, 0, 0] = ([1, 2, 0, 0, 0, 0, 0, 0], true) ∧
    keymatrix_read sample_cfg [0, 0, 0, 0, 0, 0, 0, 0]
        [[1, 2, 0, 0, 0, 0, 0, 0], [1, 2, 0, 0, 0, 0, 0, 0], [1, 2, 0, 0, 0, 0, 0, 0],
         [1, 2, 0, 0, 0, 0, 0, 0]] = some ([1, 2, 0, 0, 0, 0, 0, 0], true) :=
  ghost_check_accepts_single_key_rows sample_cfg [0, 0, 0, 0, 0, 0, 0, 0]
    [[1, 2, 0, 0, 0, 0, 0, 0], [1, 2, 0, 0, 0, 0, 0, 0], [1, 2, 0, 0, 0, 0, 0, 0],
     [1, 2, 0, 0, 0, 0, 0, 0]] [1, 2, 0, 0, 0, 0, 0, 0] [] (by decide) (by decide) (by decide)
    (by
      intro i hi
      have hi8 : i < 8 := hi
      apply at_most_one_bit_of_zero_or_pow
      interval_cases i
      · exact Or.inr ⟨0, rfl⟩
      · exact Or.inr ⟨1, rfl⟩
      all_goals exact Or.inl rfl)

/-- Claim C5: when the debounced snapshot contains a three-key L pattern (rows
`r1 ≠ r2`, columns `c1 ≠ c2`, bits `(r1,c1)`, `(r1,c2)`, `(r2,c1)` set), then
for every pipeline state and keymap `new_packet` returns false and writes no
report. -/
theorem new_packet_rejects_L_pattern (cfg : Config) (st : State) (md0 : List Nat)
    (sweeps : List (List Nat)) (snapshot : List Nat) (rest : List (List Nat))
    (hd : debounce_loop cfg sweeps md0 1 = some (snapshot, rest))
    (hu16 : ∀ x ∈ snapshot, x < 65536)
    (r1 r2 c1 c2 : Nat) (hr1 : r1 < cfg.MATRIX_ROWS) (hr2 : r2 < cfg.MATRIX_ROWS)
    (hr : r1 ≠ r2) (hc : c1 ≠ c2)
    (h11 : (snapshot.getD r1 0).testBit c1 = true)
    (h12 : (snapshot.getD r1 0).testBit c2 = true)
    (h21 : (snapshot.getD r2 0).testBit c1 = true) :
    ∃ st', new_packet cfg st md0 sweeps = some (st', ⟨false, none, none⟩) := by
  have hg : ghost_flag cfg snapshot = true := by
    rw [ghost_flag_true_iff]
    have hlt : snapshot.getD r1 0 < 2 ^ 32 :=
      Nat.lt_trans (getD_lt_of_forall_mem snapshot 65536 (by decide) hu16 r1) (by decide)
    exact ⟨r1, hr1, (more_than_one_key_iff _ hlt).mpr ⟨c1, c2, hc, h11, h12⟩, r2, hr2, hr,
      (land_ne_zero_iff _ _).mpr ⟨c1, h11, h21⟩⟩
  have hk : keymatrix_read cfg md0 sweeps = some ((ghost_check cfg snapshot).1, false) := by
    rw [keymatrix_read_of_debounce cfg md0 sweeps snapshot rest hd]
    simp [ghost_check, hg]
  unfold new_packet
  simp only [hk]
  exact ⟨_, rfl⟩

theorem new_packet_rejects_L_pattern_witness :
    ∃ st', new_packet sample_cfg (initial_state sample_cfg) [0, 0, 0, 0, 0, 0, 0, 0]
        [[3, 1, 0, 0, 0, 0, 0, 0], [3, 1, 0, 0, 0, 0, 0, 0], [3, 1, 0, 0, 0, 0, 0, 0],
         [3, 1, 0, 0, 0, 0, 0, 0]] = some (st', ⟨false, none, none⟩) :=
  new_packet_rejects_L_pattern sample_cfg (initial_state sample_cfg) [0, 0, 0, 0, 0, 0, 0, 0]
    [[3, 1, 0, 0, 0, 0, 0, 0], [3, 1, 0, 0, 0, 0, 0, 0], [3, 1, 0, 0, 0, 0, 0, 0],
     [3, 1, 0, 0, 0, 0, 0, 0]] [3, 1, 0, 0, 0, 0, 0, 0] [] (by decide) (by decide)
    0 1 0 1 (by decide) (by decide) (by decide) (by decide) (by decide) (by decide) (by decide)

/-! ## Keycode mapper: theorems -/

theorem land_one_shiftLeft_ne_zero_iff (x j : Nat) :
    Nat.land x (1 <<< j) ≠ 0 ↔ x.testBit j = true := by
  rw [land_ne_zero_iff, Nat.one_shiftLeft]
  constructor
  · rintro ⟨c, hx, hc⟩
    rw [Nat.testBit_two_pow] at hc
    simp at hc
    subst hc
    exact hx
  · intro h
    exact ⟨j, h, Nat.testBit_two_pow_self⟩

theorem scan_pressed_step_eq (cfg : Config) (matrix : List Nat) (i j : Nat)
    (acc : Option (List Nat × List Nat)) :
    scan_pressed_step cfg matrix i j acc =
      if (matrix.getD i 0).testBit j = true then record_position cfg acc (i, j) else acc := by
  rcases acc with _ | ⟨pn, pf⟩
  · simp [scan_pressed_step, record_position]
  · by_cases hb : (matrix.getD i 0).testBit j = true
    · have hl : Nat.land (matrix.getD i 0) (1 <<< j) ≠ 0 :=
        (land_one_shiftLeft_ne_zero_iff _ _).mpr hb
      simp only [scan_pressed_step, record_position, if_pos hl, if_pos hb, base_keycode,
        overlay_keycode]
    · have hl : ¬ Nat.land (matrix.getD i 0) (1 <<< j) ≠ 0 :=
        fun h => hb ((land_one_shiftLeft_ne_zero_iff _ _).mp h)
      simp only [scan_pressed_step, if_neg hl, if_neg hb]

theorem scan_cols_eq (cfg : Config) (matrix : List Nat) (i : Nat) (cols : List Nat)
    (acc : Option (List Nat × List Nat)) :
    cols.foldl (fun acc j => scan_pressed_step cfg matrix i j acc) acc =
      (((cols.filter (fun j => (matrix.getD i 0).testBit j)).map (fun j => (i, j))).foldl
        (record_position cfg) acc) := by
  induction cols generalizing acc with
  | nil => rfl
  | cons j cols ih =>
    rw [List.foldl_cons, ih, scan_pressed_step_eq]
    by_cases hb : (matrix.getD i 0).testBit j = true
    · rw [if_pos hb, List.filter_cons_of_pos hb, List.map_cons, List.foldl_cons]
    · rw [if_neg hb, List.filter_cons_of_neg hb]

theorem scan_rows_eq (cfg : Config) (matrix : List Nat) (rows : List Nat)
    (acc : Option (List Nat × List Nat)) :
    rows.foldl
        (fun acc i =>
          (List.range cfg.MATRIX_COLS).foldl (fun acc j => scan_pressed_step cfg matrix i j acc)
            acc) acc =
      (rows.flatMap (fun i => pressed_in_row cfg matrix i)).foldl (record_position cfg) acc := by
  induction rows generalizing acc with
  | nil => rfl
  | cons i rows ih =>
    rw [List.foldl_cons, ih, scan_cols_eq, List.flatMap_cons, List.foldl_append]
    rfl

theorem record_positions_eq (cfg : Config) (new : List (Nat × Nat)) (pn pf : List Nat)
    (h : pn.length ≤ cfg.CHERRY8x16_MAX_NUM_OF_PRESSED_KEYS) :
    new.foldl (record_position cfg) (some (pn, pf)) =
      if pn.length + new.length ≤ cfg.CHERRY8x16_MAX_NUM_OF_PRESSED_KEYS then
        some (pn ++ new.map (fun p => base_keycode cfg p % 256),
              pf ++ new.map (fun p => overlay_keycode cfg p % 256))
      else none := by
  induction new generalizing pn pf with
  | nil => simp [h]
  | cons p new ih =>
    rw [List.foldl_cons]
    by_cases hc : pn.length < cfg.CHERRY8x16_MAX_NUM_OF_PRESSED_KEYS
    · simp only [record_position, if_pos hc]
      rw [ih _ _ (by simp; omega)]
      simp only [List.length_append, List.length_singleton, List.length_cons, List.map_cons,
        List.append_assoc, List.singleton_append]
      by_cases h2 : pn.length + 1 + new.length ≤ cfg.CHERRY8x16_MAX_NUM_OF_PRESSED_KEYS
      · rw [if_pos (by simp; omega), if_pos (by omega)]
      · rw [if_neg (by simp; omega), if_neg (by omega)]
    · simp only [record_position, if_neg hc]
      have hnone : ∀ l : List (Nat × Nat), l.foldl (record_position cfg) none = none := by
        intro l
        induction l with
        | nil => rfl
        | cons _ _ ihl => rw [List.foldl_cons]; exact ihl
      rw [hnone, if_neg (by simp; omega)]

theorem scan_pressed_eq (cfg : Config) (matrix : List Nat) :
    scan_pressed cfg matrix =
      if (pressed_positions cfg matrix).length ≤ cfg.CHERRY8x16_MAX_NUM_OF_PRESSED_KEYS then
        some ((pressed_positions cfg matrix).map (fun p => base_keycode cfg p % 256),
              (pressed_positions cfg matrix).map (fun p => overlay_keycode cfg p % 256))
      else none := by
  unfold scan_pressed
  rw [scan_rows_eq, record_positions_eq _ _ _ _ (Nat.zero_le _)]
  simp [pressed_positions]

theorem emitted_length_le (cfg : Config) (fn : Bool) (pn pf : List Nat) (n : Nat) :
    (emitted cfg fn pn pf n).length ≤ n := by
  unfold emitted
  calc (List.filter _ _).length ≤ ((List.range n).map (chosen_keycode cfg fn pn pf)).length :=
        List.length_filter_le _ _
    _ = n := by simp

theorem emitted_succ (cfg : Config) (fn : Bool) (pn pf : List Nat) (n : Nat) :
    emitted cfg fn pn pf (n + 1) =
      emitted cfg fn pn pf n ++
        (if chosen_keycode cfg fn pn pf n ≠ cfg.KC_FN0 then [chosen_keycode cfg fn pn pf n]
         else []) := by
  unfold emitted
  rw [List.range_succ, List.map_append, List.filter_append]
  by_cases h : chosen_keycode cfg fn pn pf n = cfg.KC_FN0
  · simp [h]
  · simp [h]

theorem set_at_prefix_end (l pk : List Nat) (v : Nat) (h : l.length < pk.length) :
    (l ++ pk.drop l.length).set l.length v = (l ++ [v]) ++ pk.drop (l.length + 1) := by
  rw [List.set_append_right _ _ (Nat.le_refl _), Nat.sub_self,
    List.drop_eq_getElem_cons h, List.set_cons_zero, List.append_assoc]
  rfl

theorem emit_fold_eq (cfg : Config) (fn : Bool) (pn pf pk : List Nat) (n : Nat)
    (hn : n ≤ pk.length) :
    (List.range n).foldl (emit_step cfg fn pn pf) (pk, 0, 0) =
      (emitted cfg fn pn pf n ++ pk.drop (emitted cfg fn pn pf n).length,
       (emitted cfg fn pn pf n).length, (emitted cfg fn pn pf n).length % 256) := by
  induction n with
  | zero => simp [emitted]
  | succ n ih =>
    rw [List.range_succ, List.foldl_append, ih (by omega), List.foldl_cons, List.foldl_nil,
      emitted_succ]
    have hle := emitted_length_le cfg fn pn pf n
    by_cases h : chosen_keycode cfg fn pn pf n = cfg.KC_FN0
    · simp [emit_step, h]
    · simp only [emit_step, ne_eq, h, not_false_eq_true, if_true]
      rw [set_at_prefix_end _ _ _ (by omega)]
      simp

theorem matrix_to_keycode_eq (cfg : Config) (matrix pk : List Nat)
    (hbits : (pressed_positions cfg matrix).length ≤ cfg.CHERRY8x16_MAX_NUM_OF_PRESSED_KEYS)
    (hlen : pk.length = cfg.CHERRY8x16_MAX_NUM_OF_PRESSED_KEYS) :
    ∃ out : List Nat,
      out = emitted cfg
        (((pressed_positions cfg matrix).map (fun p => base_keycode cfg p % 256)).any
          (fun k => k == cfg.KC_FN0))
        ((pressed_positions cfg matrix).map (fun p => base_keycode cfg p % 256))
        ((pressed_positions cfg matrix).map (fun p => overlay_keycode cfg p % 256))
        (pressed_positions cfg matrix).length ∧
      out.length ≤ cfg.CHERRY8x16_MAX_NUM_OF_PRESSED_KEYS ∧
      matrix_to_keycode cfg matrix pk = some (out ++ pk.drop out.length, out.length % 256) := by
  refine ⟨_, rfl, ?_, ?_⟩
  · exact Nat.le_trans (emitted_length_le _ _ _ _ _) hbits
  · unfold matrix_to_keycode
    rw [scan_pressed_eq, if_pos hbits]
    simp only [emit_keycodes, List.length_map]
    rw [emit_fold_eq _ _ _ _ _ _ (by omega)]

theorem mem_emitted_ne_fn0 (cfg : Config) (fn : Bool) (pn pf : List Nat) (n k : Nat)
    (h : k ∈ emitted cfg fn pn pf n) : k ≠ cfg.KC_FN0 := by
  unfold emitted at h
  rw [List.mem_filter] at h
  simpa using h.2

/-- Claim C6: for every keymap and every snapshot with at most `MAX_PRESSED`
bits set, `matrix_to_keycode` returns a key list that does not contain
`KC_FN0`. -/
theorem matrix_to_keycode_never_emits_fn0 (cfg : Config) (matrix pressed_keys : List Nat)
    (hbits : (pressed_positions cfg matrix).length ≤ cfg.CHERRY8x16_MAX_NUM_OF_PRESSED_KEYS)
    (hlen : pressed_keys.length = cfg.CHERRY8x16_MAX_NUM_OF_PRESSED_KEYS) :
    ∃ keys n, matrix_to_keycode cfg matrix pressed_keys = some (keys, n) ∧
      cfg.KC_FN0 ∉ keys.take n := by
  obtain ⟨out, hout, _, hm⟩ := matrix_to_keycode_eq cfg matrix pressed_keys hbits hlen
  refine ⟨_, _, hm, ?_⟩
  intro hmem
  have hle : out.length % 256 ≤ out.length := Nat.mod_le _ _
  rw [List.take_append_of_le_length hle] at hmem
  have hin : cfg.KC_FN0 ∈ out := List.mem_of_mem_take hmem
  rw [hout] at hin
  exact mem_emitted_ne_fn0 _ _ _ _ _ _ hin rfl

theorem matrix_to_keycode_never_emits_fn0_witness :
    ∃ keys n, matrix_to_keycode sample_cfg [1, 0, 0, 8, 16, 0, 0, 0] [0, 0, 0, 0, 0, 0] =
        some (keys, n) ∧ sample_cfg.KC_FN0 ∉ keys.take n :=
  matrix_to_keycode_never_emits_fn0 sample_cfg [1, 0, 0, 8, 16, 0, 0, 0] [0, 0, 0, 0, 0, 0]
    (by decide) (by decide)

theorem map_chosen_keycode_eq (cfg : Config) (fn : Bool) (pos : List (Nat × Nat))
    (f g : Nat × Nat → Nat) :
    (List.range pos.length).map (chosen_keycode cfg fn (pos.map f) (pos.map g)) =
      pos.map (fun p => if fn = true ∧ g p ≠ cfg.KC_TRANSPARENT then g p else f p) := by
  apply List.ext_getElem
  · simp
  · intro n h1 h2
    have hn : n < pos.length := by simpa using h2
    simp [chosen_keycode, List.getElem?_eq_getElem hn]

theorem any_map_beq_eq (cfg : Config) (pos : List (Nat × Nat)) (f : Nat × Nat → Nat) :
    (pos.map f).any (fun k => k == cfg.KC_FN0) = pos.any (fun p => decide (f p = cfg.KC_FN0)) := by
  induction pos with
  | nil => rfl
  | cons p pos ih =>
    rw [List.map_cons, List.any_cons, List.any_cons, ih]
    rfl

theorem emitted_eq_ref (cfg : Config) (matrix : List Nat)
    (hbyte : ∀ l j i, cfg.keymaps l j i < 256) :
    emitted cfg
        (((pressed_positions cfg matrix).map (fun p => base_keycode cfg p % 256)).any
          (fun k => k == cfg.KC_FN0))
        ((pressed_positions cfg matrix).map (fun p => base_keycode cfg p % 256))
        ((pressed_positions cfg matrix).map (fun p => overlay_keycode cfg p % 256))
        (pressed_positions cfg matrix).length = matrix_to_keycode_ref cfg matrix := by
  have hb : (fun p => base_keycode cfg p % 256) = base_keycode cfg := by
    funext p; exact Nat.mod_eq_of_lt (hbyte _ _ _)
  have ho : (fun p => overlay_keycode cfg p % 256) = overlay_keycode cfg := by
    funext p; exact Nat.mod_eq_of_lt (hbyte _ _ _)
  rw [hb, ho]
  unfold emitted matrix_to_keycode_ref
  rw [map_chosen_keycode_eq, any_map_beq_eq]

theorem ref_eq_base_of_no_fn0 (cfg : Config) (matrix : List Nat)
    (h : ∀ p ∈ pressed_positions cfg matrix, base_keycode cfg p ≠ cfg.KC_FN0) :
    matrix_to_keycode_ref cfg matrix = (pressed_positions cfg matrix).map (base_keycode cfg) := by
  unfold matrix_to_keycode_ref
  have hany : (pressed_positions cfg matrix).any
      (fun p => decide (base_keycode cfg p = cfg.KC_FN0)) = false := by
    rw [List.any_eq_false]
    intro p hp
    simpa using h p hp
  simp only [hany, Bool.false_eq_true, false_and, if_false]
  rw [List.filter_eq_self]
  intro k hk
  rw [List.mem_map] at hk
  obtain ⟨p, hp, rfl⟩ := hk
  simpa using h p hp

/-- Claim C7: for every keymap (a table of `uint8_t` keycodes) and every
snapshot with at most `MAX_PRESSED` bits set (`MAX_PRESSED` fitting the
`uint8_t` counter), the key list produced by `matrix_to_keycode` is the
reference list `matrix_to_keycode_ref`; when no pressed position has base
keycode `KC_FN0` it is the list of base-layer keycodes of the pressed
positions, in which the overlay table does not occur. -/
theorem matrix_to_keycode_refines_reference (cfg : Config) (matrix pressed_keys : List Nat)
    (hbits : (pressed_positions cfg matrix).length ≤ cfg.CHERRY8x16_MAX_NUM_OF_PRESSED_KEYS)
    (hlen : pressed_keys.length = cfg.CHERRY8x16_MAX_NUM_OF_PRESSED_KEYS)
    (hmax : cfg.CHERRY8x16_MAX_NUM_OF_PRESSED_KEYS < 256)
    (hbyte : ∀ l j i, cfg.keymaps l j i < 256) :
    ∃ keys n, matrix_to_keycode cfg matrix pressed_keys = some (keys, n) ∧
      n = (matrix_to_keycode_ref cfg matrix).length ∧
      keys.take n = matrix_to_keycode_ref cfg matrix ∧
      ((∀ p ∈ pressed_positions cfg matrix, base_keycode cfg p ≠ cfg.KC_FN0) →
        keys.take n = (pressed_positions cfg matrix).map (base_keycode cfg)) := by
  obtain ⟨out, hout, hle, hm⟩ := matrix_to_keycode_eq cfg matrix pressed_keys hbits hlen
  rw [emitted_eq_ref cfg matrix hbyte] at hout
  have hn : out.length % 256 = out.length := Nat.mod_eq_of_lt (by omega)
  rw [hn] at hm
  have htake : (out ++ pressed_keys.drop out.length).take out.length = out := List.take_left' rfl
  refine ⟨_, _, hm, by rw [hout], by rw [htake, hout], ?_⟩
  intro hno
  rw [htake, hout, ref_eq_base_of_no_fn0 cfg matrix hno]

theorem matrix_to_keycode_refines_reference_witness :
    ∃ keys n, matrix_to_keycode sample_cfg [1, 2, 0, 8, 16, 0, 0, 0] [0, 0, 0, 0, 0, 0] =
        some (keys, n) ∧
      n = (matrix_to_keycode_ref sample_cfg [1, 2, 0, 8, 16, 0, 0, 0]).length ∧
      keys.take n = matrix_to_keycode_ref sample_cfg [1, 2, 0, 8, 16, 0, 0, 0] ∧
      ((∀ p ∈ pressed_positions sample_cfg [1, 2, 0, 8, 16, 0, 0, 0],
          base_keycode sample_cfg p ≠ sample_cfg.KC_FN0) →
        keys.take n =
          (pressed_positions sample_cfg [1, 2, 0, 8, 16, 0, 0, 0]).map (base_keycode sample_cfg)) :=
  matrix_to_keycode_refines_reference sample_cfg [1, 2, 0, 8, 16, 0, 0, 0] [0, 0, 0, 0, 0, 0]
    (by decide) (by decide) (by decide)
    (by
      intro l j i
      show sample_keymaps l j i < 256
      unfold sample_keymaps
      split_ifs <;> decide)

/-! ## Report builder: theorems -/

theorem getD_append_at_length (pre l : List Nat) (x : Nat) :
    (pre ++ x :: l).getD pre.length 0 = x := by
  rw [List.getD_eq_getElem?_getD, List.getElem?_append_right (Nat.le_refl _)]
  simp

theorem any_slots_eq (pre l : List Nat) (p : Nat → Bool) :
    (List.range' pre.length l.length).any (fun i => p ((pre ++ l).getD i 0)) = l.any p := by
  induction l generalizing pre with
  | nil => rfl
  | cons x l ih =>
    rw [List.length_cons, List.range'_succ, List.any_cons, List.any_cons,
      getD_append_at_length]
    have e : pre ++ x :: l = (pre ++ [x]) ++ l := by simp
    have hl : pre.length + 1 = (pre ++ [x]).length := by simp
    rw [e, hl, ih]

theorem find_slot_store (pre l : List Nat) (key : Nat) (o : Option Nat)
    (h : (List.range' pre.length l.length).find? (fun i => (pre ++ l).getD i 0 == 0) = o) :
    o.elim (pre ++ l) (fun i => (pre ++ l).set i key) = pre ++ insert_first_empty key l := by
  induction l generalizing pre with
  | nil =>
    simp at h
    subst h
    rfl
  | cons x l ih =>
    rw [List.length_cons, List.range'_succ, List.find?_cons, getD_append_at_length] at h
    by_cases hx : x = 0
    · subst hx
      simp only [beq_self_eq_true] at h
      subst h
      simp only [Option.elim, insert_first_empty, if_true]
      rw [List.set_append_right _ _ (Nat.le_refl _), Nat.sub_self, List.set_cons_zero]
    · have hx2 : (x == 0) = false := by simpa using hx
      simp only [hx2] at h
      have e : pre ++ x :: l = (pre ++ [x]) ++ l := by simp
      have hl : pre.length + 1 = (pre ++ [x]).length := by simp
      rw [e, hl] at h
      have := ih (pre ++ [x]) h
      rw [e, this]
      simp [insert_first_empty, hx]

theorem addkey_append (cfg : Config) (pre l : List Nat) (key : Nat) (hpre : pre.length = 2)
    (hl : l.length = cfg.CHERRY8x16_MAX_NUM_OF_PRESSED_KEYS) :
    cherry8x16_keypacket_addkey cfg (pre ++ l) key =
      pre ++ (if key ∈ l then l else insert_first_empty key l) := by
  have hidx : key_slot_indices (KEY_PACKET_SIZE cfg) = List.range' pre.length l.length := by
    unfold key_slot_indices
    rw [hpre, hl]
    simp
  unfold cherry8x16_keypacket_addkey
  rw [hidx, any_slots_eq pre l (fun v => v == key)]
  by_cases hk : key ∈ l
  · have hany : l.any (fun v => v == key) = true := by
      rw [List.any_eq_true]; exact ⟨key, hk, by simp⟩
    rw [if_pos hany, if_pos hk]
  · have hany : ¬ l.any (fun v => v == key) = true := by
      rw [List.any_eq_true]
      rintro ⟨v, hv, hvk⟩
      have : v = key := by simpa using hvk
      exact hk (this ▸ hv)
    rw [if_neg hany, if_neg hk]
    split
    · next i hfind => exact find_slot_store pre l key (some i) hfind
    · next hfind => exact find_slot_store pre l key none hfind

theorem insert_first_empty_pad (key : Nat) (keys : List Nat) (n : Nat)
    (hnz : ∀ x ∈ keys, x ≠ 0) :
    insert_first_empty key (keys ++ List.replicate n 0) =
      keys ++ (match n with
        | 0 => []
        | n + 1 => key :: List.replicate n 0) := by
  induction keys with
  | nil =>
    cases n with
    | zero => rfl
    | succ n => simp [insert_first_empty, List.replicate_succ]
  | cons x keys ih =>
    have hx : x ≠ 0 := hnz x (List.mem_cons_self _ _)
    rw [List.cons_append, insert_first_empty, if_neg hx,
      ih (fun y hy => hnz y (List.mem_cons_of_mem _ hy))]
    rfl

theorem mem_pad_slots (m : Nat) (keys : List Nat) (k : Nat) :
    k ∈ pad_slots m keys ↔ k ∈ keys ∨ (k = 0 ∧ keys.length < m) := by
  unfold pad_slots
  rw [List.mem_append, List.mem_replicate]
  constructor
  · rintro (h | ⟨h1, h2⟩)
    · exact Or.inl h
    · exact Or.inr ⟨h2, by omega⟩
  · rintro (h | ⟨h1, h2⟩)
    · exact Or.inl h
    · exact Or.inr ⟨by omega, h1⟩

theorem length_pad_slots (m : Nat) (keys : List Nat) (h : keys.length ≤ m) :
    (pad_slots m keys).length = m := by
  unfold pad_slots
  rw [List.length_append, List.length_replicate]
  omega

theorem addkey_pad (cfg : Config) (pre keys : List Nat) (k : Nat) (hpre : pre.length = 2)
    (hnz : ∀ x ∈ keys, x ≠ 0) (hlen : keys.length ≤ cfg.CHERRY8x16_MAX_NUM_OF_PRESSED_KEYS) :
    cherry8x16_keypacket_addkey cfg (pre ++ pad_slots cfg.CHERRY8x16_MAX_NUM_OF_PRESSED_KEYS keys) k =
      pre ++ pad_slots cfg.CHERRY8x16_MAX_NUM_OF_PRESSED_KEYS
        (add_key cfg.CHERRY8x16_MAX_NUM_OF_PRESSED_KEYS keys k) := by
  rw [addkey_append cfg pre _ k hpre (length_pad_slots _ _ hlen)]
  congr 1
  by_cases hmem : k ∈ pad_slots cfg.CHERRY8x16_MAX_NUM_OF_PRESSED_KEYS keys
  · rw [if_pos hmem]
    rw [mem_pad_slots] at hmem
    have : add_key cfg.CHERRY8x16_MAX_NUM_OF_PRESSED_KEYS keys k = keys := by
      unfold add_key
      rw [if_pos]
      rcases hmem with h | ⟨h, _⟩
      · exact Or.inr (Or.inl h)
      · exact Or.inl h
    rw [this]
  · rw [if_neg hmem]
    rw [mem_pad_slots] at hmem
    have hk : k ∉ keys := fun h => hmem (Or.inl h)
    unfold pad_slots
    rw [insert_first_empty_pad k keys _ hnz]
    by_cases hfull : cfg.CHERRY8x16_MAX_NUM_OF_PRESSED_KEYS ≤ keys.length
    · have h0 : cfg.CHERRY8x16_MAX_NUM_OF_PRESSED_KEYS - keys.length = 0 := by omega
      have : add_key cfg.CHERRY8x16_MAX_NUM_OF_PRESSED_KEYS keys k = keys := by
        unfold add_key
        rw [if_pos (Or.inr (Or.inr hfull))]
      rw [this, h0]
      rfl
    · have hk0 : k ≠ 0 := fun h => hmem (Or.inr ⟨h, by omega⟩)
      have : add_key cfg.CHERRY8x16_MAX_NUM_OF_PRESSED_KEYS keys k = keys ++ [k] := by
        unfold add_key
        rw [if_neg]
        rintro (h | h | h)
        · exact hk0 h
        · exact hk h
        · exact hfull h
      rw [this]
      obtain ⟨d, hd⟩ : ∃ d, cfg.CHERRY8x16_MAX_NUM_OF_PRESSED_KEYS - keys.length = d + 1 :=
        ⟨cfg.CHERRY8x16_MAX_NUM_OF_PRESSED_KEYS - keys.length - 1, by omega⟩
      have hd2 : cfg.CHERRY8x16_MAX_NUM_OF_PRESSED_KEYS - (keys ++ [k]).length = d := by
        rw [List.length_append, List.length_singleton]; omega
      rw [hd, hd2]
      simp

/-- The invariant of the list of non-empty key slots: no empty keycode, no
repetition, at most `m` entries. -/
theorem add_key_invariant (m : Nat) (keys : List Nat) (k : Nat)
    (h : (∀ x ∈ keys, x ≠ 0) ∧ keys.Nodup ∧ keys.length ≤ m) :
    (∀ x ∈ add_key m keys k, x ≠ 0) ∧ (add_key m keys k).Nodup ∧
      (add_key m keys k).length ≤ m := by
  obtain ⟨hnz, hnd, hlen⟩ := h
  unfold add_key
  by_cases hc : k = 0 ∨ k ∈ keys ∨ m ≤ keys.length
  · rw [if_pos hc]
    exact ⟨hnz, hnd, hlen⟩
  · rw [if_neg hc]
    have hk0 : k ≠ 0 := fun e => hc (Or.inl e)
    have hkm : k ∉ keys := fun e => hc (Or.inr (Or.inl e))
    have hl : ¬ m ≤ keys.length := fun e => hc (Or.inr (Or.inr e))
    refine ⟨?_, ?_, ?_⟩
    · intro x hx
      rw [List.mem_append, List.mem_singleton] at hx
      rcases hx with hx | hx
      · exact hnz x hx
      · rw [hx]; exact hk0
    · rw [List.nodup_append]
      refine ⟨hnd, List.nodup_singleton k, ?_⟩
      intro a ha hb
      rw [List.mem_singleton] at hb
      exact hkm (hb ▸ ha)
    · rw [List.length_append, List.length_singleton]
      omega

theorem foldl_add_key_invariant (m : Nat) (ks keys : List Nat)
    (h : (∀ x ∈ keys, x ≠ 0) ∧ keys.Nodup ∧ keys.length ≤ m) :
    (∀ x ∈ ks.foldl (add_key m) keys, x ≠ 0) ∧ (ks.foldl (add_key m) keys).Nodup ∧
      (ks.foldl (add_key m) keys).length ≤ m := by
  induction ks generalizing keys with
  | nil => exact h
  | cons k ks ih => exact ih _ (add_key_invariant m keys k h)

theorem report_keys_invariant (m : Nat) (previous current : List Nat) :
    (∀ x ∈ report_keys m previous current, x ≠ 0) ∧ (report_keys m previous current).Nodup ∧
      (report_keys m previous current).length ≤ m :=
  foldl_add_key_invariant m _ [] ⟨by simp, List.nodup_nil, Nat.zero_le _⟩

theorem foldl_addkey_pad (cfg : Config) (pre : List Nat) (hpre : pre.length = 2)
    (ks keys : List Nat)
    (h : (∀ x ∈ keys, x ≠ 0) ∧ keys.Nodup ∧
      keys.length ≤ cfg.CHERRY8x16_MAX_NUM_OF_PRESSED_KEYS) :
    ks.foldl (cherry8x16_keypacket_addkey cfg)
        (pre ++ pad_slots cfg.CHERRY8x16_MAX_NUM_OF_PRESSED_KEYS keys) =
      pre ++ pad_slots cfg.CHERRY8x16_MAX_NUM_OF_PRESSED_KEYS
        (ks.foldl (add_key cfg.CHERRY8x16_MAX_NUM_OF_PRESSED_KEYS) keys) := by
  induction ks generalizing keys with
  | nil => rfl
  | cons k ks ih =>
    rw [List.foldl_cons, List.foldl_cons, addkey_pad cfg pre keys k hpre h.1 h.2.2,
      ih _ (add_key_invariant _ keys k h)]

theorem foldl_if_eq_foldl_filter {α β : Type} (f : β → α → β) (q : α → Bool) (l : List α)
    (b : β) :
    l.foldl (fun b a => if q a = true then f b a else b) b = (l.filter q).foldl f b := by
  induction l generalizing b with
  | nil => rfl
  | cons a l ih =>
    rw [List.foldl_cons, ih]
    by_cases h : q a = true
    · rw [if_pos h, List.filter_cons_of_pos h, List.foldl_cons]
    · rw [if_neg h, List.filter_cons_of_neg h]

theorem clear_slots_eq (pre l : List Nat) :
    (List.range' pre.length l.length).foldl (fun p i => p.set i KEY_PACKET_NO_KEY) (pre ++ l) =
      pre ++ List.replicate l.length 0 := by
  induction l generalizing pre with
  | nil => simp
  | cons x l ih =>
    rw [List.length_cons, List.range'_succ, List.foldl_cons,
      List.set_append_right _ _ (Nat.le_refl _), Nat.sub_self, List.set_cons_zero]
    have e : pre ++ KEY_PACKET_NO_KEY :: l = (pre ++ [0]) ++ l := by simp
    have hl : pre.length + 1 = (pre ++ [0]).length := by simp
    rw [e, hl, ih]
    simp [List.replicate_succ]

theorem keypacket_clear_eq (cfg : Config) (pkt : List Nat)
    (h : pkt.length = KEY_PACKET_SIZE cfg) :
    keypacket_clear pkt (KEY_PACKET_SIZE cfg) =
      [0, 0] ++ pad_slots cfg.CHERRY8x16_MAX_NUM_OF_PRESSED_KEYS [] := by
  match pkt, h with
  | [], h => simp [KEY_PACKET_SIZE] at h; omega
  | [_], h => simp [KEY_PACKET_SIZE] at h; omega
  | a :: b :: l, h =>
    have hl : l.length = cfg.CHERRY8x16_MAX_NUM_OF_PRESSED_KEYS := by
      simp [KEY_PACKET_SIZE] at h; omega
    have hidx : key_slot_indices (KEY_PACKET_SIZE cfg) = List.range' [a, b].length l.length := by
      unfold key_slot_indices
      rw [hl]
      simp
    unfold keypacket_clear
    rw [hidx]
    have e : a :: b :: l = [a, b] ++ l := rfl
    rw [e, clear_slots_eq, hl]
    simp [pad_slots]

theorem priority_step_eq (cfg : Config) (st : State) (p : List Nat) (i : Nat) :
    priority_step cfg st p i =
      if decide (st.m_transmitted_keys.getD i 0 ∈
          keys_read st.m_currently_pressed_keys st.m_num_of_currently_pressed_keys) = true then
        cherry8x16_keypacket_addkey cfg p (st.m_transmitted_keys.getD i 0)
      else p := by
  unfold priority_step
  split
  · next j hfind =>
    have hj := List.find?_some hfind
    have hjm := List.mem_of_find?_eq_some hfind
    have heq : st.m_transmitted_keys.getD i 0 = st.m_currently_pressed_keys.getD j 0 := by
      simpa using hj
    have hmem : st.m_transmitted_keys.getD i 0 ∈
        keys_read st.m_currently_pressed_keys st.m_num_of_currently_pressed_keys := by
      unfold keys_read
      rw [List.mem_map]
      exact ⟨j, hjm, heq.symm⟩
    rw [if_pos (by simpa using hmem), heq]
  · next hfind =>
    rw [List.find?_eq_none] at hfind
    have hmem : ¬ st.m_transmitted_keys.getD i 0 ∈
        keys_read st.m_currently_pressed_keys st.m_num_of_currently_pressed_keys := by
      unfold keys_read
      rw [List.mem_map]
      rintro ⟨j, hjm, hj⟩
      apply hfind j hjm
      rw [beq_iff_eq]
      exact hj.symm
    rw [if_neg (by simpa using hmem)]

theorem keypacket_priority_eq (cfg : Config) (st : State) (p : List Nat) :
    keypacket_priority cfg st p =
      ((keys_read st.m_transmitted_keys st.m_number_of_transmitted_keys).filter
        (fun k => decide (k ∈
          keys_read st.m_currently_pressed_keys st.m_num_of_currently_pressed_keys))).foldl
        (cherry8x16_keypacket_addkey cfg) p := by
  unfold keypacket_priority
  rw [← foldl_if_eq_foldl_filter]
  unfold keys_read
  rw [List.foldl_map]
  congr 1
  funext p i
  exact priority_step_eq cfg st p i

theorem classify_step_pad (cfg : Config) (m r : Nat) (keys : List Nat) (k : Nat)
    (h : (∀ x ∈ keys, x ≠ 0) ∧ keys.Nodup ∧
      keys.length ≤ cfg.CHERRY8x16_MAX_NUM_OF_PRESSED_KEYS) :
    classify_step cfg ([m, r] ++ pad_slots cfg.CHERRY8x16_MAX_NUM_OF_PRESSED_KEYS keys) k =
      [if is_modifier k = true then (m ||| (1 <<< (k - MODIFIER_HID_START)) % 256) % 256 else m,
        r] ++
        pad_slots cfg.CHERRY8x16_MAX_NUM_OF_PRESSED_KEYS
          (if is_modifier k = true then keys
           else add_key cfg.CHERRY8x16_MAX_NUM_OF_PRESSED_KEYS keys k) := by
  unfold classify_step
  by_cases hm : MODIFIER_HID_START ≤ k ∧ k ≤ MODIFIER_HID_END
  · have hm2 : is_modifier k = true := by unfold is_modifier; exact decide_eq_true hm
    rw [if_pos hm, if_pos hm2, if_pos hm2]
    rfl
  · have hm2 : ¬ is_modifier k = true := by
      unfold is_modifier; rw [decide_eq_true_iff]; exact hm
    rw [if_neg hm, if_neg hm2, if_neg hm2]
    by_cases hk : k = 0
    · rw [if_neg (by simpa using hk)]
      have : add_key cfg.CHERRY8x16_MAX_NUM_OF_PRESSED_KEYS keys k = keys := by
        unfold add_key; rw [if_pos (Or.inl hk)]
      rw [this]
    · rw [if_pos hk]
      exact addkey_pad cfg [m, r] keys k rfl h.1 h.2.2

theorem foldl_classify_pad (cfg : Config) (ks : List Nat) (m r : Nat) (keys : List Nat)
    (h : (∀ x ∈ keys, x ≠ 0) ∧ keys.Nodup ∧
      keys.length ≤ cfg.CHERRY8x16_MAX_NUM_OF_PRESSED_KEYS) :
    ks.foldl (classify_step cfg)
        ([m, r] ++ pad_slots cfg.CHERRY8x16_MAX_NUM_OF_PRESSED_KEYS keys) =
      [modifier_mask ks m, r] ++
        pad_slots cfg.CHERRY8x16_MAX_NUM_OF_PRESSED_KEYS
          ((ks.filter (fun k => !is_modifier k)).foldl
            (add_key cfg.CHERRY8x16_MAX_NUM_OF_PRESSED_KEYS) keys) := by
  induction ks generalizing m keys with
  | nil => rfl
  | cons k ks ih =>
    rw [List.foldl_cons, classify_step_pad cfg m r keys k h]
    by_cases hm : is_modifier k = true
    · rw [if_pos hm, if_pos hm, ih _ _ h]
      have hf : (k :: ks).filter (fun k => !is_modifier k) =
          ks.filter (fun k => !is_modifier k) := by
        rw [List.filter_cons_of_neg (by simp [hm])]
      rw [hf]
      simp [modifier_mask, hm]
    · rw [if_neg hm, if_neg hm, ih _ _ (add_key_invariant _ keys k h)]
      have hf : (k :: ks).filter (fun k => !is_modifier k) =
          k :: ks.filter (fun k => !is_modifier k) := by
        rw [List.filter_cons_of_pos (by simpa using hm)]
      rw [hf, List.foldl_cons]
      simp [modifier_mask, hm]

theorem keypacket_classify_eq (cfg : Config) (st : State) (p : List Nat) :
    keypacket_classify cfg st p =
      (keys_read st.m_currently_pressed_keys st.m_num_of_currently_pressed_keys).foldl
        (classify_step cfg) p := by
  unfold keypacket_classify keys_read
  rw [List.foldl_map]

/-- The report built by `cherry8x16_keypacket_create`: the modifier mask of the
current keys, the reserved byte 0, and the key slots holding `report_keys`
followed by empty slots. -/
theorem keypacket_create_eq (cfg : Config) (st : State)
    (hpkt : st.m_key_packet.length = KEY_PACKET_SIZE cfg) :
    cherry8x16_keypacket_create cfg st =
      [modifier_mask
          (keys_read st.m_currently_pressed_keys st.m_num_of_currently_pressed_keys) 0, 0] ++
        pad_slots cfg.CHERRY8x16_MAX_NUM_OF_PRESSED_KEYS
          (report_keys cfg.CHERRY8x16_MAX_NUM_OF_PRESSED_KEYS
            (keys_read st.m_transmitted_keys st.m_number_of_transmitted_keys)
            (keys_read st.m_currently_pressed_keys st.m_num_of_currently_pressed_keys)) := by
  have h0 : (∀ x ∈ ([] : List Nat), x ≠ 0) ∧ ([] : List Nat).Nodup ∧
      ([] : List Nat).length ≤ cfg.CHERRY8x16_MAX_NUM_OF_PRESSED_KEYS :=
    ⟨by simp, List.nodup_nil, Nat.zero_le _⟩
  unfold cherry8x16_keypacket_create
  rw [keypacket_clear_eq cfg _ hpkt, keypacket_priority_eq, foldl_addkey_pad cfg [0, 0] rfl _ _ h0,
    keypacket_classify_eq, foldl_classify_pad cfg _ 0 0 _ (foldl_add_key_invariant _ _ _ h0)]
  unfold report_keys offered_keys
  rw [List.foldl_append]

theorem keys_read_eq_take (arr : List Nat) (n : Nat) (h : n ≤ arr.length) :
    keys_read arr n = arr.take n := by
  unfold keys_read
  apply List.ext_getElem
  · simp [h]
  · intro i h1 h2
    have hi : i < arr.length := by
      simp at h2; omega
    simp [List.getElem?_eq_getElem hi]

theorem getD_pad_slots (m : Nat) (keys : List Nat) (s : Nat) :
    (pad_slots m keys).getD s 0 = keys.getD s 0 := by
  unfold pad_slots
  by_cases hs : s < keys.length
  · simp [List.getElem?_append_left hs]
  · have h1 : keys.getD s 0 = 0 := List.getD_eq_default _ _ (by omega)
    rw [h1, List.getD_eq_getElem?_getD, List.getElem?_append_right (by omega)]
    by_cases h2 : s - keys.length < (List.replicate (m - keys.length) 0).length
    · rw [List.getElem?_eq_getElem h2]
      simp
    · rw [List.getElem?_eq_none (by omega)]
      rfl

theorem key_slot_cons_cons (m r : Nat) (slots : List Nat) (s : Nat) :
    key_slot ([m, r] ++ slots) s = slots.getD s 0 := by
  unfold key_slot
  have : KEY_PACKET_KEY_INDEX + s = s + 2 := by simp [KEY_PACKET_KEY_INDEX]; omega
  rw [this]
  simp

theorem key_slot_keypacket_create (cfg : Config) (st : State)
    (hpkt : st.m_key_packet.length = KEY_PACKET_SIZE cfg) (s : Nat) :
    key_slot (cherry8x16_keypacket_create cfg st) s =
      (report_keys cfg.CHERRY8x16_MAX_NUM_OF_PRESSED_KEYS
        (keys_read st.m_transmitted_keys st.m_number_of_transmitted_keys)
        (keys_read st.m_currently_pressed_keys st.m_num_of_currently_pressed_keys)).getD s 0 := by
  rw [keypacket_create_eq cfg st hpkt, key_slot_cons_cons, getD_pad_slots]

theorem getD_ne_zero_lt (l : List Nat) (s : Nat) (h : l.getD s 0 ≠ 0) : s < l.length := by
  by_contra hs
  exact h (List.getD_eq_default _ _ (by omega))

/-- Claim C1: in the report built by `cherry8x16_keypacket_create` no non-empty
keycode occupies two different key slots, and at most `MAX_PRESSED` key slots
are non-empty. -/
theorem keypacket_create_no_duplicate_slots (cfg : Config) (st : State)
    (hpkt : st.m_key_packet.length = KEY_PACKET_SIZE cfg) :
    (∀ a b, a < cfg.CHERRY8x16_MAX_NUM_OF_PRESSED_KEYS →
      b < cfg.CHERRY8x16_MAX_NUM_OF_PRESSED_KEYS → a ≠ b →
      key_slot (cherry8x16_keypacket_create cfg st) a ≠ 0 →
      key_slot (cherry8x16_keypacket_create cfg st) a ≠
        key_slot (cherry8x16_keypacket_create cfg st) b) ∧
    (cherry8x16_keypacket_create cfg st).length = KEY_PACKET_SIZE cfg ∧
    ((List.range cfg.CHERRY8x16_MAX_NUM_OF_PRESSED_KEYS).filter
      (fun s => decide (key_slot (cherry8x16_keypacket_create cfg st) s ≠ 0))).length ≤
        cfg.CHERRY8x16_MAX_NUM_OF_PRESSED_KEYS := by
  obtain ⟨hnz, hnd, hlen⟩ := report_keys_invariant cfg.CHERRY8x16_MAX_NUM_OF_PRESSED_KEYS
    (keys_read st.m_transmitted_keys st.m_number_of_transmitted_keys)
    (keys_read st.m_currently_pressed_keys st.m_num_of_currently_pressed_keys)
  refine ⟨?_, ?_, ?_⟩
  · intro a b _ _ hab ha heq
    rw [key_slot_keypacket_create cfg st hpkt] at ha heq
    rw [key_slot_keypacket_create cfg st hpkt] at heq
    have hal := getD_ne_zero_lt _ _ ha
    have hbl := getD_ne_zero_lt _ _ (heq ▸ ha)
    rw [List.getD_eq_getElem _ _ hal, List.getD_eq_getElem _ _ hbl] at heq
    exact hab ((hnd.getElem_inj_iff).mp heq)
  · rw [keypacket_create_eq cfg st hpkt, List.length_append, length_pad_slots _ _ hlen]
    simp [KEY_PACKET_SIZE]
  · calc (List.filter _ _).length ≤ (List.range cfg.CHERRY8x16_MAX_NUM_OF_PRESSED_KEYS).length :=
          List.length_filter_le _ _
      _ = cfg.CHERRY8x16_MAX_NUM_OF_PRESSED_KEYS := List.length_range _

theorem keypacket_create_no_duplicate_slots_witness :
    (∀ a b, a < sample_cfg.CHERRY8x16_MAX_NUM_OF_PRESSED_KEYS →
      b < sample_cfg.CHERRY8x16_MAX_NUM_OF_PRESSED_KEYS → a ≠ b →
      key_slot (cherry8x16_keypacket_create sample_cfg sample_state) a ≠ 0 →
      key_slot (cherry8x16_keypacket_create sample_cfg sample_state) a ≠
        key_slot (cherry8x16_keypacket_create sample_cfg sample_state) b) ∧
    (cherry8x16_keypacket_create sample_cfg sample_state).length = KEY_PACKET_SIZE sample_cfg ∧
    ((List.range sample_cfg.CHERRY8x16_MAX_NUM_OF_PRESSED_KEYS).filter
      (fun s => decide (key_slot (cherry8x16_keypacket_create sample_cfg sample_state) s ≠ 0))).length ≤
        sample_cfg.CHERRY8x16_MAX_NUM_OF_PRESSED_KEYS :=
  keypacket_create_no_duplicate_slots sample_cfg sample_state (by decide)

theorem mem_keys_read_iff_mem_take (arr : List Nat) (n k : Nat) (hk : k ≠ 0) :
    k ∈ keys_read arr n ↔ k ∈ arr.take n := by
  unfold keys_read
  rw [List.mem_map, List.mem_iff_getElem]
  constructor
  · rintro ⟨i, hi, hget⟩
    rw [List.mem_range] at hi
    have hil : i < arr.length := by
      by_contra hcon
      rw [List.getD_eq_default _ _ (by omega)] at hget
      exact hk hget.symm
    rw [List.getD_eq_getElem _ _ hil] at hget
    refine ⟨i, by rw [List.length_take]; omega, ?_⟩
    rw [List.getElem_take]
    exact hget
  · rintro ⟨i, hi, hget⟩
    rw [List.length_take] at hi
    rw [List.getElem_take] at hget
    refine ⟨i, List.mem_range.mpr (by omega), ?_⟩
    rw [List.getD_eq_getElem _ _ (by omega)]
    exact hget

theorem testBit_modifier_step (m k i : Nat) (hi : i < 8) (hk : is_modifier k = true) :
    ((m ||| (1 <<< (k - MODIFIER_HID_START)) % 256) % 256).testBit i =
      (m.testBit i || decide (k = MODIFIER_HID_START + i)) := by
  have h256 : (256 : Nat) = 2 ^ 8 := by norm_num
  unfold is_modifier at hk
  rw [decide_eq_true_iff] at hk
  rw [h256, Nat.testBit_mod_two_pow, Nat.testBit_or, Nat.testBit_mod_two_pow, Nat.one_shiftLeft,
    Nat.testBit_two_pow]
  have e : decide (k - MODIFIER_HID_START = i) = decide (k = MODIFIER_HID_START + i) := by
    apply decide_eq_decide.mpr
    constructor <;> intro h <;> omega
  rw [e]
  simp [hi]

theorem testBit_modifier_mask (keys : List Nat) (m i : Nat) (hi : i < 8) :
    (modifier_mask keys m).testBit i =
      (m.testBit i || decide (MODIFIER_HID_START + i ∈ keys)) := by
  induction keys generalizing m with
  | nil => simp [modifier_mask]
  | cons k keys ih =>
    have hstep : modifier_mask (k :: keys) m =
        modifier_mask keys
          (if is_modifier k = true then (m ||| (1 <<< (k - MODIFIER_HID_START)) % 256) % 256
           else m) := rfl
    rw [hstep, ih]
    by_cases hk : is_modifier k = true
    · rw [if_pos hk, testBit_modifier_step m k i hi hk, Bool.or_assoc]
      congr 1
      by_cases hki : k = MODIFIER_HID_START + i
      · simp [hki]
      · have hki2 : ¬ MODIFIER_HID_START + i = k := fun h => hki h.symm
        simp [hki, hki2]
    · rw [if_neg hk]
      congr 1
      have hne : ¬ MODIFIER_HID_START + i = k := by
        intro h
        apply hk
        unfold is_modifier
        rw [decide_eq_true_iff]
        have h224 : MODIFIER_HID_START = 224 := rfl
        have h231 : MODIFIER_HID_END = 231 := rfl
        constructor <;> omega
      simp [hne]

/-- Claim C2: in the report built by `cherry8x16_keypacket_create`, bit `i`
(`i < 8`) of the modifier byte is set exactly when the keycode `0xE0 + i` occurs
in the current key list, and the reserved byte is 0. -/
theorem keypacket_create_modifier_byte (cfg : Config) (st : State)
    (hpkt : st.m_key_packet.length = KEY_PACKET_SIZE cfg) :
    (∀ i, i < 8 →
      (((cherry8x16_keypacket_create cfg st).getD KEY_PACKET_MODIFIER_KEY_INDEX 0).testBit i = true ↔
        MODIFIER_HID_START + i ∈ st.current_keys)) ∧
    (cherry8x16_keypacket_create cfg st).getD KEY_PACKET_RESERVED_INDEX 0 = 0 := by
  rw [keypacket_create_eq cfg st hpkt]
  refine ⟨?_, rfl⟩
  intro i hi
  have hget : ∀ (a b : Nat) (l : List Nat),
      ([a, b] ++ l).getD KEY_PACKET_MODIFIER_KEY_INDEX 0 = a := fun _ _ _ => rfl
  rw [hget, testBit_modifier_mask _ _ _ hi]
  unfold State.current_keys
  rw [← mem_keys_read_iff_mem_take _ _ _ (by simp)]
  simp

theorem keypacket_create_modifier_byte_witness :
    (∀ i, i < 8 →
      (((cherry8x16_keypacket_create sample_cfg sample_state).getD
          KEY_PACKET_MODIFIER_KEY_INDEX 0).testBit i = true ↔
        MODIFIER_HID_START + i ∈ sample_state.current_keys)) ∧
    (cherry8x16_keypacket_create sample_cfg sample_state).getD KEY_PACKET_RESERVED_INDEX 0 = 0 :=
  keypacket_create_modifier_byte sample_cfg sample_state (by decide)

/-! ## Report builder: order of the key slots -/

theorem add_key_extends (m : Nat) (keys : List Nat) (k : Nat) :
    ∃ t, add_key m keys k = keys ++ t := by
  unfold add_key
  by_cases hc : k = 0 ∨ k ∈ keys ∨ m ≤ keys.length
  · rw [if_pos hc]; exact ⟨[], by simp⟩
  · rw [if_neg hc]; exact ⟨[k], rfl⟩

theorem foldl_add_key_extends (m : Nat) (ks keys : List Nat) :
    ∃ t, ks.foldl (add_key m) keys = keys ++ t := by
  induction ks generalizing keys with
  | nil => exact ⟨[], by simp⟩
  | cons k ks ih =>
    obtain ⟨t1, h1⟩ := add_key_extends m keys k
    obtain ⟨t2, h2⟩ := ih (add_key m keys k)
    exact ⟨t1 ++ t2, by rw [List.foldl_cons, h2, h1, List.append_assoc]⟩

theorem mem_add_key (m : Nat) (keys : List Nat) (k x : Nat) (h : x ∈ add_key m keys k) :
    x ∈ keys ∨ x = k := by
  unfold add_key at h
  by_cases hc : k = 0 ∨ k ∈ keys ∨ m ≤ keys.length
  · rw [if_pos hc] at h; exact Or.inl h
  · rw [if_neg hc, List.mem_append, List.mem_singleton] at h; exact h

theorem mem_foldl_add_key (m : Nat) (ks keys : List Nat) (x : Nat)
    (h : x ∈ ks.foldl (add_key m) keys) : x ∈ keys ∨ x ∈ ks := by
  induction ks generalizing keys with
  | nil => exact Or.inl h
  | cons k ks ih =>
    rcases ih _ h with h1 | h1
    · rcases mem_add_key m keys k x h1 with h2 | h2
      · exact Or.inl h2
      · exact Or.inr (h2 ▸ List.mem_cons_self _ _)
    · exact Or.inr (List.mem_cons_of_mem _ h1)

theorem length_add_key_le (m : Nat) (keys : List Nat) (k : Nat) :
    (add_key m keys k).length ≤ keys.length + 1 := by
  unfold add_key
  by_cases hc : k = 0 ∨ k ∈ keys ∨ m ≤ keys.length
  · rw [if_pos hc]; omega
  · rw [if_neg hc]; simp

theorem mem_foldl_add_key_of_mem_left (m : Nat) (ks keys : List Nat) (x : Nat) (h : x ∈ keys) :
    x ∈ ks.foldl (add_key m) keys := by
  obtain ⟨t, ht⟩ := foldl_add_key_extends m ks keys
  rw [ht]
  exact List.mem_append_left _ h

theorem mem_add_key_self (m : Nat) (keys : List Nat) (k : Nat) (hk : k ≠ 0)
    (hlen : keys.length < m) : k ∈ add_key m keys k := by
  unfold add_key
  by_cases hc : k = 0 ∨ k ∈ keys ∨ m ≤ keys.length
  · rw [if_pos hc]
    rcases hc with h | h | h
    · exact absurd h hk
    · exact h
    · omega
  · rw [if_neg hc]; simp

/-- A non-zero key offered while there is still room ends up in the slots. -/
theorem mem_foldl_add_key_of_mem (m : Nat) (ks keys : List Nat) (x : Nat) (hx : x ≠ 0)
    (hmem : x ∈ ks) (hroom : keys.length + ks.length ≤ m) :
    x ∈ ks.foldl (add_key m) keys := by
  induction ks generalizing keys with
  | nil => simp at hmem
  | cons k ks ih =>
    rw [List.length_cons] at hroom
    rw [List.foldl_cons]
    rcases List.mem_cons.mp hmem with h | h
    · subst h
      exact mem_foldl_add_key_of_mem_left m ks _ x (mem_add_key_self m keys x hx (by omega))
    · exact ih _ h (by have := length_add_key_le m keys k; omega)

/-- Keys offered while there is still room take their slots in the order of
their first occurrence. -/
theorem indexOf_foldl_add_key_lt (m : Nat) (ks keys : List Nat) (K L : Nat)
    (hK : K ≠ 0) (hL : L ≠ 0) (hKm : K ∈ ks) (hLm : L ∈ ks)
    (hord : ks.indexOf K < ks.indexOf L)
    (hKk : K ∉ keys) (hLk : L ∉ keys) (hroom : keys.length + ks.length ≤ m) :
    (ks.foldl (add_key m) keys).indexOf K < (ks.foldl (add_key m) keys).indexOf L ∧
      L ∈ ks.foldl (add_key m) keys := by
  induction ks generalizing keys with
  | nil => simp at hKm
  | cons k ks ih =>
    rw [List.length_cons] at hroom
    rw [List.foldl_cons]
    by_cases hkL : k = L
    · subst hkL
      rw [List.indexOf_cons_self] at hord
      omega
    · by_cases hkK : k = K
      · subst hkK
        have hLks : L ∈ ks := by
          rcases List.mem_cons.mp hLm with h | h
          · exact absurd h.symm hkL
          · exact h
        have hadd : add_key m keys k = keys ++ [k] := by
          unfold add_key
          rw [if_neg]
          rintro (h | h | h)
          · exact hK h
          · exact hKk h
          · omega
        obtain ⟨t, ht⟩ := foldl_add_key_extends m ks (add_key m keys k)
        have hLin : L ∈ ks.foldl (add_key m) (add_key m keys k) :=
          mem_foldl_add_key_of_mem m ks _ L hL hLks
            (by have := length_add_key_le m keys k; omega)
        refine ⟨?_, hLin⟩
        rw [ht, hadd]
        have hkin : k ∈ keys ++ [k] := by simp
        have hLnot : L ∉ keys ++ [k] := by
          rw [List.mem_append, List.mem_singleton]
          rintro (h | h)
          · exact hLk h
          · exact hkL h.symm
        rw [List.indexOf_append_of_mem hkin, List.indexOf_append_of_not_mem hLnot]
        have := (List.indexOf_lt_length (l := keys ++ [k])).mpr hkin
        omega
      · have hKks : K ∈ ks := by
          rcases List.mem_cons.mp hKm with h | h
          · exact absurd h.symm hkK
          · exact h
        have hLks : L ∈ ks := by
          rcases List.mem_cons.mp hLm with h | h
          · exact absurd h.symm hkL
          · exact h
        rw [List.indexOf_cons_ne _ hkK, List.indexOf_cons_ne _ hkL] at hord
        apply ih _ hKks hLks (by omega)
        · intro h
          rcases mem_add_key m keys k K h with h2 | h2
          · exact hKk h2
          · exact hkK h2.symm
        · intro h
          rcases mem_add_key m keys k L h with h2 | h2
          · exact hLk h2
          · exact hkL h2.symm
        · have := length_add_key_le m keys k; omega

/-! ## Top-level operation: theorems -/

theorem save_pressed_keys_take (src : List Nat) (i : Nat) (dst : List Nat)
    (hlen : src.length = dst.length) (hi : i ≤ dst.length) :
    save_pressed_keys src i dst = src.take i ++ dst.drop i := by
  induction i generalizing dst with
  | zero => simp [save_pressed_keys]
  | succ i ih =>
    have hid : i < dst.length := by omega
    have his : i < src.length := by omega
    have e : src.take (i + 1) = src.take i ++ [src[i]] := by
      rw [List.take_succ, List.getElem?_eq_getElem his]
      rfl
    unfold save_pressed_keys
    rw [ih _ (by simp [hlen]) (by simp; omega), List.set_eq_take_append_cons_drop, if_pos hid,
      List.drop_left' (by simp; omega), List.getD_eq_getElem _ _ his, e, List.append_assoc]
    rfl

theorem save_pressed_keys_eq (src dst : List Nat) (n : Nat) (h1 : src.length = n)
    (h2 : dst.length = n) : save_pressed_keys src n dst = src := by
  rw [save_pressed_keys_take src n dst (by omega) (by omega)]
  rw [List.drop_of_length_le (by omega), List.append_nil, List.take_of_length_le (by omega)]

theorem pressed_count_le_of_matrix_to_keycode (cfg : Config) (matrix pk : List Nat)
    (res : List Nat × Nat) (h : matrix_to_keycode cfg matrix pk = some res) :
    (pressed_positions cfg matrix).length ≤ cfg.CHERRY8x16_MAX_NUM_OF_PRESSED_KEYS := by
  by_contra hc
  unfold matrix_to_keycode at h
  rw [scan_pressed_eq, if_neg hc] at h
  simp at h

/-- What a decoding step of `new_packet` leaves in the key list. -/
theorem matrix_to_keycode_result (cfg : Config) (matrix pk : List Nat) (keys : List Nat) (n : Nat)
    (hlen : pk.length = cfg.CHERRY8x16_MAX_NUM_OF_PRESSED_KEYS)
    (h : matrix_to_keycode cfg matrix pk = some (keys, n)) :
    keys.length = cfg.CHERRY8x16_MAX_NUM_OF_PRESSED_KEYS ∧
      n ≤ cfg.CHERRY8x16_MAX_NUM_OF_PRESSED_KEYS := by
  have hbits := pressed_count_le_of_matrix_to_keycode cfg matrix pk _ h
  obtain ⟨out, _, hle, hm⟩ := matrix_to_keycode_eq cfg matrix pk hbits hlen
  rw [hm] at h
  simp only [Option.some.injEq, Prod.mk.injEq] at h
  obtain ⟨h1, h2⟩ := h
  constructor
  · rw [← h1, List.length_append, List.length_drop]; omega
  · rw [← h2]; exact Nat.le_trans (Nat.mod_le _ _) hle

/-- A call of `new_packet` that prepares a packet: the previous key list is the
key list found at entry, and the packet is the one `cherry8x16_keypacket_create`
builds from the previous and the new key list. -/
theorem new_packet_prepared_spec (cfg : Config) (st : State) (md : List Nat)
    (sweeps : List (List Nat)) (st' : State) (r : PacketResult)
    (hs : st.Sized cfg) (h : new_packet cfg st md sweeps = some (st', r))
    (hr : r.new_packet_prepared = true) :
    st'.Sized cfg ∧
    st'.m_num_of_currently_pressed_keys ≤ cfg.CHERRY8x16_MAX_NUM_OF_PRESSED_KEYS ∧
    st'.m_transmitted_keys = st.m_currently_pressed_keys ∧
    st'.m_number_of_transmitted_keys = st.m_num_of_currently_pressed_keys ∧
    st'.m_key_packet =
      [modifier_mask
          (keys_read st'.m_currently_pressed_keys st'.m_num_of_currently_pressed_keys) 0, 0] ++
        pad_slots cfg.CHERRY8x16_MAX_NUM_OF_PRESSED_KEYS
          (report_keys cfg.CHERRY8x16_MAX_NUM_OF_PRESSED_KEYS
            (keys_read st.m_currently_pressed_keys st.m_num_of_currently_pressed_keys)
            (keys_read st'.m_currently_pressed_keys st'.m_num_of_currently_pressed_keys)) ∧
    r = ⟨true, some st'.m_key_packet, some (KEY_PACKET_SIZE cfg)⟩ := by
  obtain ⟨hs1, hs2, hs3⟩ := hs
  have hsave : save_pressed_keys st.m_currently_pressed_keys
      cfg.CHERRY8x16_MAX_NUM_OF_PRESSED_KEYS st.m_transmitted_keys =
      st.m_currently_pressed_keys := save_pressed_keys_eq _ _ _ hs1 hs2
  unfold new_packet at h
  rw [hsave] at h
  cases hk : keymatrix_read cfg md sweeps with
  | none => rw [hk] at h; simp at h
  | some res =>
    obtain ⟨key_matrix, usable⟩ := res
    cases usable with
    | false =>
      rw [hk] at h
      simp only [Option.some.injEq, Prod.mk.injEq] at h
      rw [← h.2] at hr
      simp at hr
    | true =>
      rw [hk] at h
      simp only at h
      cases hm : matrix_to_keycode cfg key_matrix st.m_currently_pressed_keys with
      | none => rw [hm] at h; simp at h
      | some res2 =>
        obtain ⟨keys, n⟩ := res2
        obtain ⟨hkl, hnl⟩ := matrix_to_keycode_result cfg key_matrix _ keys n hs1 hm
        rw [hm] at h
        simp only at h
        split at h
        · simp only [Option.some.injEq, Prod.mk.injEq] at h
          obtain ⟨h1, h2⟩ := h
          subst h1
          have hpk := keypacket_create_eq cfg
            { m_currently_pressed_keys := keys, m_transmitted_keys := st.m_currently_pressed_keys,
              m_num_of_currently_pressed_keys := n,
              m_number_of_transmitted_keys := st.m_num_of_currently_pressed_keys,
              m_key_packet := st.m_key_packet } hs3
          have hinv := report_keys_invariant cfg.CHERRY8x16_MAX_NUM_OF_PRESSED_KEYS
            (keys_read st.m_currently_pressed_keys st.m_num_of_currently_pressed_keys)
            (keys_read keys n)
          refine ⟨⟨hkl, hs1, ?_⟩, hnl, rfl, rfl, hpk, h2.symm⟩
          show (cherry8x16_keypacket_create cfg _).length = KEY_PACKET_SIZE cfg
          rw [hpk, List.length_append, length_pad_slots _ _ hinv.2.2]
          simp [KEY_PACKET_SIZE]
        · simp only [Option.some.injEq, Prod.mk.injEq] at h
          rw [← h.2] at hr
          simp at hr

theorem keys_read_congr (a b : List Nat) (n : Nat)
    (h : ∀ i, i < n → a.getD i 0 = b.getD i 0) : keys_read a n = keys_read b n := by
  unfold keys_read
  apply List.map_congr_left
  intro i hi
  exact h i (List.mem_range.mp hi)

/-- A call of `new_packet` that returns false leaves the key list, its count
and the stored packet as they were. -/
theorem new_packet_quiet_spec (cfg : Config) (st : State) (md : List Nat)
    (sweeps : List (List Nat)) (st' : State) (r : PacketResult)
    (hs : st.Sized cfg) (h : new_packet cfg st md sweeps = some (st', r))
    (hr : r.new_packet_prepared = false) :
    st'.Sized cfg ∧ st'.m_key_packet = st.m_key_packet ∧
    st'.m_num_of_currently_pressed_keys = st.m_num_of_currently_pressed_keys ∧
    keys_read st'.m_currently_pressed_keys st'.m_num_of_currently_pressed_keys =
      keys_read st.m_currently_pressed_keys st.m_num_of_currently_pressed_keys := by
  obtain ⟨hs1, hs2, hs3⟩ := hs
  have hsave : save_pressed_keys st.m_currently_pressed_keys
      cfg.CHERRY8x16_MAX_NUM_OF_PRESSED_KEYS st.m_transmitted_keys =
      st.m_currently_pressed_keys := save_pressed_keys_eq _ _ _ hs1 hs2
  unfold new_packet at h
  rw [hsave] at h
  cases hk : keymatrix_read cfg md sweeps with
  | none => rw [hk] at h; simp at h
  | some res =>
    obtain ⟨key_matrix, usable⟩ := res
    cases usable with
    | false =>
      rw [hk] at h
      simp only [Option.some.injEq, Prod.mk.injEq] at h
      obtain ⟨h1, _⟩ := h
      subst h1
      exact ⟨⟨hs1, hs1, hs3⟩, rfl, rfl, rfl⟩
    | true =>
      rw [hk] at h
      simp only at h
      cases hm : matrix_to_keycode cfg key_matrix st.m_currently_pressed_keys with
      | none => rw [hm] at h; simp at h
      | some res2 =>
        obtain ⟨keys, n⟩ := res2
        obtain ⟨hkl, _⟩ := matrix_to_keycode_result cfg key_matrix _ keys n hs1 hm
        rw [hm] at h
        simp only at h
        split at h
        · simp only [Option.some.injEq, Prod.mk.injEq] at h
          rw [← h.2] at hr
          simp at hr
        · next hch =>
          simp only [Option.some.injEq, Prod.mk.injEq] at h
          obtain ⟨h1, _⟩ := h
          subst h1
          have hiff := have_keys_changed_true_iff keys st.m_currently_pressed_keys n
            st.m_num_of_currently_pressed_keys
          have hno : ¬ (n ≠ st.m_num_of_currently_pressed_keys ∨
              ∃ i, i < n ∧ keys.getD i 0 ≠ st.m_currently_pressed_keys.getD i 0) :=
            fun hx => hch (hiff.mpr hx)
          have hn : n = st.m_num_of_currently_pressed_keys := by
            by_contra hne
            exact hno (Or.inl hne)
          have hall : ∀ i, i < n → keys.getD i 0 = st.m_currently_pressed_keys.getD i 0 := by
            intro i hi
            by_contra hne
            exact hno (Or.inr ⟨i, hi, hne⟩)
          refine ⟨⟨hkl, hs1, hs3⟩, rfl, hn, ?_⟩
          show keys_read keys n = _
          rw [← hn]
          exact keys_read_congr _ _ _ hall

theorem quiet_calls_spec (cfg : Config) (calls : List (List Nat × List (List Nat)))
    (st stq : State) (hs : st.Sized cfg) (h : quiet_calls cfg st calls = some stq) :
    stq.Sized cfg ∧ stq.m_key_packet = st.m_key_packet ∧
    stq.m_num_of_currently_pressed_keys = st.m_num_of_currently_pressed_keys ∧
    keys_read stq.m_currently_pressed_keys stq.m_num_of_currently_pressed_keys =
      keys_read st.m_currently_pressed_keys st.m_num_of_currently_pressed_keys := by
  induction calls generalizing st with
  | nil =>
    simp only [quiet_calls, Option.some.injEq] at h
    subst h
    exact ⟨hs, rfl, rfl, rfl⟩
  | cons call calls ih =>
    unfold quiet_calls at h
    cases hc : new_packet cfg st call.1 call.2 with
    | none => rw [hc] at h; simp at h
    | some res =>
      obtain ⟨st', r⟩ := res
      rw [hc] at h
      simp only at h
      by_cases hr : r.new_packet_prepared = false
      · rw [if_pos hr] at h
        obtain ⟨q1, q2, q3, q4⟩ := new_packet_quiet_spec cfg st _ _ st' r hs hc hr
        obtain ⟨i1, i2, i3, i4⟩ := ih st' q1 h
        exact ⟨i1, i2.trans q2, i3.trans q3, i4.trans q4⟩
      · rw [if_neg hr] at h
        simp at h

theorem length_keys_read (arr : List Nat) (n : Nat) : (keys_read arr n).length = n := by
  simp [keys_read]

theorem mem_offered_keys (previous current : List Nat) (x : Nat)
    (h : x ∈ offered_keys previous current) : x ∈ current := by
  unfold offered_keys at h
  rw [List.mem_append, List.mem_filter, List.mem_filter] at h
  rcases h with ⟨_, h⟩ | ⟨h, _⟩
  · simpa using h
  · exact h

theorem mem_current_of_mem_report_keys (m : Nat) (previous current : List Nat) (x : Nat)
    (h : x ∈ report_keys m previous current) : x ∈ current := by
  unfold report_keys at h
  rcases mem_foldl_add_key m _ _ x h with h1 | h1
  · simp at h1
  · exact mem_offered_keys previous current x h1

theorem report_keys_split (m : Nat) (previous current : List Nat) :
    ∃ t, report_keys m previous current =
      (previous.filter (fun k => decide (k ∈ current))).foldl (add_key m) [] ++ t := by
  unfold report_keys offered_keys
  rw [List.foldl_append]
  exact foldl_add_key_extends m _ _

theorem getD_append_left_of_lt (a b : List Nat) (i : Nat) (h : i < a.length) :
    (a ++ b).getD i 0 = a[i] := by
  rw [List.getD_eq_getElem?_getD, List.getElem?_append_left h, List.getElem?_eq_getElem h]
  rfl

/-- A non-zero key of both key lists gets a slot, and the slots below it hold
keys of both lists too. -/
theorem report_keys_carried (m : Nat) (previous current : List Nat) (K : Nat)
    (hK : K ≠ 0) (hp : K ∈ previous) (hc : K ∈ current) (hlen : previous.length ≤ m) :
    ∃ s, s < m ∧ (report_keys m previous current).getD s 0 = K ∧
      ∀ t, t < s → (report_keys m previous current).getD t 0 ≠ 0 ∧
        (report_keys m previous current).getD t 0 ∈ previous ∧
        (report_keys m previous current).getD t 0 ∈ current := by
  obtain ⟨tail, ht⟩ := report_keys_split m previous current
  have hF : K ∈ previous.filter (fun k => decide (k ∈ current)) := by
    rw [List.mem_filter]; exact ⟨hp, by simpa using hc⟩
  have hFlen : (previous.filter (fun k => decide (k ∈ current))).length ≤ m :=
    Nat.le_trans (List.length_filter_le _ _) hlen
  have hin : K ∈ (previous.filter (fun k => decide (k ∈ current))).foldl (add_key m) [] :=
    mem_foldl_add_key_of_mem m _ [] K hK hF (by simpa using hFlen)
  have hinv := foldl_add_key_invariant m (previous.filter (fun k => decide (k ∈ current))) []
    ⟨by simp, List.nodup_nil, Nat.zero_le _⟩
  have hidx := List.indexOf_lt_length.mpr hin
  refine ⟨_, Nat.lt_of_lt_of_le hidx hinv.2.2, ?_, ?_⟩
  · rw [ht, getD_append_left_of_lt _ _ _ hidx]
    exact List.getElem_indexOf hidx
  · intro t htlt
    have htl : t < ((previous.filter (fun k => decide (k ∈ current))).foldl
        (add_key m) []).length := Nat.lt_trans htlt hidx
    rw [ht, getD_append_left_of_lt _ _ _ htl]
    have hmem := List.getElem_mem htl
    refine ⟨hinv.1 _ hmem, ?_⟩
    rcases mem_foldl_add_key m _ _ _ hmem with h1 | h1
    · simp at h1
    · rw [List.mem_filter] at h1
      exact ⟨h1.1, by simpa using h1.2⟩

/-! ## Slot assignment across consecutive reports -/

set_option maxRecDepth 100000

/-- Claim C9 fails as stated: from the initial state, holding `A` and `B`
emits the report with `B` in key slot 1; releasing `A` and pressing `C` emits
the next report, `B` is still in the current key list, and `B` is now in key
slot 0, not in slot 1. -/
theorem stable_slot_counterexample :
    new_packet sample_cfg (initial_state sample_cfg) idle_snapshot (steady_sweeps snapshot_AB) =
      some (state_AB, ⟨true, some [0, 0, 4, 5, 0, 0, 0, 0], some 8⟩) ∧
    new_packet sample_cfg state_AB idle_snapshot (steady_sweeps snapshot_BC) =
      some (state_BC, ⟨true, some [0, 0, 5, 6, 0, 0, 0, 0], some 8⟩) ∧
    key_slot [0, 0, 4, 5, 0, 0, 0, 0] 1 = 5 ∧
    5 ∈ state_BC.current_keys ∧
    key_slot [0, 0, 5, 6, 0, 0, 0, 0] 1 ≠ 5 ∧
    key_slot [0, 0, 5, 6, 0, 0, 0, 0] 0 = 5 := by
  decide

/-- Claim C9, amended: let a call of `new_packet` emit a report, let any number
of calls that emit nothing follow, and let the next call emit a report. A
non-zero keycode `K` that occupies key slot `s` of the prior report and is in
the current key list of the new report occupies some key slot `s'` of the new
report, and every slot below `s'` holds a non-zero keycode that is in the key
list of the prior report and in the current key list. -/
theorem carried_key_keeps_a_slot (cfg : Config) (st0 st1 stq st2 : State)
    (r1 r2 : PacketResult) (md1 md2 : List Nat) (sweeps1 sweeps2 : List (List Nat))
    (calls : List (List Nat × List (List Nat))) (K s : Nat)
    (hs : st0.Sized cfg)
    (h1 : new_packet cfg st0 md1 sweeps1 = some (st1, r1))
    (he1 : r1.new_packet_prepared = true)
    (hq : quiet_calls cfg st1 calls = some stq)
    (h2 : new_packet cfg stq md2 sweeps2 = some (st2, r2))
    (he2 : r2.new_packet_prepared = true)
    (hK : K ≠ 0) (hslot : key_slot st1.m_key_packet s = K) (hcur : K ∈ st2.current_keys) :
    r1.p_key_packet = some st1.m_key_packet ∧ r2.p_key_packet = some st2.m_key_packet ∧
    ∃ s', s' < cfg.CHERRY8x16_MAX_NUM_OF_PRESSED_KEYS ∧ key_slot st2.m_key_packet s' = K ∧
      ∀ t, t < s' → key_slot st2.m_key_packet t ≠ 0 ∧
        key_slot st2.m_key_packet t ∈ st1.current_keys ∧
        key_slot st2.m_key_packet t ∈ st2.current_keys := by
  obtain ⟨a1, a2, _, _, a5, a6⟩ := new_packet_prepared_spec cfg st0 md1 sweeps1 st1 r1 hs h1 he1
  obtain ⟨q1, _, q3, q4⟩ := quiet_calls_spec cfg calls st1 stq a1 hq
  obtain ⟨b1, b2, _, _, b5, b6⟩ := new_packet_prepared_spec cfg stq md2 sweeps2 st2 r2 q1 h2 he2
  rw [q4] at b5
  refine ⟨by rw [a6], by rw [b6], ?_⟩
  -- `K` is in the key list of the prior report
  have hK1 : K ∈ keys_read st1.m_currently_pressed_keys st1.m_num_of_currently_pressed_keys := by
    rw [a5, key_slot_cons_cons, getD_pad_slots] at hslot
    have hlt := getD_ne_zero_lt _ s (by rw [hslot]; exact hK)
    rw [List.getD_eq_getElem _ _ hlt] at hslot
    exact mem_current_of_mem_report_keys _ _ _ K (hslot ▸ List.getElem_mem hlt)
  have hK2 : K ∈ keys_read st2.m_currently_pressed_keys st2.m_num_of_currently_pressed_keys :=
    (mem_keys_read_iff_mem_take _ _ _ hK).mpr hcur
  obtain ⟨s', hs', hget, hbelow⟩ := report_keys_carried cfg.CHERRY8x16_MAX_NUM_OF_PRESSED_KEYS
    _ _ K hK hK1 hK2 (by rw [length_keys_read]; exact a2)
  refine ⟨s', hs', ?_, ?_⟩
  · rw [b5, key_slot_cons_cons, getD_pad_slots]
    exact hget
  · intro t ht
    obtain ⟨c1, c2, c3⟩ := hbelow t ht
    rw [b5, key_slot_cons_cons, getD_pad_slots]
    exact ⟨c1, (mem_keys_read_iff_mem_take _ _ _ c1).mp c2,
      (mem_keys_read_iff_mem_take _ _ _ c1).mp c3⟩

theorem carried_key_keeps_a_slot_witness :
    (some [0, 0, 4, 5, 0, 0, 0, 0] = some state_AB.m_key_packet) ∧
    (some [0, 0, 5, 6, 0, 0, 0, 0] = some state_BC.m_key_packet) ∧
    ∃ s', s' < sample_cfg.CHERRY8x16_MAX_NUM_OF_PRESSED_KEYS ∧
      key_slot state_BC.m_key_packet s' = 5 ∧
      ∀ t, t < s' → key_slot state_BC.m_key_packet t ≠ 0 ∧
        key_slot state_BC.m_key_packet t ∈ state_AB.current_keys ∧
        key_slot state_BC.m_key_packet t ∈ state_BC.current_keys :=
  carried_key_keeps_a_slot sample_cfg (initial_state sample_cfg) state_AB state_AB_again state_BC
    ⟨true, some [0, 0, 4, 5, 0, 0, 0, 0], some 8⟩ ⟨true, some [0, 0, 5, 6, 0, 0, 0, 0], some 8⟩
    idle_snapshot idle_snapshot (steady_sweeps snapshot_AB) (steady_sweeps snapshot_BC)
    [(idle_snapshot, steady_sweeps snapshot_AB)] 5 1
    (by decide) (by decide) (by decide) (by decide) (by decide) (by decide) (by decide)
    (by decide) (by decide)

theorem indexOf_filter_lt (q : Nat → Bool) (l : List Nat) (K L : Nat)
    (hqK : q K = true) (hqL : q L = true) (hord : l.indexOf K < l.indexOf L) :
    (l.filter q).indexOf K < (l.filter q).indexOf L := by
  induction l with
  | nil => simp at hord
  | cons x l ih =>
    by_cases hxL : x = L
    · subst hxL
      rw [List.indexOf_cons_self] at hord
      omega
    · by_cases hxK : x = K
      · subst hxK
        rw [List.filter_cons_of_pos hqK, List.indexOf_cons_self, List.indexOf_cons_ne _ hxL]
        omega
      · rw [List.indexOf_cons_ne _ hxK, List.indexOf_cons_ne _ hxL] at hord
        have ih2 := ih (by omega)
        by_cases hqx : q x = true
        · rw [List.filter_cons_of_pos hqx, List.indexOf_cons_ne _ hxK, List.indexOf_cons_ne _ hxL]
          omega
        · rw [List.filter_cons_of_neg hqx]
          exact ih2

/-- Two non-zero keys of both key lists get their slots in the order of their
first occurrences in the previous key list. -/
theorem report_keys_order (m : Nat) (previous current : List Nat) (K L : Nat)
    (hK : K ≠ 0) (hL : L ≠ 0) (hLp : L ∈ previous)
    (hord : previous.indexOf K < previous.indexOf L)
    (hKc : K ∈ current) (hLc : L ∈ current) (hlen : previous.length ≤ m) :
    ∃ a b, a < b ∧ b < m ∧ (report_keys m previous current).getD a 0 = K ∧
      (report_keys m previous current).getD b 0 = L := by
  obtain ⟨tail, ht⟩ := report_keys_split m previous current
  have hKp : K ∈ previous := by
    apply List.indexOf_lt_length.mp
    have := List.indexOf_le_length (a := L) (l := previous)
    omega
  have hFK : K ∈ previous.filter (fun k => decide (k ∈ current)) := by
    rw [List.mem_filter]; exact ⟨hKp, by simpa using hKc⟩
  have hFL : L ∈ previous.filter (fun k => decide (k ∈ current)) := by
    rw [List.mem_filter]; exact ⟨hLp, by simpa using hLc⟩
  have hFord := indexOf_filter_lt (fun k => decide (k ∈ current)) previous K L
    (by simpa using hKc) (by simpa using hLc) hord
  have hFlen : (previous.filter (fun k => decide (k ∈ current))).length ≤ m :=
    Nat.le_trans (List.length_filter_le _ _) hlen
  obtain ⟨hlt, hLin⟩ := indexOf_foldl_add_key_lt m _ [] K L hK hL hFK hFL hFord
    (by simp) (by simp) (by simpa using hFlen)
  have hinv := foldl_add_key_invariant m (previous.filter (fun k => decide (k ∈ current))) []
    ⟨by simp, List.nodup_nil, Nat.zero_le _⟩
  have hb := List.indexOf_lt_length.mpr hLin
  have ha := Nat.lt_trans hlt hb
  refine ⟨_, _, hlt, Nat.lt_of_lt_of_le hb hinv.2.2, ?_, ?_⟩
  · rw [ht, getD_append_left_of_lt _ _ _ ha]
    exact List.getElem_indexOf ha
  · rw [ht, getD_append_left_of_lt _ _ _ hb]
    exact List.getElem_indexOf hb

/-- Every call of `new_packet` that returns keeps the array sizes and the
bound on the number of current keys. -/
theorem new_packet_invariant (cfg : Config) (st : State) (md : List Nat)
    (sweeps : List (List Nat)) (st' : State) (r : PacketResult)
    (hs : st.Sized cfg)
    (hn : st.m_num_of_currently_pressed_keys ≤ cfg.CHERRY8x16_MAX_NUM_OF_PRESSED_KEYS)
    (h : new_packet cfg st md sweeps = some (st', r)) :
    st'.Sized cfg ∧
      st'.m_num_of_currently_pressed_keys ≤ cfg.CHERRY8x16_MAX_NUM_OF_PRESSED_KEYS := by
  cases hr : r.new_packet_prepared with
  | true =>
    obtain ⟨a1, a2, _⟩ := new_packet_prepared_spec cfg st md sweeps st' r hs h hr
    exact ⟨a1, a2⟩
  | false =>
    obtain ⟨a1, _, a3, _⟩ := new_packet_quiet_spec cfg st md sweeps st' r hs h hr
    exact ⟨a1, by rw [a3]; exact hn⟩

/-- Claim C10 fails as stated: from the initial state press `B`, then `A` in
addition (report: `B` in slot 0, `A` in slot 1), then `C` in addition. `A` and
`B` are both carried over, and the new report has `A` in slot 0 and `B` in
slot 1: their order is reversed. -/
theorem relative_order_counterexample :
    new_packet sample_cfg (initial_state sample_cfg) idle_snapshot (steady_sweeps snapshot_B) =
      some (state_B, ⟨true, some [0, 0, 5, 0, 0, 0, 0, 0], some 8⟩) ∧
    new_packet sample_cfg state_B idle_snapshot (steady_sweeps snapshot_AB) =
      some (state_B_then_A, ⟨true, some [0, 0, 5, 4, 0, 0, 0, 0], some 8⟩) ∧
    new_packet sample_cfg state_B_then_A idle_snapshot (steady_sweeps snapshot_ABC) =
      some (state_B_then_A_then_C, ⟨true, some [0, 0, 4, 5, 6, 0, 0, 0], some 8⟩) ∧
    key_slot [0, 0, 5, 4, 0, 0, 0, 0] 0 = 5 ∧ key_slot [0, 0, 5, 4, 0, 0, 0, 0] 1 = 4 ∧
    5 ∈ state_B_then_A_then_C.current_keys ∧ 4 ∈ state_B_then_A_then_C.current_keys ∧
    key_slot [0, 0, 4, 5, 6, 0, 0, 0] 1 = 5 ∧ key_slot [0, 0, 4, 5, 6, 0, 0, 0] 0 = 4 := by
  decide

/-- Claim C10, amended: in a call of `new_packet` that emits a report, entered
with a key list within capacity, let the non-zero keycodes `K` and `L` both be
in the previous key list, the first occurrence of `K` before that of `L`, and
both in the current key list. Then `K` occupies a lower-indexed key slot of
the new report than `L`. -/
theorem carried_keys_follow_previous_key_list (cfg : Config) (st st' : State)
    (r : PacketResult) (md : List Nat) (sweeps : List (List Nat)) (K L : Nat)
    (hs : st.Sized cfg)
    (hn : st.m_num_of_currently_pressed_keys ≤ cfg.CHERRY8x16_MAX_NUM_OF_PRESSED_KEYS)
    (h : new_packet cfg st md sweeps = some (st', r))
    (he : r.new_packet_prepared = true)
    (hK : K ≠ 0) (hL : L ≠ 0) (hLp : L ∈ st.current_keys)
    (hord : st.current_keys.indexOf K < st.current_keys.indexOf L)
    (hKc : K ∈ st'.current_keys) (hLc : L ∈ st'.current_keys) :
    r.p_key_packet = some st'.m_key_packet ∧
    st'.transmitted_keys = st.current_keys ∧
    ∃ a b, a < b ∧ b < cfg.CHERRY8x16_MAX_NUM_OF_PRESSED_KEYS ∧
      key_slot st'.m_key_packet a = K ∧ key_slot st'.m_key_packet b = L := by
  obtain ⟨_, _, a3, a4, a5, a6⟩ := new_packet_prepared_spec cfg st md sweeps st' r hs h he
  have hprev : keys_read st.m_currently_pressed_keys st.m_num_of_currently_pressed_keys =
      st.current_keys := keys_read_eq_take _ _ (by rw [hs.1]; exact hn)
  rw [hprev] at a5
  refine ⟨by rw [a6], ?_, ?_⟩
  · unfold State.transmitted_keys State.current_keys
    rw [a3, a4]
  · obtain ⟨a, b, hab, hb, hka, hlb⟩ := report_keys_order cfg.CHERRY8x16_MAX_NUM_OF_PRESSED_KEYS
      st.current_keys
      (keys_read st'.m_currently_pressed_keys st'.m_num_of_currently_pressed_keys) K L hK hL hLp
      hord ((mem_keys_read_iff_mem_take _ _ _ hK).mpr hKc)
      ((mem_keys_read_iff_mem_take _ _ _ hL).mpr hLc)
      (by unfold State.current_keys; rw [List.length_take]; omega)
    refine ⟨a, b, hab, hb, ?_, ?_⟩
    · rw [a5, key_slot_cons_cons, getD_pad_slots]; exact hka
    · rw [a5, key_slot_cons_cons, getD_pad_slots]; exact hlb

theorem carried_keys_follow_previous_key_list_witness :
    (some [0, 0, 4, 5, 6, 0, 0, 0] = some state_B_then_A_then_C.m_key_packet) ∧
    state_B_then_A_then_C.transmitted_keys = state_B_then_A.current_keys ∧
    ∃ a b, a < b ∧ b < sample_cfg.CHERRY8x16_MAX_NUM_OF_PRESSED_KEYS ∧
      key_slot state_B_then_A_then_C.m_key_packet a = 4 ∧
      key_slot state_B_then_A_then_C.m_key_packet b = 5 :=
  carried_keys_follow_previous_key_list sample_cfg state_B_then_A state_B_then_A_then_C
    ⟨true, some [0, 0, 4, 5, 6, 0, 0, 0], some 8⟩ idle_snapshot (steady_sweeps snapshot_ABC) 4 5
    (by decide) (by decide) (by decide) (by decide) (by decide) (by decide) (by decide)
    (by decide) (by decide) (by decide)

/-! ## Top-level operation: the three outcomes of a call -/

theorem new_packet_ghost (cfg : Config) (st : State) (md : List Nat)
    (sweeps : List (List Nat)) (matrix : List Nat)
    (hk : keymatrix_read cfg md sweeps = some (matrix, false)) :
    new_packet cfg st md sweeps = some (saved_state cfg st, ⟨false, none, none⟩) := by
  unfold new_packet
  rw [hk]
  rfl

theorem new_packet_decoded (cfg : Config) (st : State) (md : List Nat)
    (sweeps : List (List Nat)) (matrix keys : List Nat) (n : Nat)
    (hk : keymatrix_read cfg md sweeps = some (matrix, true))
    (hm : matrix_to_keycode cfg matrix st.m_currently_pressed_keys = some (keys, n)) :
    new_packet cfg st md sweeps =
      if cherry8x16_have_keys_changed keys n (saved_state cfg st).m_transmitted_keys
          st.m_num_of_currently_pressed_keys = true then
        some ({ saved_state cfg st with
                m_currently_pressed_keys := keys, m_num_of_currently_pressed_keys := n,
                m_key_packet := cherry8x16_keypacket_create cfg
                  { saved_state cfg st with
                    m_currently_pressed_keys := keys, m_num_of_currently_pressed_keys := n } },
              ⟨true,
               some (cherry8x16_keypacket_create cfg
                  { saved_state cfg st with
                    m_currently_pressed_keys := keys, m_num_of_currently_pressed_keys := n }),
               some (KEY_PACKET_SIZE cfg)⟩)
      else
        some ({ saved_state cfg st with
                m_currently_pressed_keys := keys, m_num_of_currently_pressed_keys := n },
              ⟨false, none, none⟩) := by
  unfold new_packet
  rw [hk]
  simp only
  have hm2 : matrix_to_keycode cfg matrix (saved_state cfg st).m_currently_pressed_keys =
      some (keys, n) := hm
  unfold saved_state at hm2 ⊢
  simp only at hm2 ⊢
  rw [hm2]

theorem saved_state_sized (cfg : Config) (st : State) (hs : st.Sized cfg) :
    saved_state cfg st =
      { st with m_transmitted_keys := st.m_currently_pressed_keys
                m_number_of_transmitted_keys := st.m_num_of_currently_pressed_keys } := by
  unfold saved_state
  rw [save_pressed_keys_eq _ _ _ hs.1 hs.2.1]

/-- Claim C13: when the ghost check rejects the scanned snapshot, `new_packet`
returns false, writes neither out-parameter, and leaves the current key list,
its count and the stored key packet as they were. -/
theorem new_packet_ghost_keeps_state (cfg : Config) (st : State) (md : List Nat)
    (sweeps : List (List Nat)) (matrix : List Nat)
    (hk : keymatrix_read cfg md sweeps = some (matrix, false)) :
    ∃ st', new_packet cfg st md sweeps = some (st', ⟨false, none, none⟩) ∧
      st'.m_currently_pressed_keys = st.m_currently_pressed_keys ∧
      st'.m_num_of_currently_pressed_keys = st.m_num_of_currently_pressed_keys ∧
      st'.m_key_packet = st.m_key_packet ∧
      st'.current_keys = st.current_keys :=
  ⟨saved_state cfg st, new_packet_ghost cfg st md sweeps matrix hk, rfl, rfl, rfl, rfl⟩

theorem new_packet_ghost_keeps_state_witness :
    ∃ st', new_packet sample_cfg state_AB idle_snapshot
        (steady_sweeps [3, 1, 0, 0, 0, 0, 0, 0]) = some (st', ⟨false, none, none⟩) ∧
      st'.m_currently_pressed_keys = state_AB.m_currently_pressed_keys ∧
      st'.m_num_of_currently_pressed_keys = state_AB.m_num_of_currently_pressed_keys ∧
      st'.m_key_packet = state_AB.m_key_packet ∧
      st'.current_keys = state_AB.current_keys :=
  new_packet_ghost_keeps_state sample_cfg state_AB idle_snapshot
    (steady_sweeps [3, 1, 0, 0, 0, 0, 0, 0]) [3, 1, 0, 0, 0, 0, 0, 0] (by decide)

/-- Claim C11, evaluated at the failing input: Left Shift is held (first
report), then `A` is pressed in addition. The second report has the Shift bit
set and `A` in key slot 1, but key slot 0 holds the Shift keycode `0xE1`
itself, which the priority loop added. -/
theorem shift_then_A_report :
    new_packet sample_cfg (initial_state sample_cfg) idle_snapshot (steady_sweeps snapshot_shift) =
      some (state_shift, ⟨true, some [2, 0, 0, 0, 0, 0, 0, 0], some 8⟩) ∧
    new_packet sample_cfg state_shift idle_snapshot (steady_sweeps snapshot_shift_A) =
      some (state_shift_A, ⟨true, some [2, 0, 0xE1, 0x04, 0, 0, 0, 0], some 8⟩) ∧
    state_shift_A.current_keys = [0x04, 0xE1] ∧
    state_shift_A.transmitted_keys = [0xE1] ∧
    cherry8x16_keypacket_create sample_cfg state_shift_A = [2, 0, 0xE1, 0x04, 0, 0, 0, 0] ∧
    key_slot (cherry8x16_keypacket_create sample_cfg state_shift_A) 0 = 0xE1 := by
  decide

/-- Claim C14, evaluated at the failing input: a snapshot with seven keys of
one row closed passes the ghost check, and the first loop nest of
`matrix_to_keycode` then writes entry 6 of the six-entry arrays `press_normal`
and `press_fn`; the embedding answers `none`. -/
theorem seven_keys_overrun :
    (ghost_check sample_cfg snapshot_seven).2 = true ∧
    (pressed_positions sample_cfg snapshot_seven).length = 7 ∧
    sample_cfg.CHERRY8x16_MAX_NUM_OF_PRESSED_KEYS = 6 ∧
    scan_pressed sample_cfg snapshot_seven = none ∧
    matrix_to_keycode sample_cfg snapshot_seven [0, 0, 0, 0, 0, 0] = none ∧
    new_packet sample_cfg (initial_state sample_cfg) idle_snapshot (steady_sweeps snapshot_seven) =
      none := by
  decide

/-! ## Scanning the same snapshot twice -/

theorem matrix_to_keycode_overrun (cfg : Config) (matrix pk : List Nat)
    (h : cfg.CHERRY8x16_MAX_NUM_OF_PRESSED_KEYS < (pressed_positions cfg matrix).length) :
    matrix_to_keycode cfg matrix pk = none := by
  unfold matrix_to_keycode
  rw [scan_pressed_eq, if_neg (by omega)]

theorem ghost_flag_of_zero_rows (cfg : Config) (snapshot : List Nat)
    (hz : ∀ i, i < cfg.MATRIX_ROWS → snapshot.getD i 0 = 0) :
    ghost_flag cfg snapshot = false := by
  cases hb : ghost_flag cfg snapshot with
  | false => rfl
  | true =>
    obtain ⟨i, hi, hm, _⟩ := (ghost_flag_true_iff cfg snapshot).mp hb
    rw [hz i hi] at hm
    exact absurd hm (by decide)

theorem pressed_positions_of_zero_rows (cfg : Config) (snapshot : List Nat)
    (hz : ∀ i, i < cfg.MATRIX_ROWS → snapshot.getD i 0 = 0) :
    pressed_positions cfg snapshot = [] := by
  unfold pressed_positions
  rw [List.flatMap_eq_nil_iff]
  intro i hi
  unfold pressed_in_row
  rw [hz i (List.mem_range.mp hi)]
  simp

theorem ghost_check_of_length (cfg : Config) (snapshot : List Nat)
    (hl : snapshot.length = cfg.MATRIX_ROWS) :
    ghost_check cfg snapshot = (snapshot, !ghost_flag cfg snapshot) := by
  unfold ghost_check
  rw [← hl, map_getD_range]

/-- A call that decodes a snapshot whose keys are already the current key list
finds no change. -/
theorem new_packet_same_keys (cfg : Config) (st : State) (md : List Nat)
    (sweeps : List (List Nat)) (snapshot out : List Nat)
    (hk : keymatrix_read cfg md sweeps = some (snapshot, true))
    (hcl : st.m_currently_pressed_keys.length = cfg.CHERRY8x16_MAX_NUM_OF_PRESSED_KEYS)
    (htl : st.m_transmitted_keys.length = cfg.CHERRY8x16_MAX_NUM_OF_PRESSED_KEYS)
    (hm : matrix_to_keycode cfg snapshot st.m_currently_pressed_keys =
      some (out ++ st.m_currently_pressed_keys.drop out.length, out.length % 256))
    (hcur : st.m_currently_pressed_keys.take out.length = out)
    (hn : st.m_num_of_currently_pressed_keys = out.length % 256) :
    ∃ st', new_packet cfg st md sweeps = some (st', ⟨false, none, none⟩) := by
  have hkeys : out ++ st.m_currently_pressed_keys.drop out.length =
      st.m_currently_pressed_keys := by
    have h := List.take_append_drop out.length st.m_currently_pressed_keys
    rw [hcur] at h
    exact h
  rw [hkeys] at hm
  rw [new_packet_decoded cfg st md sweeps snapshot _ _ hk hm]
  have hsave : (saved_state cfg st).m_transmitted_keys = st.m_currently_pressed_keys := by
    unfold saved_state
    exact save_pressed_keys_eq _ _ _ hcl htl
  rw [hsave, ← hn]
  have hq : cherry8x16_have_keys_changed st.m_currently_pressed_keys
      st.m_num_of_currently_pressed_keys st.m_currently_pressed_keys
      st.m_num_of_currently_pressed_keys = false := by
    cases hb : cherry8x16_have_keys_changed st.m_currently_pressed_keys
        st.m_num_of_currently_pressed_keys st.m_currently_pressed_keys
        st.m_num_of_currently_pressed_keys with
    | false => rfl
    | true =>
      rcases (have_keys_changed_true_iff _ _ _ _).mp hb with h | ⟨i, _, h⟩
      · exact absurd rfl h
      · exact absurd rfl h
  rw [hq]
  exact ⟨_, rfl⟩

theorem keypacket_create_of_no_keys (cfg : Config) (st : State)
    (hpkt : st.m_key_packet.length = KEY_PACKET_SIZE cfg)
    (hn : st.m_num_of_currently_pressed_keys = 0) :
    cherry8x16_keypacket_create cfg st = List.replicate (KEY_PACKET_SIZE cfg) 0 := by
  rw [keypacket_create_eq cfg st hpkt, hn]
  have h1 : keys_read st.m_currently_pressed_keys 0 = [] := rfl
  rw [h1]
  have h2 : ∀ prev : List Nat,
      report_keys cfg.CHERRY8x16_MAX_NUM_OF_PRESSED_KEYS prev [] = [] := by
    intro prev
    unfold report_keys offered_keys
    simp
  rw [h2]
  simp [modifier_mask, pad_slots, KEY_PACKET_SIZE, List.replicate_add]

/-- Claim C12: when two consecutive calls of `new_packet` both scan the same
debounced snapshot (with at most `MAX_PRESSED` bits set), the second call
returns false and writes no report. When the snapshot is empty and the first
call starts with a non-empty key list, the first call returns true with a
report whose bytes are all 0. -/
theorem same_snapshot_twice_is_quiet (cfg : Config) (st : State) (md1 md2 : List Nat)
    (sweeps1 sweeps2 : List (List Nat)) (snapshot : List Nat) (rest1 rest2 : List (List Nat))
    (hs : st.Sized cfg) (hl1 : md1.length = cfg.MATRIX_ROWS)
    (hd1 : debounce_loop cfg sweeps1 md1 1 = some (snapshot, rest1))
    (hd2 : debounce_loop cfg sweeps2 md2 1 = some (snapshot, rest2))
    (hbits : (pressed_positions cfg snapshot).length ≤ cfg.CHERRY8x16_MAX_NUM_OF_PRESSED_KEYS) :
    ∃ st1 r1, new_packet cfg st md1 sweeps1 = some (st1, r1) ∧
      (∃ st2, new_packet cfg st1 md2 sweeps2 = some (st2, ⟨false, none, none⟩)) ∧
      ((∀ i, i < cfg.MATRIX_ROWS → snapshot.getD i 0 = 0) →
        st.m_num_of_currently_pressed_keys ≠ 0 →
        r1 = ⟨true, some (List.replicate (KEY_PACKET_SIZE cfg) 0), some (KEY_PACKET_SIZE cfg)⟩) := by
  have hS : snapshot.length = cfg.MATRIX_ROWS := by
    rw [debounce_loop_length cfg sweeps1 md1 1 snapshot rest1 hd1, hl1]
  have hgc := ghost_check_of_length cfg snapshot hS
  have hk1 : keymatrix_read cfg md1 sweeps1 = some (snapshot, !ghost_flag cfg snapshot) := by
    rw [keymatrix_read_of_debounce cfg md1 sweeps1 snapshot rest1 hd1, hgc]
  have hk2 : keymatrix_read cfg md2 sweeps2 = some (snapshot, !ghost_flag cfg snapshot) := by
    rw [keymatrix_read_of_debounce cfg md2 sweeps2 snapshot rest2 hd2, hgc]
  cases hg : ghost_flag cfg snapshot with
  | true =>
    rw [hg] at hk1 hk2
    refine ⟨saved_state cfg st, _, new_packet_ghost cfg st md1 sweeps1 snapshot hk1,
      ⟨_, new_packet_ghost cfg (saved_state cfg st) md2 sweeps2 snapshot hk2⟩, ?_⟩
    intro hz _
    rw [ghost_flag_of_zero_rows cfg snapshot hz] at hg
    exact absurd hg (by decide)
  | false =>
    rw [hg] at hk1 hk2
    obtain ⟨out, hout, _, hm⟩ :=
      matrix_to_keycode_eq cfg snapshot st.m_currently_pressed_keys hbits hs.1
    have hkl := (matrix_to_keycode_result cfg snapshot _ _ _ hs.1 hm).1
    have hnp := new_packet_decoded cfg st md1 sweeps1 snapshot _ _ hk1 hm
    have hsv := saved_state_sized cfg st hs
    have htl : (saved_state cfg st).m_transmitted_keys.length =
        cfg.CHERRY8x16_MAX_NUM_OF_PRESSED_KEYS := by
      rw [hsv]; exact hs.1
    have hsecond : ∀ st1 : State,
        st1.m_currently_pressed_keys = out ++ st.m_currently_pressed_keys.drop out.length →
        st1.m_num_of_currently_pressed_keys = out.length % 256 →
        st1.m_transmitted_keys.length = cfg.CHERRY8x16_MAX_NUM_OF_PRESSED_KEYS →
        ∃ st2, new_packet cfg st1 md2 sweeps2 = some (st2, ⟨false, none, none⟩) := by
      intro st1 hc hn ht
      have hcl : st1.m_currently_pressed_keys.length =
          cfg.CHERRY8x16_MAX_NUM_OF_PRESSED_KEYS := by rw [hc]; exact hkl
      obtain ⟨out', hout', _, hm'⟩ :=
        matrix_to_keycode_eq cfg snapshot st1.m_currently_pressed_keys hbits hcl
      have he : out' = out := by rw [hout', hout]
      rw [he] at hm'
      exact new_packet_same_keys cfg st1 md2 sweeps2 snapshot out hk2 hcl ht hm'
        (by rw [hc]; exact List.take_left' rfl) hn
    have hzero : (∀ i, i < cfg.MATRIX_ROWS → snapshot.getD i 0 = 0) → out.length = 0 := by
      intro hz
      have hle := emitted_length_le cfg
        (((pressed_positions cfg snapshot).map (fun p => base_keycode cfg p % 256)).any
          (fun k => k == cfg.KC_FN0))
        ((pressed_positions cfg snapshot).map (fun p => base_keycode cfg p % 256))
        ((pressed_positions cfg snapshot).map (fun p => overlay_keycode cfg p % 256))
        (pressed_positions cfg snapshot).length
      rw [← hout, pressed_positions_of_zero_rows cfg snapshot hz] at hle
      exact Nat.le_zero.mp hle
    by_cases hch : cherry8x16_have_keys_changed
        (out ++ st.m_currently_pressed_keys.drop out.length) (out.length % 256)
        (saved_state cfg st).m_transmitted_keys st.m_num_of_currently_pressed_keys = true
    · rw [if_pos hch] at hnp
      refine ⟨_, _, hnp, hsecond _ rfl rfl htl, ?_⟩
      intro hz _
      have h0 := hzero hz
      have hc := keypacket_create_of_no_keys cfg
        { saved_state cfg st with
          m_currently_pressed_keys := out ++ st.m_currently_pressed_keys.drop out.length,
          m_num_of_currently_pressed_keys := out.length % 256 }
        hs.2.2 (by show out.length % 256 = 0; rw [h0])
      rw [hc]
    · rw [if_neg hch] at hnp
      refine ⟨_, _, hnp, hsecond _ rfl rfl htl, ?_⟩
      intro hz hne
      exfalso
      apply hch
      rw [have_keys_changed_true_iff]
      left
      rw [hzero hz]
      exact fun h => hne h.symm

theorem same_snapshot_twice_is_quiet_witness :
    ∃ st1 r1, new_packet sample_cfg state_AB idle_snapshot (steady_sweeps idle_snapshot) =
        some (st1, r1) ∧
      (∃ st2, new_packet sample_cfg st1 idle_snapshot (steady_sweeps idle_snapshot) =
        some (st2, ⟨false, none, none⟩)) ∧
      ((∀ i, i < sample_cfg.MATRIX_ROWS → idle_snapshot.getD i 0 = 0) →
        state_AB.m_num_of_currently_pressed_keys ≠ 0 →
        r1 = ⟨true, some (List.replicate (KEY_PACKET_SIZE sample_cfg) 0),
          some (KEY_PACKET_SIZE sample_cfg)⟩) :=
  same_snapshot_twice_is_quiet sample_cfg state_AB idle_snapshot idle_snapshot
    (steady_sweeps idle_snapshot) (steady_sweeps idle_snapshot) idle_snapshot
    [idle_snapshot, idle_snapshot, idle_snapshot]
    [idle_snapshot, idle_snapshot, idle_snapshot]
    (by decide) (by decide) (by decide) (by decide) (by decide)

/-! ## Report builder: independence of the old packet and the reference -/

/-- Claim C17: the report built by `cherry8x16_keypacket_create` depends on the
current and the previous key list only: two states with the same two key lists
and arbitrary packet buffers of `KEY_PACKET_SIZE` bytes yield the same
`KEY_PACKET_SIZE`-byte report. -/
theorem keypacket_create_ignores_old_packet (cfg : Config) (st1 st2 : State)
    (hp1 : st1.m_key_packet.length = KEY_PACKET_SIZE cfg)
    (hp2 : st2.m_key_packet.length = KEY_PACKET_SIZE cfg)
    (hc1 : st1.m_num_of_currently_pressed_keys ≤ st1.m_currently_pressed_keys.length)
    (hc2 : st2.m_num_of_currently_pressed_keys ≤ st2.m_currently_pressed_keys.length)
    (ht1 : st1.m_number_of_transmitted_keys ≤ st1.m_transmitted_keys.length)
    (ht2 : st2.m_number_of_transmitted_keys ≤ st2.m_transmitted_keys.length)
    (hcur : st1.current_keys = st2.current_keys)
    (hprev : st1.transmitted_keys = st2.transmitted_keys) :
    cherry8x16_keypacket_create cfg st1 = cherry8x16_keypacket_create cfg st2 ∧
    (cherry8x16_keypacket_create cfg st1).length = KEY_PACKET_SIZE cfg := by
  have e1 := keypacket_create_eq cfg st1 hp1
  have e2 := keypacket_create_eq cfg st2 hp2
  rw [keys_read_eq_take _ _ hc1, keys_read_eq_take _ _ ht1] at e1
  rw [keys_read_eq_take _ _ hc2, keys_read_eq_take _ _ ht2] at e2
  unfold State.current_keys at hcur
  unfold State.transmitted_keys at hprev
  rw [hcur, hprev] at e1
  refine ⟨e1.trans e2.symm, ?_⟩
  rw [e1, List.length_append, length_pad_slots _ _ (report_keys_invariant _ _ _).2.2]
  simp [KEY_PACKET_SIZE]

theorem keypacket_create_ignores_old_packet_witness :
    cherry8x16_keypacket_create sample_cfg sample_state =
      cherry8x16_keypacket_create sample_cfg
        { sample_state with m_key_packet := [0, 0, 0, 0, 0, 0, 0, 0] } ∧
    (cherry8x16_keypacket_create sample_cfg sample_state).length = KEY_PACKET_SIZE sample_cfg :=
  keypacket_create_ignores_old_packet sample_cfg sample_state
    { sample_state with m_key_packet := [0, 0, 0, 0, 0, 0, 0, 0] }
    (by decide) (by decide) (by decide) (by decide) (by decide) (by decide) (by decide)
    (by decide)

theorem keep_first_occurrences_filter (q : Nat → Bool) (l : List Nat) :
    (keep_first_occurrences l).filter q = keep_first_occurrences (l.filter q) := by
  induction l with
  | nil => rfl
  | cons x xs ih =>
    have e : keep_first_occurrences (x :: xs) =
        x :: (keep_first_occurrences xs).filter (fun y => decide (y ≠ x)) := rfl
    rw [e]
    by_cases hq : q x = true
    · have e2 : keep_first_occurrences (x :: xs.filter q) =
          x :: (keep_first_occurrences (xs.filter q)).filter (fun y => decide (y ≠ x)) := rfl
      rw [List.filter_cons_of_pos hq, List.filter_cons_of_pos hq, e2, ← ih, List.filter_filter,
        List.filter_filter]
      congr 1
      apply List.filter_congr
      intro y _
      exact Bool.and_comm _ _
    · rw [List.filter_cons_of_neg hq, List.filter_cons_of_neg hq, List.filter_filter, ← ih]
      apply List.filter_congr
      intro y _
      by_cases hy : y = x
      · subst hy
        simp [hq]
      · simp [hy]

theorem foldl_add_key_eq_keep_first (m : Nat) (ks keys : List Nat)
    (h : (∀ x ∈ keys, x ≠ 0) ∧ keys.Nodup ∧ keys.length ≤ m) :
    ks.foldl (add_key m) keys =
      (keys ++ keep_first_occurrences
        ((ks.filter (fun k => decide (k ≠ 0))).filter (fun k => decide (k ∉ keys)))).take m := by
  induction ks generalizing keys with
  | nil =>
    simp only [List.foldl_nil, List.filter_nil, keep_first_occurrences, List.append_nil]
    rw [List.take_of_length_le h.2.2]
  | cons k ks ih =>
    rw [List.foldl_cons]
    by_cases hk0 : k = 0
    · have hadd : add_key m keys k = keys := by unfold add_key; rw [if_pos (Or.inl hk0)]
      rw [hadd, ih keys h, List.filter_cons_of_neg (by simp [hk0])]
    · by_cases hkm : k ∈ keys
      · have hadd : add_key m keys k = keys := by
          unfold add_key; rw [if_pos (Or.inr (Or.inl hkm))]
        rw [hadd, ih keys h, List.filter_cons_of_pos (by simpa using hk0),
          List.filter_cons_of_neg (by simpa using hkm)]
      · by_cases hfull : m ≤ keys.length
        · have hadd : add_key m keys k = keys := by
            unfold add_key; rw [if_pos (Or.inr (Or.inr hfull))]
          have hlen : keys.length = m := Nat.le_antisymm h.2.2 hfull
          rw [hadd, ih keys h, List.take_left' hlen, List.take_left' hlen]
        · have hadd : add_key m keys k = keys ++ [k] := by
            unfold add_key
            rw [if_neg]
            rintro (h1 | h1 | h1)
            · exact hk0 h1
            · exact hkm h1
            · exact hfull h1
          have hinv := add_key_invariant m keys k h
          rw [hadd] at hinv ⊢
          rw [ih (keys ++ [k]) hinv, List.filter_cons_of_pos (by simpa using hk0),
            List.filter_cons_of_pos (by simpa using hkm), keep_first_occurrences,
            keep_first_occurrences_filter, List.filter_filter, List.filter_filter,
            List.append_assoc, List.singleton_append]
          congr 4
          rw [List.filter_filter]
          apply List.filter_congr
          intro y _
          by_cases hy : y = k
          · subst hy
            simp
          · simp [hy]

theorem report_keys_eq_keep_first (m : Nat) (previous current : List Nat) :
    report_keys m previous current =
      (keep_first_occurrences
        ((offered_keys previous current).filter (fun k => decide (k ≠ 0)))).take m := by
  unfold report_keys
  rw [foldl_add_key_eq_keep_first m _ [] ⟨by simp, List.nodup_nil, Nat.zero_le _⟩]
  simp

theorem pad_report_keys_eq_ref (m : Nat) (previous current : List Nat) :
    pad_slots m (report_keys m previous current) = report_slots_ref m previous current := by
  have hoff : offered_keys previous current =
      previous.filter (fun k => decide (k ∈ current)) ++
        current.filter (fun k => decide (k < MODIFIER_HID_START ∨ MODIFIER_HID_END < k)) := by
    unfold offered_keys
    congr 1
    apply List.filter_congr
    intro k _
    unfold is_modifier
    by_cases hk : MODIFIER_HID_START ≤ k ∧ k ≤ MODIFIER_HID_END
    · have : ¬ (k < MODIFIER_HID_START ∨ MODIFIER_HID_END < k) := by omega
      simp [hk, this]
    · have : k < MODIFIER_HID_START ∨ MODIFIER_HID_END < k := by omega
      simp [hk, this]
  unfold pad_slots report_slots_ref
  rw [report_keys_eq_keep_first, hoff]

theorem length_le_foldl_add_key (m : Nat) (ks keys : List Nat) :
    keys.length ≤ (ks.foldl (add_key m) keys).length := by
  obtain ⟨t, ht⟩ := foldl_add_key_extends m ks keys
  rw [ht, List.length_append]
  omega

/-- A non-zero key that was offered and got no slot found the slots full. -/
theorem foldl_add_key_full_of_not_mem (m : Nat) (ks keys : List Nat) (k : Nat) (hk : k ≠ 0)
    (hmem : k ∈ ks) (hnot : k ∉ ks.foldl (add_key m) keys) :
    m ≤ (ks.foldl (add_key m) keys).length := by
  induction ks generalizing keys with
  | nil => simp at hmem
  | cons x ks ih =>
    rw [List.foldl_cons] at hnot ⊢
    rcases List.mem_cons.mp hmem with h | h
    · subst h
      by_contra hlt
      have hlen : keys.length < m := by
        have h1 := length_le_foldl_add_key m ks (add_key m keys k)
        have h2 : keys.length ≤ (add_key m keys k).length := by
          obtain ⟨t, ht⟩ := add_key_extends m keys k
          rw [ht, List.length_append]; omega
        omega
      exact hnot (mem_foldl_add_key_of_mem_left m ks _ k (mem_add_key_self m keys k hk hlen))
    · exact ih _ h hnot

theorem mem_report_keys_of_room (m : Nat) (previous current : List Nat) (k : Nat)
    (hk : k ≠ 0) (hoff : k ∈ offered_keys previous current) (hroom : current.length ≤ m) :
    k ∈ report_keys m previous current := by
  by_contra hnot
  have hfull : m ≤ (report_keys m previous current).length :=
    foldl_add_key_full_of_not_mem m _ [] k hk hoff hnot
  have hinv := report_keys_invariant m previous current
  have hnd : (k :: report_keys m previous current).Nodup :=
    List.nodup_cons.mpr ⟨hnot, hinv.2.1⟩
  have hsub : k :: report_keys m previous current ⊆ current := by
    intro x hx
    rcases List.mem_cons.mp hx with h | h
    · rw [h]; exact mem_offered_keys previous current k hoff
    · exact mem_current_of_mem_report_keys m previous current x h
  have hle := (List.subperm_of_subset hnd hsub).length_le
  rw [List.length_cons] at hle
  omega

/-- Claim C18: the key slots of the report built by
`cherry8x16_keypacket_create`, from the lowest slot upward, are the reference
list `report_slots_ref` of the previous and the current key list. The non-empty
slots form a gap-free prefix, every non-empty slot holds a current keycode, and
when the current key list has at most `MAX_PRESSED` entries every non-modifier
non-zero current keycode is in some slot. -/
theorem keypacket_create_slots_eq_reference (cfg : Config) (st : State)
    (hpkt : st.m_key_packet.length = KEY_PACKET_SIZE cfg)
    (hc : st.m_num_of_currently_pressed_keys ≤ st.m_currently_pressed_keys.length)
    (ht : st.m_number_of_transmitted_keys ≤ st.m_transmitted_keys.length) :
    (cherry8x16_keypacket_create cfg st).drop KEY_PACKET_KEY_INDEX =
      report_slots_ref cfg.CHERRY8x16_MAX_NUM_OF_PRESSED_KEYS st.transmitted_keys
        st.current_keys ∧
    (∀ s t, s < t → key_slot (cherry8x16_keypacket_create cfg st) s = 0 →
      key_slot (cherry8x16_keypacket_create cfg st) t = 0) ∧
    (∀ s, key_slot (cherry8x16_keypacket_create cfg st) s ≠ 0 →
      key_slot (cherry8x16_keypacket_create cfg st) s ∈ st.current_keys) ∧
    (st.m_num_of_currently_pressed_keys ≤ cfg.CHERRY8x16_MAX_NUM_OF_PRESSED_KEYS →
      ∀ k ∈ st.current_keys, k ≠ 0 → ¬ (MODIFIER_HID_START ≤ k ∧ k ≤ MODIFIER_HID_END) →
        ∃ s, s < cfg.CHERRY8x16_MAX_NUM_OF_PRESSED_KEYS ∧
          key_slot (cherry8x16_keypacket_create cfg st) s = k) := by
  have hslot := key_slot_keypacket_create cfg st hpkt
  have e := keypacket_create_eq cfg st hpkt
  rw [keys_read_eq_take _ _ hc, keys_read_eq_take _ _ ht] at e hslot
  have hcur : st.m_currently_pressed_keys.take st.m_num_of_currently_pressed_keys =
      st.current_keys := rfl
  have hprev : st.m_transmitted_keys.take st.m_number_of_transmitted_keys =
      st.transmitted_keys := rfl
  rw [hcur, hprev] at e hslot
  have hinv := report_keys_invariant cfg.CHERRY8x16_MAX_NUM_OF_PRESSED_KEYS
    st.transmitted_keys st.current_keys
  refine ⟨?_, ?_, ?_, ?_⟩
  · rw [e, ← pad_report_keys_eq_ref]
    rfl
  · intro s t hst hs
    rw [hslot] at hs ⊢
    have hge : ¬ s < (report_keys cfg.CHERRY8x16_MAX_NUM_OF_PRESSED_KEYS
        st.transmitted_keys st.current_keys).length := by
      intro hlt
      rw [List.getD_eq_getElem _ _ hlt] at hs
      exact hinv.1 _ (List.getElem_mem hlt) hs
    exact List.getD_eq_default _ _ (by omega)
  · intro s hs
    rw [hslot] at hs ⊢
    have hlt := getD_ne_zero_lt _ _ hs
    rw [List.getD_eq_getElem _ _ hlt]
    exact mem_current_of_mem_report_keys _ _ _ _ (List.getElem_mem hlt)
  · intro hn k hk hk0 hmod
    have hoff : k ∈ offered_keys st.transmitted_keys st.current_keys := by
      unfold offered_keys
      rw [List.mem_append]
      right
      rw [List.mem_filter]
      refine ⟨hk, ?_⟩
      unfold is_modifier
      rw [decide_eq_false hmod]
      rfl
    have hroom : st.current_keys.length ≤ cfg.CHERRY8x16_MAX_NUM_OF_PRESSED_KEYS := by
      unfold State.current_keys
      rw [List.length_take]
      omega
    have hin := mem_report_keys_of_room _ _ _ k hk0 hoff hroom
    have hidx := List.indexOf_lt_length.mpr hin
    refine ⟨_, Nat.lt_of_lt_of_le hidx hinv.2.2, ?_⟩
    rw [hslot, List.getD_eq_getElem _ _ hidx]
    exact List.getElem_indexOf hidx

theorem keypacket_create_slots_eq_reference_witness :
    (cherry8x16_keypacket_create sample_cfg sample_state).drop KEY_PACKET_KEY_INDEX =
      report_slots_ref sample_cfg.CHERRY8x16_MAX_NUM_OF_PRESSED_KEYS
        sample_state.transmitted_keys sample_state.current_keys ∧
    (∀ s t, s < t → key_slot (cherry8x16_keypacket_create sample_cfg sample_state) s = 0 →
      key_slot (cherry8x16_keypacket_create sample_cfg sample_state) t = 0) ∧
    (∀ s, key_slot (cherry8x16_keypacket_create sample_cfg sample_state) s ≠ 0 →
      key_slot (cherry8x16_keypacket_create sample_cfg sample_state) s ∈
        sample_state.current_keys) ∧
    (sample_state.m_num_of_currently_pressed_keys ≤
        sample_cfg.CHERRY8x16_MAX_NUM_OF_PRESSED_KEYS →
      ∀ k ∈ sample_state.current_keys, k ≠ 0 →
        ¬ (MODIFIER_HID_START ≤ k ∧ k ≤ MODIFIER_HID_END) →
        ∃ s, s < sample_cfg.CHERRY8x16_MAX_NUM_OF_PRESSED_KEYS ∧
          key_slot (cherry8x16_keypacket_create sample_cfg sample_state) s = k) :=
  keypacket_create_slots_eq_reference sample_cfg sample_state (by decide) (by decide)
    (by decide)

/-! ## Keycode mapper: repeated keycodes and the Fn position -/

theorem matrix_to_keycode_ref_eq (cfg : Config) (matrix : List Nat) :
    matrix_to_keycode_ref cfg matrix =
      ((pressed_positions cfg matrix).map (decoded_keycode cfg matrix)).filter
        (fun k => decide (k ≠ cfg.KC_FN0)) := rfl

/-- The decoded key list of a snapshot within capacity. -/
theorem matrix_to_keycode_decoded (cfg : Config) (matrix pressed_keys : List Nat)
    (hbits : (pressed_positions cfg matrix).length ≤ cfg.CHERRY8x16_MAX_NUM_OF_PRESSED_KEYS)
    (hlen : pressed_keys.length = cfg.CHERRY8x16_MAX_NUM_OF_PRESSED_KEYS)
    (hmax : cfg.CHERRY8x16_MAX_NUM_OF_PRESSED_KEYS < 256)
    (hbyte : ∀ l j i, cfg.keymaps l j i < 256) :
    ∃ keys n, matrix_to_keycode cfg matrix pressed_keys = some (keys, n) ∧
      n = (matrix_to_keycode_ref cfg matrix).length ∧
      keys.take n = matrix_to_keycode_ref cfg matrix := by
  obtain ⟨out, hout, hle, hm⟩ := matrix_to_keycode_eq cfg matrix pressed_keys hbits hlen
  rw [emitted_eq_ref cfg matrix hbyte] at hout
  have hn : out.length % 256 = out.length := Nat.mod_eq_of_lt (by omega)
  rw [hn] at hm
  have htake : (out ++ pressed_keys.drop out.length).take out.length = out := List.take_left' rfl
  exact ⟨_, _, hm, by rw [hout], by rw [htake, hout]⟩

/-- Claim C15 fails as stated: with two keys that carry the same keycode (two
space keys) both pressed, the pressed-key list holds that keycode twice. -/
theorem repeated_keycode_counterexample :
    (pressed_positions split_space_cfg [1, 2, 0, 0, 0, 0, 0, 0]).length ≤
      split_space_cfg.CHERRY8x16_MAX_NUM_OF_PRESSED_KEYS ∧
    matrix_to_keycode split_space_cfg [1, 2, 0, 0, 0, 0, 0, 0] [0, 0, 0, 0, 0, 0] =
      some ([0x2C, 0x2C, 0, 0, 0, 0], 2) ∧
    ¬ (([0x2C, 0x2C, 0, 0, 0, 0] : List Nat).take 2).Nodup := by
  decide

/-- Claim C15, amended: for a snapshot with at most `MAX_PRESSED` bits set, the
pressed-key list holds every keycode other than `KC_FN0` as often as there are
pressed positions that decode to it; so no keycode appears twice when no two
pressed positions decode to the same keycode other than `KC_FN0`. -/
theorem matrix_to_keycode_nodup_of_distinct (cfg : Config) (matrix pressed_keys : List Nat)
    (hbits : (pressed_positions cfg matrix).length ≤ cfg.CHERRY8x16_MAX_NUM_OF_PRESSED_KEYS)
    (hlen : pressed_keys.length = cfg.CHERRY8x16_MAX_NUM_OF_PRESSED_KEYS)
    (hmax : cfg.CHERRY8x16_MAX_NUM_OF_PRESSED_KEYS < 256)
    (hbyte : ∀ l j i, cfg.keymaps l j i < 256) :
    ∃ keys n, matrix_to_keycode cfg matrix pressed_keys = some (keys, n) ∧
      (∀ k, k ≠ cfg.KC_FN0 →
        (keys.take n).count k =
          ((pressed_positions cfg matrix).map (decoded_keycode cfg matrix)).count k) ∧
      ((pressed_positions cfg matrix).Pairwise
          (fun p q => decoded_keycode cfg matrix p = cfg.KC_FN0 ∨
            decoded_keycode cfg matrix p ≠ decoded_keycode cfg matrix q) →
        (keys.take n).Nodup) := by
  obtain ⟨keys, n, hm, _, htake⟩ :=
    matrix_to_keycode_decoded cfg matrix pressed_keys hbits hlen hmax hbyte
  rw [matrix_to_keycode_ref_eq] at htake
  refine ⟨keys, n, hm, ?_, ?_⟩
  · intro k hk
    rw [htake, List.count_filter (by simpa using hk)]
  · intro hpw
    rw [htake]
    have h1 : ((pressed_positions cfg matrix).map (decoded_keycode cfg matrix)).Pairwise
        (fun a b => a = cfg.KC_FN0 ∨ a ≠ b) := List.pairwise_map.mpr hpw
    have h2 := List.Pairwise.filter (fun k => decide (k ≠ cfg.KC_FN0)) h1
    refine List.Pairwise.imp_of_mem ?_ h2
    intro a b ha _ hab
    rw [List.mem_filter] at ha
    rcases hab with h | h
    · exact absurd h (by simpa using ha.2)
    · exact h

theorem matrix_to_keycode_nodup_of_distinct_witness :
    ∃ keys n, matrix_to_keycode sample_cfg [1, 2, 0, 8, 16, 0, 0, 0] [0, 0, 0, 0, 0, 0] =
        some (keys, n) ∧
      (∀ k, k ≠ sample_cfg.KC_FN0 →
        (keys.take n).count k =
          ((pressed_positions sample_cfg [1, 2, 0, 8, 16, 0, 0, 0]).map
            (decoded_keycode sample_cfg [1, 2, 0, 8, 16, 0, 0, 0])).count k) ∧
      ((pressed_positions sample_cfg [1, 2, 0, 8, 16, 0, 0, 0]).Pairwise
          (fun p q => decoded_keycode sample_cfg [1, 2, 0, 8, 16, 0, 0, 0] p = sample_cfg.KC_FN0 ∨
            decoded_keycode sample_cfg [1, 2, 0, 8, 16, 0, 0, 0] p ≠
              decoded_keycode sample_cfg [1, 2, 0, 8, 16, 0, 0, 0] q) →
        (keys.take n).Nodup) :=
  matrix_to_keycode_nodup_of_distinct sample_cfg [1, 2, 0, 8, 16, 0, 0, 0] [0, 0, 0, 0, 0, 0]
    (by decide) (by decide) (by decide)
    (by
      intro l j i
      show sample_keymaps l j i < 256
      unfold sample_keymaps
      split_ifs <;> decide)

theorem length_filter_add_length_filter_not (l : List Nat) (q : Nat → Bool) :
    (l.filter q).length + (l.filter (fun k => !q k)).length = l.length := by
  induction l with
  | nil => rfl
  | cons x xs ih =>
    by_cases hq : q x = true
    · rw [List.filter_cons_of_pos hq, List.filter_cons_of_neg (by simp [hq]), List.length_cons,
        List.length_cons]
      omega
    · rw [List.filter_cons_of_neg hq, List.filter_cons_of_pos (by simpa using hq),
        List.length_cons, List.length_cons]
      omega

theorem decoded_keycode_of_fn_position (cfg : Config) (matrix : List Nat) (p : Nat × Nat)
    (hp : p ∈ pressed_positions cfg matrix) (hb : base_keycode cfg p = cfg.KC_FN0)
    (ho : overlay_keycode cfg p = cfg.KC_TRANSPARENT ∨ overlay_keycode cfg p = cfg.KC_FN0) :
    decoded_keycode cfg matrix p = cfg.KC_FN0 := by
  unfold decoded_keycode
  by_cases ht : overlay_keycode cfg p = cfg.KC_TRANSPARENT
  · rw [if_neg (fun h => h.2 ht)]
    exact hb
  · have hact : overlay_active cfg matrix = true := by
      unfold overlay_active
      rw [List.any_eq_true]
      exact ⟨p, hp, by simpa using hb⟩
    rw [if_pos ⟨hact, ht⟩]
    rcases ho with h | h
    · exact absurd h ht
    · exact h

/-- Claim C16 fails as stated: with a keymap whose Fn position has the overlay
keycode Escape, a snapshot whose only pressed position is the Fn key decodes to
the one-entry list holding Escape, not to the empty list. -/
theorem fn_position_counterexample :
    pressed_positions fn_remap_cfg snapshot_fn = [(4, 4)] ∧
    base_keycode fn_remap_cfg (4, 4) = fn_remap_cfg.KC_FN0 ∧
    matrix_to_keycode fn_remap_cfg snapshot_fn [0, 0, 0, 0, 0, 0] =
      some ([0x29, 0, 0, 0, 0, 0], 1) ∧
    ([0x29, 0, 0, 0, 0, 0] : List Nat).take 1 ≠ [] := by
  decide

/-- Claim C16, amended: for a snapshot with at most `MAX_PRESSED` bits set, the
pressed-key list consists of the decoded keycodes of the pressed positions
other than `KC_FN0`, so it has one entry fewer than pressed positions for every
pressed position that decodes to `KC_FN0`. A pressed position with base keycode
`KC_FN0` decodes to `KC_FN0`, and so contributes no entry, when its overlay
keycode is `KC_TRANSPARENT` or `KC_FN0`; a snapshot whose only pressed position
is such an Fn key decodes to the empty list. -/
theorem fn_position_contributes_no_entry (cfg : Config) (matrix pressed_keys : List Nat)
    (hbits : (pressed_positions cfg matrix).length ≤ cfg.CHERRY8x16_MAX_NUM_OF_PRESSED_KEYS)
    (hlen : pressed_keys.length = cfg.CHERRY8x16_MAX_NUM_OF_PRESSED_KEYS)
    (hmax : cfg.CHERRY8x16_MAX_NUM_OF_PRESSED_KEYS < 256)
    (hbyte : ∀ l j i, cfg.keymaps l j i < 256) :
    ∃ keys n, matrix_to_keycode cfg matrix pressed_keys = some (keys, n) ∧
      keys.take n =
        ((pressed_positions cfg matrix).map (decoded_keycode cfg matrix)).filter
          (fun k => decide (k ≠ cfg.KC_FN0)) ∧
      n + (((pressed_positions cfg matrix).map (decoded_keycode cfg matrix)).filter
          (fun k => decide (k = cfg.KC_FN0))).length = (pressed_positions cfg matrix).length ∧
      (∀ p ∈ pressed_positions cfg matrix, base_keycode cfg p = cfg.KC_FN0 →
        (overlay_keycode cfg p = cfg.KC_TRANSPARENT ∨ overlay_keycode cfg p = cfg.KC_FN0) →
        decoded_keycode cfg matrix p = cfg.KC_FN0) ∧
      (∀ p, pressed_positions cfg matrix = [p] → base_keycode cfg p = cfg.KC_FN0 →
        (overlay_keycode cfg p = cfg.KC_TRANSPARENT ∨ overlay_keycode cfg p = cfg.KC_FN0) →
        n = 0 ∧ keys.take n = []) := by
  obtain ⟨keys, n, hm, hn, htake⟩ :=
    matrix_to_keycode_decoded cfg matrix pressed_keys hbits hlen hmax hbyte
  rw [matrix_to_keycode_ref_eq] at htake hn
  have hcount : n + (((pressed_positions cfg matrix).map (decoded_keycode cfg matrix)).filter
      (fun k => decide (k = cfg.KC_FN0))).length = (pressed_positions cfg matrix).length := by
    have h := length_filter_add_length_filter_not
      ((pressed_positions cfg matrix).map (decoded_keycode cfg matrix))
      (fun k => decide (k ≠ cfg.KC_FN0))
    have e : (fun k => !decide (k ≠ cfg.KC_FN0)) = (fun k => decide (k = cfg.KC_FN0)) := by
      funext k
      by_cases hk : k = cfg.KC_FN0 <;> simp [hk]
    rw [e, List.length_map] at h
    rw [hn]
    exact h
  refine ⟨keys, n, hm, htake, hcount, ?_, ?_⟩
  · intro p hp hb ho
    exact decoded_keycode_of_fn_position cfg matrix p hp hb ho
  · intro p hpos hb ho
    have hd := decoded_keycode_of_fn_position cfg matrix p (by rw [hpos]; simp) hb ho
    have hn0 : n = 0 := by
      rw [hn, hpos]
      simp [hd]
    exact ⟨hn0, by rw [hn0]; rfl⟩

theorem fn_position_contributes_no_entry_witness :
    ∃ keys n, matrix_to_keycode sample_cfg snapshot_fn [0, 0, 0, 0, 0, 0] = some (keys, n) ∧
      keys.take n =
        ((pressed_positions sample_cfg snapshot_fn).map
          (decoded_keycode sample_cfg snapshot_fn)).filter
          (fun k => decide (k ≠ sample_cfg.KC_FN0)) ∧
      n + (((pressed_positions sample_cfg snapshot_fn).map
          (decoded_keycode sample_cfg snapshot_fn)).filter
          (fun k => decide (k = sample_cfg.KC_FN0))).length =
        (pressed_positions sample_cfg snapshot_fn).length ∧
      (∀ p ∈ pressed_positions sample_cfg snapshot_fn,
        base_keycode sample_cfg p = sample_cfg.KC_FN0 →
        (overlay_keycode sample_cfg p = sample_cfg.KC_TRANSPARENT ∨
          overlay_keycode sample_cfg p = sample_cfg.KC_FN0) →
        decoded_keycode sample_cfg snapshot_fn p = sample_cfg.KC_FN0) ∧
      (∀ p, pressed_positions sample_cfg snapshot_fn = [p] →
        base_keycode sample_cfg p = sample_cfg.KC_FN0 →
        (overlay_keycode sample_cfg p = sample_cfg.KC_TRANSPARENT ∨
          overlay_keycode sample_cfg p = sample_cfg.KC_FN0) →
        n = 0 ∧ keys.take n = []) :=
  fn_position_contributes_no_entry sample_cfg snapshot_fn [0, 0, 0, 0, 0, 0]
    (by decide) (by decide) (by decide)
    (by
      intro l j i
      show sample_keymaps l j i < 256
      unfold sample_keymaps
      split_ifs <;> decide)

/-! ## Ghost detector: the exact rejection condition -/

/-- Claim C19 fails as stated: the snapshot `snapshot_L` has no two distinct
rows that both have two set bits and share a bit (only row 0 has two bits),
yet the ghost check rejects it. -/
theorem ghost_pair_counterexample :
    (¬ ∃ i j, i < sample_cfg.MATRIX_ROWS ∧ j < sample_cfg.MATRIX_ROWS ∧ i ≠ j ∧
      (∃ c1 c2, c1 ≠ c2 ∧ (snapshot_L.getD i 0).testBit c1 = true ∧
        (snapshot_L.getD i 0).testBit c2 = true) ∧
      (∃ c1 c2, c1 ≠ c2 ∧ (snapshot_L.getD j 0).testBit c1 = true ∧
        (snapshot_L.getD j 0).testBit c2 = true) ∧
      (∃ c, (snapshot_L.getD i 0).testBit c = true ∧ (snapshot_L.getD j 0).testBit c = true)) ∧
    (ghost_check sample_cfg snapshot_L).2 = false ∧
    keymatrix_read sample_cfg idle_snapshot (steady_sweeps snapshot_L) =
      some (snapshot_L, false) := by
  refine ⟨?_, by decide, by decide⟩
  have hrow : ∀ r, r < 8 →
      (∃ c1 c2, c1 ≠ c2 ∧ (snapshot_L.getD r 0).testBit c1 = true ∧
        (snapshot_L.getD r 0).testBit c2 = true) → r = 0 := by
    rintro r hr ⟨c1, c2, hne, h1, h2⟩
    by_contra h0
    have hone := at_most_one_bit_of_zero_or_pow (snapshot_L.getD r 0)
      (by
        interval_cases r
        · exact absurd rfl h0
        · exact Or.inr ⟨0, rfl⟩
        all_goals exact Or.inl rfl) c1 c2 h1 h2
    exact hne hone
  rintro ⟨i, j, hi, hj, hij, h2i, h2j, _⟩
  have hi0 := hrow i hi h2i
  have hj0 := hrow j hj h2j
  exact hij (hi0.trans hj0.symm)

/-- Claim C19, amended: the ghost check rejects a snapshot exactly when some
row with at least two bits set shares a set bit with another row, whatever the
number of bits of that other row; every snapshot without such a pair of rows is
returned as usable. -/
theorem ghost_check_rejects_iff (cfg : Config) (md0 : List Nat)
    (sweeps : List (List Nat)) (snapshot : List Nat) (rest : List (List Nat))
    (hd : debounce_loop cfg sweeps md0 1 = some (snapshot, rest))
    (hu16 : ∀ x ∈ snapshot, x < 65536) :
    ((ghost_check cfg snapshot).2 = false ↔
      ∃ i j, i < cfg.MATRIX_ROWS ∧ j < cfg.MATRIX_ROWS ∧ i ≠ j ∧
        (∃ c1 c2, c1 ≠ c2 ∧ (snapshot.getD i 0).testBit c1 = true ∧
          (snapshot.getD i 0).testBit c2 = true) ∧
        (∃ c, (snapshot.getD i 0).testBit c = true ∧ (snapshot.getD j 0).testBit c = true)) ∧
    ((¬ ∃ i j, i < cfg.MATRIX_ROWS ∧ j < cfg.MATRIX_ROWS ∧ i ≠ j ∧
        (∃ c1 c2, c1 ≠ c2 ∧ (snapshot.getD i 0).testBit c1 = true ∧
          (snapshot.getD i 0).testBit c2 = true) ∧
        (∃ c, (snapshot.getD i 0).testBit c = true ∧ (snapshot.getD j 0).testBit c = true)) →
      keymatrix_read cfg md0 sweeps = some ((ghost_check cfg snapshot).1, true)) := by
  have hlt : ∀ i, snapshot.getD i 0 < 2 ^ 32 := fun i =>
    Nat.lt_trans (getD_lt_of_forall_mem snapshot 65536 (by decide) hu16 i) (by decide)
  have hiff : ghost_flag cfg snapshot = true ↔
      ∃ i j, i < cfg.MATRIX_ROWS ∧ j < cfg.MATRIX_ROWS ∧ i ≠ j ∧
        (∃ c1 c2, c1 ≠ c2 ∧ (snapshot.getD i 0).testBit c1 = true ∧
          (snapshot.getD i 0).testBit c2 = true) ∧
        (∃ c, (snapshot.getD i 0).testBit c = true ∧ (snapshot.getD j 0).testBit c = true) := by
    rw [ghost_flag_true_iff]
    constructor
    · rintro ⟨i, hi, hm, j, hj, hij, hl⟩
      exact ⟨i, j, hi, hj, hij, (more_than_one_key_iff _ (hlt i)).mp hm,
        (land_ne_zero_iff _ _).mp hl⟩
    · rintro ⟨i, j, hi, hj, hij, h2, hsh⟩
      exact ⟨i, hi, (more_than_one_key_iff _ (hlt i)).mpr h2, j, hj, hij,
        (land_ne_zero_iff _ _).mpr hsh⟩
  have h2 : (ghost_check cfg snapshot).2 = !ghost_flag cfg snapshot := rfl
  constructor
  · rw [h2, ← hiff]
    cases ghost_flag cfg snapshot <;> simp
  · intro hno
    have hg : ghost_flag cfg snapshot = false := by
      cases hb : ghost_flag cfg snapshot with
      | false => rfl
      | true => exact absurd (hiff.mp hb) hno
    rw [keymatrix_read_of_debounce cfg md0 sweeps snapshot rest hd]
    have : (ghost_check cfg snapshot).2 = true := by rw [h2, hg]; rfl
    rw [← this]

theorem ghost_check_rejects_iff_witness :
    ((ghost_check sample_cfg snapshot_L).2 = false ↔
      ∃ i j, i < sample_cfg.MATRIX_ROWS ∧ j < sample_cfg.MATRIX_ROWS ∧ i ≠ j ∧
        (∃ c1 c2, c1 ≠ c2 ∧ (snapshot_L.getD i 0).testBit c1 = true ∧
          (snapshot_L.getD i 0).testBit c2 = true) ∧
        (∃ c, (snapshot_L.getD i 0).testBit c = true ∧
          (snapshot_L.getD j 0).testBit c = true)) ∧
    ((¬ ∃ i j, i < sample_cfg.MATRIX_ROWS ∧ j < sample_cfg.MATRIX_ROWS ∧ i ≠ j ∧
        (∃ c1 c2, c1 ≠ c2 ∧ (snapshot_L.getD i 0).testBit c1 = true ∧
          (snapshot_L.getD i 0).testBit c2 = true) ∧
        (∃ c, (snapshot_L.getD i 0).testBit c = true ∧
          (snapshot_L.getD j 0).testBit c = true)) →
      keymatrix_read sample_cfg idle_snapshot (steady_sweeps snapshot_L) =
        some ((ghost_check sample_cfg snapshot_L).1, true)) :=
  ghost_check_rejects_iff sample_cfg idle_snapshot (steady_sweeps snapshot_L) snapshot_L []
    (by decide) (by decide)

/-! ## Matrix scanner: the debounce loop -/

theorem sweep_changes_false_iff (cfg : Config) (md rd : List Nat) :
    sweep_changes cfg md rd = false ↔
      ∀ r, r < cfg.MATRIX_ROWS → md.getD r 0 = rd.getD r 0 := by
  unfold sweep_changes
  rw [List.any_eq_false]
  constructor
  · intro h r hr
    have := h r (List.mem_range.mpr hr)
    rw [decide_eq_true_iff] at this
    exact not_not.mp this
  · intro h r hr
    rw [decide_eq_true_iff]
    exact not_not.mpr (h r (List.mem_range.mp hr))

theorem sweep_fold_unchanged (rd : List Nat) (rows : List Nat) (md : List Nat) (d : Nat)
    (h : ∀ r ∈ rows, md.getD r 0 = rd.getD r 0) :
    rows.foldl
        (fun (acc : List Nat × Nat) r =>
          let cols := rd.getD r 0
          if acc.1.getD r 0 ≠ cols then (acc.1.set r cols, 3) else acc)
        (md, d) = (md, d) := by
  induction rows with
  | nil => rfl
  | cons r rows ih =>
    rw [List.foldl_cons]
    have hr : md.getD r 0 = rd.getD r 0 := h r (List.mem_cons_self _ _)
    have hstep : (let cols := rd.getD r 0
        if (md, d).1.getD r 0 ≠ cols then ((md, d).1.set r cols, 3) else (md, d)) = (md, d) :=
      if_neg (not_not.mpr hr)
    rw [hstep]
    exact ih (fun r' hr' => h r' (List.mem_cons_of_mem _ hr'))

theorem sweep_fold_three (rd : List Nat) (rows : List Nat) (md : List Nat) :
    (rows.foldl
        (fun (acc : List Nat × Nat) r =>
          let cols := rd.getD r 0
          if acc.1.getD r 0 ≠ cols then (acc.1.set r cols, 3) else acc)
        (md, 3)).2 = 3 := by
  induction rows generalizing md with
  | nil => rfl
  | cons r rows ih =>
    rw [List.foldl_cons]
    by_cases hr : md.getD r 0 = rd.getD r 0
    · have hstep : (let cols := rd.getD r 0
          if (md, 3).1.getD r 0 ≠ cols then ((md, 3).1.set r cols, 3) else (md, 3)) = (md, 3) :=
        if_neg (not_not.mpr hr)
      rw [hstep]
      exact ih md
    · have hstep : (let cols := rd.getD r 0
          if (md, 3).1.getD r 0 ≠ cols then ((md, 3).1.set r cols, 3) else (md, 3)) =
          (md.set r (rd.getD r 0), 3) := if_pos hr
      rw [hstep]
      exact ih _

theorem sweep_fold_changed (rd : List Nat) (rows : List Nat) (md : List Nat) (d : Nat)
    (h : ∃ r ∈ rows, md.getD r 0 ≠ rd.getD r 0) :
    (rows.foldl
        (fun (acc : List Nat × Nat) r =>
          let cols := rd.getD r 0
          if acc.1.getD r 0 ≠ cols then (acc.1.set r cols, 3) else acc)
        (md, d)).2 = 3 := by
  induction rows with
  | nil =>
    obtain ⟨r, hr, _⟩ := h
    simp at hr
  | cons r rows ih =>
    rw [List.foldl_cons]
    by_cases hr : md.getD r 0 = rd.getD r 0
    · have hstep : (let cols := rd.getD r 0
          if (md, d).1.getD r 0 ≠ cols then ((md, d).1.set r cols, 3) else (md, d)) = (md, d) :=
        if_neg (not_not.mpr hr)
      rw [hstep]
      apply ih
      obtain ⟨r', hr', hne⟩ := h
      rcases List.mem_cons.mp hr' with e | e
      · subst e; exact absurd hr hne
      · exact ⟨r', e, hne⟩
    · have hstep : (let cols := rd.getD r 0
          if (md, d).1.getD r 0 ≠ cols then ((md, d).1.set r cols, 3) else (md, d)) =
          (md.set r (rd.getD r 0), 3) := if_pos hr
      rw [hstep]
      exact sweep_fold_three rd rows _

theorem sweep_fold_fst (rd : List Nat) (rows : List Nat) (md : List Nat) (d d' : Nat) :
    (rows.foldl
        (fun (acc : List Nat × Nat) r =>
          let cols := rd.getD r 0
          if acc.1.getD r 0 ≠ cols then (acc.1.set r cols, 3) else acc)
        (md, d)).1 =
    (rows.foldl
        (fun (acc : List Nat × Nat) r =>
          let cols := rd.getD r 0
          if acc.1.getD r 0 ≠ cols then (acc.1.set r cols, 3) else acc)
        (md, d')).1 := by
  induction rows generalizing md d d' with
  | nil => rfl
  | cons r rows ih =>
    rw [List.foldl_cons, List.foldl_cons]
    by_cases hr : md.getD r 0 = rd.getD r 0
    · have h1 : (let cols := rd.getD r 0
          if (md, d).1.getD r 0 ≠ cols then ((md, d).1.set r cols, 3) else (md, d)) = (md, d) :=
        if_neg (not_not.mpr hr)
      have h2 : (let cols := rd.getD r 0
          if (md, d').1.getD r 0 ≠ cols then ((md, d').1.set r cols, 3) else (md, d')) =
          (md, d') := if_neg (not_not.mpr hr)
      rw [h1, h2]
      exact ih md d d'
    · have h1 : (let cols := rd.getD r 0
          if (md, d).1.getD r 0 ≠ cols then ((md, d).1.set r cols, 3) else (md, d)) =
          (md.set r (rd.getD r 0), 3) := if_pos hr
      have h2 : (let cols := rd.getD r 0
          if (md, d').1.getD r 0 ≠ cols then ((md, d').1.set r cols, 3) else (md, d')) =
          (md.set r (rd.getD r 0), 3) := if_pos hr
      rw [h1, h2]

theorem sweep_rows_of_unchanged (cfg : Config) (md rd : List Nat) (d : Nat)
    (h : sweep_changes cfg md rd = false) : sweep_rows cfg md d rd = (md, d) := by
  unfold sweep_rows
  apply sweep_fold_unchanged
  intro r hr
  exact (sweep_changes_false_iff cfg md rd).mp h r (List.mem_range.mp hr)

theorem sweep_rows_of_changed (cfg : Config) (md rd : List Nat) (d : Nat)
    (h : sweep_changes cfg md rd = true) : (sweep_rows cfg md d rd).2 = 3 := by
  unfold sweep_rows
  apply sweep_fold_changed
  unfold sweep_changes at h
  rw [List.any_eq_true] at h
  obtain ⟨r, hr, hne⟩ := h
  exact ⟨r, hr, by simpa using hne⟩

theorem sweep_rows_fst (cfg : Config) (md rd : List Nat) (d : Nat) :
    (sweep_rows cfg md d rd).1 = (sweep_rows cfg md 0 rd).1 := by
  unfold sweep_rows
  exact sweep_fold_fst rd _ md d 0

/-- The sweeps consumed by the debounce loop started with the counter `d`:
either `d` sweeps that all leave the working snapshot unchanged, or sweeps up
to a last changing one followed by exactly three sweeps that leave the
snapshot unchanged. -/
theorem debounce_loop_trace (cfg : Config) (sweeps : List (List Nat)) (md : List Nat) (d : Nat)
    (md' : List Nat) (rest : List (List Nat))
    (h : debounce_loop cfg sweeps md d = some (md', rest)) :
    ∃ used, sweeps = used ++ rest ∧
      ((used.length = d ∧ md' = md ∧ ∀ t ∈ used, sweep_changes cfg md t = false) ∨
       (∃ pre c tail, used = pre ++ c :: tail ∧
          sweep_changes cfg (snapshot_after cfg md pre) c = true ∧ tail.length = 3 ∧
          md' = (sweep_rows cfg (snapshot_after cfg md pre) 0 c).1 ∧
          ∀ t ∈ tail, sweep_changes cfg md' t = false)) := by
  induction sweeps generalizing md d with
  | nil =>
    cases d with
    | zero =>
      simp only [debounce_loop, Option.some.injEq, Prod.mk.injEq] at h
      exact ⟨[], by rw [← h.2]; rfl, Or.inl ⟨rfl, h.1.symm, by simp⟩⟩
    | succ d => simp [debounce_loop] at h
  | cons rd sw ih =>
    cases d with
    | zero =>
      simp only [debounce_loop, Option.some.injEq, Prod.mk.injEq] at h
      exact ⟨[], by rw [← h.2]; rfl, Or.inl ⟨rfl, h.1.symm, by simp⟩⟩
    | succ d =>
      simp only [debounce_loop] at h
      by_cases hc : sweep_changes cfg md rd = true
      · have h3 := sweep_rows_of_changed cfg md rd d hc
        rw [h3, sweep_rows_fst] at h
        obtain ⟨used, hu, hcase⟩ := ih _ _ h
        refine ⟨rd :: used, by rw [hu]; rfl, Or.inr ?_⟩
        rcases hcase with ⟨hl, hmd, hall⟩ | ⟨pre, c, tail, hused, hch, htl, hmd, hall⟩
        · refine ⟨[], rd, used, rfl, hc, hl, hmd, ?_⟩
          intro t ht
          rw [hmd]
          exact hall t ht
        · exact ⟨rd :: pre, c, tail, by rw [hused]; rfl, hch, htl, hmd, hall⟩
      · have hcf : sweep_changes cfg md rd = false := by
          cases hb : sweep_changes cfg md rd with
          | false => rfl
          | true => exact absurd hb hc
        rw [sweep_rows_of_unchanged cfg md rd d hcf] at h
        obtain ⟨used, hu, hcase⟩ := ih _ _ h
        refine ⟨rd :: used, by rw [hu]; rfl, ?_⟩
        have hsnap : ∀ pre, snapshot_after cfg md (rd :: pre) = snapshot_after cfg md pre := by
          intro pre
          show snapshot_after cfg (sweep_rows cfg md 0 rd).1 pre = _
          rw [sweep_rows_of_unchanged cfg md rd 0 hcf]
        rcases hcase with ⟨hl, hmd, hall⟩ | ⟨pre, c, tail, hused, hch, htl, hmd, hall⟩
        · left
          refine ⟨by rw [List.length_cons, hl], hmd, ?_⟩
          intro t ht
          rcases List.mem_cons.mp ht with e | e
          · rw [e]; exact hcf
          · exact hall t e
        · right
          exact ⟨rd :: pre, c, tail, by rw [hused]; rfl, by rw [hsnap]; exact hch, htl,
            by rw [hsnap]; exact hmd, hall⟩

/-- Claim C20: when the debounce loop of `keymatrix_read` terminates on a
sequence of sweeps, the snapshot it hands on equals the readings of the last
sweep it performed. If some sweep changed the working snapshot, the loop ends
exactly three sweeps after the last changing sweep, and those three sweeps read
the final snapshot. The loop performs a single sweep exactly when the first
sweep equals the initial working snapshot. -/
theorem debounce_loop_confirms (cfg : Config) (md0 : List Nat) (sweeps : List (List Nat))
    (snapshot : List Nat) (rest : List (List Nat))
    (h : debounce_loop cfg sweeps md0 1 = some (snapshot, rest)) :
    ∃ used last, sweeps = used ++ rest ∧ used.getLast? = some last ∧
      (∀ r, r < cfg.MATRIX_ROWS → snapshot.getD r 0 = last.getD r 0) ∧
      ((∃ pre t post, used = pre ++ t :: post ∧
          sweep_changes cfg (snapshot_after cfg md0 pre) t = true) →
        ∃ pre c s1 s2 s3, used = pre ++ [c, s1, s2, s3] ∧
          sweep_changes cfg (snapshot_after cfg md0 pre) c = true ∧
          snapshot = snapshot_after cfg md0 (pre ++ [c]) ∧
          ∀ t ∈ [s1, s2, s3], sweep_changes cfg snapshot t = false ∧
            ∀ r, r < cfg.MATRIX_ROWS → t.getD r 0 = snapshot.getD r 0) ∧
      (used.length = 1 ↔
        ∀ r, r < cfg.MATRIX_ROWS → (sweeps.headD []).getD r 0 = md0.getD r 0) := by
  obtain ⟨used, hu, hcase⟩ := debounce_loop_trace cfg sweeps md0 1 snapshot rest h
  rcases hcase with ⟨hl, hmd, hall⟩ | ⟨pre, c, tail, hused, hch, htl, hmd, hall⟩
  · -- a single sweep, which changes nothing
    obtain ⟨last, hlast⟩ : ∃ last, used = [last] := List.length_eq_one.mp hl
    subst hlast
    have hno := hall last (List.mem_singleton.mpr rfl)
    have hrows := (sweep_changes_false_iff cfg md0 last).mp hno
    refine ⟨[last], last, hu, rfl, ?_, ?_, ?_⟩
    · intro r hr
      rw [hmd]
      exact hrows r hr
    · rintro ⟨pre, t, post, hsplit, hchg⟩
      exfalso
      have hlen := congrArg List.length hsplit
      simp at hlen
      have hpre : pre = [] := List.length_eq_zero.mp (by omega)
      subst hpre
      simp only [List.nil_append, List.cons.injEq] at hsplit
      rw [← hsplit.1] at hchg
      rw [show snapshot_after cfg md0 [] = md0 from rfl, hno] at hchg
      exact absurd hchg (by decide)
    · constructor
      · intro _ r hr
        rw [hu]
        exact (hrows r hr).symm
      · intro _
        rfl
  · -- a last changing sweep followed by three confirming sweeps
    match tail, htl with
    | [s1, s2, s3], _ =>
      have hsnap : snapshot = snapshot_after cfg md0 (pre ++ [c]) := by
        rw [hmd]
        clear hused hch hmd hall hu h
        induction pre generalizing md0 with
        | nil => rfl
        | cons p pre ihp => exact ihp _
      refine ⟨used, s3, hu, by rw [hused]; simp, ?_, ?_, ?_⟩
      · intro r hr
        exact (sweep_changes_false_iff cfg snapshot s3).mp (hall s3 (by simp)) r hr
      · intro _
        refine ⟨pre, c, s1, s2, s3, hused, hch, hsnap, ?_⟩
        intro t ht
        refine ⟨hall t ht, fun r hr => ?_⟩
        exact ((sweep_changes_false_iff cfg snapshot t).mp (hall t ht) r hr).symm
      · constructor
        · intro hlen
          rw [hused] at hlen
          simp at hlen
        · intro hfirst
          exfalso
          -- the first sweep leaves the snapshot unchanged, so the loop stops after it
          cases hsw : sweeps with
          | nil => rw [hsw] at h; simp [debounce_loop] at h
          | cons rd sw =>
            rw [hsw] at h hfirst hu
            have hcf : sweep_changes cfg md0 rd = false :=
              (sweep_changes_false_iff cfg md0 rd).mpr (fun r hr => (hfirst r hr).symm)
            simp only [debounce_loop] at h
            rw [sweep_rows_of_unchanged cfg md0 rd 0 hcf] at h
            simp only [debounce_loop, Option.some.injEq, Prod.mk.injEq] at h
            have hlen := congrArg List.length hu
            rw [hused, ← h.2] at hlen
            simp at hlen
            omega

theorem debounce_loop_confirms_witness :
    ∃ used last, [snapshot_B, snapshot_AB, snapshot_AB, snapshot_AB, snapshot_AB, snapshot_BC] =
        used ++ [snapshot_BC] ∧ used.getLast? = some last ∧
      (∀ r, r < sample_cfg.MATRIX_ROWS → snapshot_AB.getD r 0 = last.getD r 0) ∧
      ((∃ pre t post, used = pre ++ t :: post ∧
          sweep_changes sample_cfg (snapshot_after sample_cfg idle_snapshot pre) t = true) →
        ∃ pre c s1 s2 s3, used = pre ++ [c, s1, s2, s3] ∧
          sweep_changes sample_cfg (snapshot_after sample_cfg idle_snapshot pre) c = true ∧
          snapshot_AB = snapshot_after sample_cfg idle_snapshot (pre ++ [c]) ∧
          ∀ t ∈ [s1, s2, s3], sweep_changes sample_cfg snapshot_AB t = false ∧
            ∀ r, r < sample_cfg.MATRIX_ROWS → t.getD r 0 = snapshot_AB.getD r 0) ∧
      (used.length = 1 ↔
        ∀ r, r < sample_cfg.MATRIX_ROWS →
          (([snapshot_B, snapshot_AB, snapshot_AB, snapshot_AB, snapshot_AB,
              snapshot_BC] : List (List Nat)).headD []).getD r 0 = idle_snapshot.getD r 0) :=
  debounce_loop_confirms sample_cfg idle_snapshot
    [snapshot_B, snapshot_AB, snapshot_AB, snapshot_AB, snapshot_AB, snapshot_BC]
    snapshot_AB [snapshot_BC] (by decide)

/-! ## Report builder: a modifier and one key -/

theorem keep_first_occurrences_of_all_eq (a : Nat) (l : List Nat) (h : ∀ x ∈ l, x = a)
    (hne : l ≠ []) : keep_first_occurrences l = [a] := by
  induction l with
  | nil => exact absurd rfl hne
  | cons x xs ih =>
    have hx : x = a := h x (List.mem_cons_self _ _)
    subst hx
    have e : keep_first_occurrences (x :: xs) =
        x :: (keep_first_occurrences xs).filter (fun y => decide (y ≠ x)) := rfl
    rw [e]
    congr 1
    rw [keep_first_occurrences_filter]
    have hnil : xs.filter (fun y => decide (y ≠ x)) = [] := by
      rw [List.filter_eq_nil_iff]
      intro y hy
      have := h y (List.mem_cons_of_mem _ hy)
      simp [this]
    rw [hnil]
    rfl

/-- What claim C11 describes does hold when the held modifier is not in the
previous key list: the modifier bit is set, key slot 0 holds `A` and all other
key slots are empty. -/
theorem shift_A_report_without_carried_modifier (cfg : Config) (st : State) (i : Nat)
    (hpkt : st.m_key_packet.length = KEY_PACKET_SIZE cfg)
    (hm : 1 ≤ cfg.CHERRY8x16_MAX_NUM_OF_PRESSED_KEYS) (hi : i < 8)
    (hc : st.m_num_of_currently_pressed_keys ≤ st.m_currently_pressed_keys.length)
    (ht : st.m_number_of_transmitted_keys ≤ st.m_transmitted_keys.length)
    (hcur : st.current_keys = (MODIFIER_HID_START + i) :: [0x04] ∨
      st.current_keys = [0x04, MODIFIER_HID_START + i])
    (hprev : MODIFIER_HID_START + i ∉ st.transmitted_keys) :
    ((cherry8x16_keypacket_create cfg st).getD KEY_PACKET_MODIFIER_KEY_INDEX 0).testBit i = true ∧
    (cherry8x16_keypacket_create cfg st).drop KEY_PACKET_KEY_INDEX =
      0x04 :: List.replicate (cfg.CHERRY8x16_MAX_NUM_OF_PRESSED_KEYS - 1) 0 := by
  have e := keypacket_create_eq cfg st hpkt
  rw [keys_read_eq_take _ _ hc, keys_read_eq_take _ _ ht] at e
  have hcur2 : st.m_currently_pressed_keys.take st.m_num_of_currently_pressed_keys =
      st.current_keys := rfl
  have hprev2 : st.m_transmitted_keys.take st.m_number_of_transmitted_keys =
      st.transmitted_keys := rfl
  rw [hcur2, hprev2] at e
  have hmodS : is_modifier (MODIFIER_HID_START + i) = true := by
    unfold is_modifier
    rw [decide_eq_true_iff]
    have h224 : MODIFIER_HID_START = 224 := rfl
    have h231 : MODIFIER_HID_END = 231 := rfl
    constructor <;> omega
  have hmodA : is_modifier 0x04 = false := by decide
  have hmemS : MODIFIER_HID_START + i ∈ st.current_keys := by
    rcases hcur with h | h <;> rw [h] <;> simp
  have hfilt : st.current_keys.filter (fun k => !is_modifier k) = [0x04] := by
    rcases hcur with h | h
    · rw [h, List.filter_cons_of_neg (by simp [hmodS]), List.filter_cons_of_pos (by simp [hmodA])]
      rfl
    · rw [h, List.filter_cons_of_pos (by simp [hmodA]), List.filter_cons_of_neg (by simp [hmodS])]
      rfl
  have hall : ∀ x ∈ offered_keys st.transmitted_keys st.current_keys, x = 0x04 := by
    intro x hx
    unfold offered_keys at hx
    rw [hfilt, List.mem_append, List.mem_filter, List.mem_singleton] at hx
    rcases hx with ⟨hxp, hxc⟩ | hx
    · have hxc2 : x ∈ st.current_keys := by simpa using hxc
      have hne : x ≠ MODIFIER_HID_START + i := fun h => hprev (h ▸ hxp)
      rcases hcur with h | h <;> rw [h] at hxc2 <;> simp at hxc2 <;> rcases hxc2 with h1 | h1
      · exact absurd h1 hne
      · exact h1
      · exact h1
      · exact absurd h1 hne
    · exact hx
  have hne : offered_keys st.transmitted_keys st.current_keys ≠ [] := by
    unfold offered_keys
    rw [hfilt]
    simp
  have hkeys : report_keys cfg.CHERRY8x16_MAX_NUM_OF_PRESSED_KEYS st.transmitted_keys
      st.current_keys = [0x04] := by
    rw [report_keys_eq_keep_first]
    have hf : (offered_keys st.transmitted_keys st.current_keys).filter
        (fun k => decide (k ≠ 0)) = offered_keys st.transmitted_keys st.current_keys := by
      rw [List.filter_eq_self]
      intro x hx
      rw [hall x hx]
      decide
    rw [hf, keep_first_occurrences_of_all_eq 0x04 _ hall hne]
    exact List.take_of_length_le (by simpa using hm)
  rw [e, hkeys]
  constructor
  · have hget : ∀ (a b : Nat) (l : List Nat),
        ([a, b] ++ l).getD KEY_PACKET_MODIFIER_KEY_INDEX 0 = a := fun _ _ _ => rfl
    rw [hget, testBit_modifier_mask _ _ _ hi]
    simpa using hmemS
  · rfl

theorem shift_A_report_without_carried_modifier_example :
    ((cherry8x16_keypacket_create sample_cfg
        { state_shift_A with m_number_of_transmitted_keys := 0 }).getD
          KEY_PACKET_MODIFIER_KEY_INDEX 0).testBit 1 = true ∧
    (cherry8x16_keypacket_create sample_cfg
        { state_shift_A with m_number_of_transmitted_keys := 0 }).drop KEY_PACKET_KEY_INDEX =
      0x04 :: List.replicate (sample_cfg.CHERRY8x16_MAX_NUM_OF_PRESSED_KEYS - 1) 0 :=
  shift_A_report_without_carried_modifier sample_cfg
    { state_shift_A with m_number_of_transmitted_keys := 0 } 1
    (by decide) (by decide) (by decide) (by decide) (by decide) (Or.inr (by decide)) (by decide)

end KeyboardDriver
